import Mathlib

/-!
# Operating model of the iSCAM management-strategy evaluation (`milka.cpp`)

A shallow embedding of `src/admb-code/lib/milka.cpp` and the properties of its
set-up methods and of its yearly loop.

* `double` is modelled by a linearly ordered field `α` (exact arithmetic).  The
  theorems take `α = ℝ`.
* The elementary functions are parameters of the methods that call them: `ex`
  for `exp`, `lg` for `log` and `mfexp` for ADMB's bounded exponential.  The
  theorems pass `Real.exp` and `Real.log`.
* ADMB arrays (`dvector`, `dmatrix`, `d3_array`, ...) are functions of their
  indices.  Indices are natural numbers, except the columns of the
  age-composition and weight tables, which start at `n_A_sage - 5` and
  `sage - 5`, and the year index of `m_log_rt`, which starts at
  `syr - nage + sage`; these are integers.
  Whole-vector statements such as `m_Z(ig)(iyr) = m_M(ig)(iyr) + m_F(ig)(iyr)`
  act on every age of the row; `sum`, `colsum` and dot products run over the
  declared index range.
* `for (i = lo; i <= hi; i++)` is `forLoop lo hi`, a left fold over
  `lo, lo+1, ..., hi`; `for (i = lo; i < hi; i++)` is `forLoopLt lo hi`.
* The class `model_data`, the struct `ModelVariables` and the projection
  controls read by `readMSEcontrols` are never written by the yearly loop; they
  are gathered in `ModelData`.  The members the methods write are the fields of
  `OperatingModel`.
* `retention_probability` and the class `BaranovCatchEquation` are declared
  outside `milka.cpp`.  `implementFisheries` takes both as parameters; the
  solver is modelled from the specification for the round-trip property.
-/

namespace Milka

/-- The counted loop `for (i = lo; i <= hi; i++) s = body i s`. -/
def forLoop {σ : Type} (lo hi : Nat) (body : Nat → σ → σ) (s : σ) : σ :=
  (List.range' lo (hi + 1 - lo)).foldl (fun acc i => body i acc) s

/-- The counted loop `for (i = lo; i < hi; i++) s = body i s`. -/
def forLoopLt {σ : Type} (lo hi : Nat) (body : Nat → σ → σ) (s : σ) : σ :=
  (List.range' lo (hi - lo)).foldl (fun acc i => body i acc) s

/-- ADMB `sum(v)` for a vector with index range `lo..hi`. -/
def vsum {α : Type} [AddCommMonoid α] (lo hi : Nat) (v : Nat → α) : α :=
  ∑ a ∈ Finset.Icc lo hi, v a

/-- The assignment `v(i) = x` to one element of a vector. -/
def assign1 {β : Type} (v : Nat → β) (i : Nat) (x : β) : Nat → β :=
  fun i' => if i' = i then x else v i'

/-- The assignment `A(i,j) = x` to one element of a matrix. -/
def assign2 {β : Type} (A : Nat → Nat → β) (i j : Nat) (x : β) : Nat → Nat → β :=
  fun i' j' => if i' = i ∧ j' = j then x else A i' j'

/-- The assignment `A(i)(j,k) = x` to one element of a 3d array. -/
def assign3 {β : Type} (A : Nat → Nat → Nat → β) (i j k : Nat) (x : β) :
    Nat → Nat → Nat → β :=
  fun i' j' k' => if i' = i ∧ j' = j ∧ k' = k then x else A i' j' k'

/-- Data of the base class `model_data`, of `ModelVariables mv`, and the
controls read by `readMSEcontrols`. -/
structure ModelData (α : Type) where
  narea : Nat
  ngroup : Nat
  nsex : Nat
  nfleet : Nat
  ngear : Nat
  sage : Nat
  nage : Nat
  syr : Nat
  nyr : Nat
  n_ags : Nat
  n_ag : Nat
  pntr_ags : Nat → Nat → Nat → Nat
  pntr_ag : Nat → Nat → Nat
  n_area : Nat → Nat
  n_group : Nat → Nat
  d_a : Nat → α
  d_b : Nat → α
  d_iscamCntrl : Nat → α
  nFleetIndex : Nat → Nat
  nCtNobs : Nat
  nAgears : Nat
  n_A_sage : Nat → Nat
  n_A_nage : Nat → Nat
  n_A_nobs : Nat → Nat
  mv_so : Nat → α
  mv_sbo : Nat → α
  m_nPyr : Nat
  m_nHCR : Nat
  m_nGearIndex : Nat → Nat
  m_nCSex : Nat → Nat
  m_nASex : Nat → Nat
  m_dLslim : Nat → α
  m_dUslim : Nat → α
  m_dDiscMortRate : Nat → α
  m_nAGopen : Nat → Nat → Nat
  m_nRecType : Nat
  m_dispersal : Nat → Nat → α
  m_nWSex : Nat → Nat
  dAllocation : Nat → α
  dCatchData : Nat → Nat → α
  nItNobs : Nat
  n_it_nobs : Nat → Nat
  d3_survey_data : Nat → Nat → Nat → α
  d3_A : Nat → Nat → Int → α
  nWtTab : Nat
  nWtNobs : Nat → Nat
  d3_inp_wt_avg : Nat → Nat → Int → α
  d3_wt_avg : Nat → Nat → Nat → α
  d3_wt_mat : Nat → Nat → Nat → α
  mv_log_ro : Nat → α
  mv_steepness : Nat → α
  mv_log_rbar : Nat → α
  mv_log_rinit : Nat → α
  mv_log_rec_devs : Nat → Nat → α
  mv_init_log_rec_devs : Nat → Nat → α
  mv_q : Nat → α
  mv_sbt : Nat → Nat → α
  mv_d3_M : Nat → Nat → Nat → α
  mv_d3_F : Nat → Nat → Nat → α
  mv_d3_ft : Nat → Nat → Nat → α
  mv_d4_logSel : Nat → Nat → Nat → Nat → α
  n_survey_type : Nat → Nat

/-- The members of `OperatingModel` that its methods write. -/
structure OperatingModel (α : Type) where
  m_N : Nat → Nat → Nat → α
  m_M : Nat → Nat → Nat → α
  m_F : Nat → Nat → Nat → α
  m_Z : Nat → Nat → Nat → α
  m_S : Nat → Nat → Nat → α
  m_ft : Nat → Nat → Nat → α
  m_d3_wt_avg : Nat → Nat → Nat → α
  m_d3_wt_mat : Nat → Nat → Nat → α
  d4_logSel : Nat → Nat → Nat → Nat → α
  m_sbt : Nat → Nat → α
  m_dbeta : Nat → α
  m_dKappa : Nat → α
  m_dRbar : Nat → α
  m_est_fmsy : Nat → Nat → α
  m_est_btt : Nat → α
  m_dTAC : Nat → Nat → α
  m_dCatchData : Nat → Nat → α
  m_irow : Nat
  m_d3_A : Nat → Nat → Int → α
  calcCompositionData_irow : Nat
  allocateTAC_irow : Nat
  m_nNyr : Nat
  m_nyrs : Nat
  m_nn : Nat
  m_nCtNobs : Nat
  m_n_it_nobs : Nat → Nat
  m_d3SurveyData : Nat → Nat → Nat → α
  m_n_A_nobs : Nat → Nat
  m_nWtNobs : Nat → Nat
  m_d3_inp_wt_avg : Nat → Nat → Int → α
  m_dRo : Nat → α
  m_dSteepness : Nat → α
  m_dRinit : Nat → α
  m_log_rt : Nat → Int → α
  m_q : Nat → α
  calcRelativeAbundance_irow : Nat

section Methods

variable {α : Type} [LinearOrderedField α]

/-- `OperatingModel::calculateTAC` (lines 413-425): the row `m_dTAC(g)` is
assigned under harvest control rule 1; the `switch` has no other case. -/
def calculateTAC (ex : α → α) (d : ModelData α) (om : OperatingModel α) :
    OperatingModel α :=
  forLoop 1 d.ngroup (fun g s =>
    match d.m_nHCR with
    | 1 => { s with
        m_dTAC := fun g' k =>
          if g' = g then (1 - ex (-(s.m_est_fmsy g k))) * s.m_est_btt g
          else s.m_dTAC g' k }
    | _ => s) om

/-- `OperatingModel::calcTotalMortality` (lines 620-627). -/
def calcTotalMortality (ex : α → α) (d : ModelData α) (iyr : Nat)
    (om : OperatingModel α) : OperatingModel α :=
  forLoop 1 d.n_ags (fun ig s =>
    let s1 : OperatingModel α := { s with
      m_Z := fun ig' y a =>
        if ig' = ig ∧ y = iyr then s.m_M ig iyr a + s.m_F ig iyr a else s.m_Z ig' y a }
    { s1 with
      m_S := fun ig' y a =>
        if ig' = ig ∧ y = iyr then 1 - ex (-(s1.m_Z ig iyr a)) else s1.m_S ig' y a }) om

/-- First loop nest of `updateReferenceModel` (lines 806-821): the spawning
biomass of year `iyr` is accumulated over areas, sexes and groups.
`elem_prod(N, mat) * stmp` is a dot product over the ages `sage..nage`. -/
def updateReferenceModel_sbt (mfexp : α → α) (d : ModelData α) (iyr : Nat)
    (om : OperatingModel α) : OperatingModel α :=
  forLoop 1 d.narea (fun f s =>
    forLoop 1 d.nsex (fun h s =>
      forLoop 1 d.ngroup (fun g s =>
        let ig := d.pntr_ags f g h
        let stmp : Nat → α := fun a => mfexp (-(s.m_Z ig iyr a) * d.d_iscamCntrl 13)
        { s with
          m_sbt := assign2 s.m_sbt iyr g
            (s.m_sbt iyr g +
              vsum d.sage d.nage (fun a => s.m_N ig iyr a * s.m_d3_wt_mat ig iyr a * stmp a)) })
        s) s) om

/-- Second loop of `updateReferenceModel` (lines 827-864): the stock-recruit
value of every stratum is written to `m_N(ig)(iyr+1,sage)`, divided by `nsex`,
and added to the area total `tmp_rec(f)`.  The state is the pair of the model
and the local vector `tmp_rec`. -/
def updateReferenceModel_recruits (ex lg : α → α) (d : ModelData α) (iyr : Nat)
    (st : OperatingModel α × (Nat → α)) : OperatingModel α × (Nat → α) :=
  forLoop 1 d.n_ags (fun ig st =>
    let s := st.1
    let tmp_rec := st.2
    let f := d.n_area ig
    let g := d.n_group ig
    let ih := d.pntr_ag f g
    let tmp_st := s.m_sbt (iyr - d.sage) g
    let s1 : OperatingModel α :=
      match d.m_nRecType with
      | 1 =>
        let sb : OperatingModel α :=
          { s with m_dbeta := assign1 s.m_dbeta g ((s.m_dKappa g - 1) / d.mv_sbo g) }
        { sb with
          m_N := assign3 sb.m_N ig (iyr + 1) d.sage
            (d.mv_so g * tmp_st / 1 + sb.m_dbeta g * tmp_st) }
      | 2 =>
        let sb : OperatingModel α :=
          { s with m_dbeta := assign1 s.m_dbeta g (lg (s.m_dKappa g) / d.mv_sbo g) }
        { sb with
          m_N := assign3 sb.m_N ig (iyr + 1) d.sage
            (d.mv_so g * tmp_st * ex (-(sb.m_dbeta g) * tmp_st)) }
      | 3 => { s with m_N := assign3 s.m_N ig (iyr + 1) d.sage (s.m_dRbar ih) }
      | _ => s
    let s2 : OperatingModel α :=
      { s1 with
        m_N := assign3 s1.m_N ig (iyr + 1) d.sage (s1.m_N ig (iyr + 1) d.sage / (d.nsex : α)) }
    (s2, assign1 tmp_rec f (tmp_rec f + s2.m_N ig (iyr + 1) d.sage))) st

/-- The local `tmp_rec_dis = tmp_rec*m_dispersal` (line 867), a row vector
times a matrix. -/
def updateReferenceModel_tmp_rec_dis (d : ModelData α) (tmp_rec : Nat → α) : Nat → α :=
  fun j => vsum 1 d.narea (fun i => tmp_rec i * d.m_dispersal i j)

/-- Third loop of `updateReferenceModel` (lines 869-882): the age-`sage`
recruits are reapportioned from `tmp_rec`, the ages `sage+1..nage` of year
`iyr+1` are the survivors of the ages `sage..nage-1` of year `iyr`, and the
plus group keeps its own survivors. -/
def updateReferenceModel_ageing (ex : α → α) (d : ModelData α) (iyr : Nat)
    (tmp_rec : Nat → α) (om : OperatingModel α) : OperatingModel α :=
  forLoop 1 d.n_ags (fun ig s =>
    let f := d.n_area ig
    let prop_rec_g : α := s.m_N ig (iyr + 1) d.sage / tmp_rec f
    let s1 : OperatingModel α :=
      { s with
        m_N := assign3 s.m_N ig (iyr + 1) d.sage ((tmp_rec f / (d.nsex : α)) * prop_rec_g) }
    let st : Nat → α := fun a => ex (-(s1.m_M ig iyr a + s1.m_F ig iyr a))
    let s2 : OperatingModel α :=
      { s1 with
        m_N := fun ig' y a =>
          if ig' = ig ∧ y = iyr + 1 ∧ d.sage + 1 ≤ a ∧ a ≤ d.nage then
            s1.m_N ig iyr (a - 1) * st (a - 1)
          else s1.m_N ig' y a }
    { s2 with
      m_N := assign3 s2.m_N ig (iyr + 1) d.nage
        (s2.m_N ig (iyr + 1) d.nage + s2.m_N ig iyr d.nage * st d.nage) }) om

/-- `OperatingModel::updateReferenceModel` (lines 802-885).  The dispersed
recruits `tmp_rec_dis` are computed and not read again. -/
def updateReferenceModel (ex lg mfexp : α → α) (d : ModelData α) (iyr : Nat)
    (om : OperatingModel α) : OperatingModel α :=
  let om1 := updateReferenceModel_sbt mfexp d iyr om
  let r := updateReferenceModel_recruits ex lg d iyr (om1, fun _ => 0)
  let _tmp_rec_dis := updateReferenceModel_tmp_rec_dis d r.2
  updateReferenceModel_ageing ex d iyr r.2 r.1

/-- The local `ma` of `implementFisheries` (line 542) in the iteration
`(f,g)`: natural mortality of each sex. -/
def implementFisheries_ma (d : ModelData α) (iyr : Nat) (om : OperatingModel α)
    (f g : Nat) : Nat → Nat → α :=
  fun h => om.m_M (d.pntr_ags f g h) iyr

/-- The local `na` (line 543): numbers-at-age of each sex. -/
def implementFisheries_na (d : ModelData α) (iyr : Nat) (om : OperatingModel α)
    (f g : Nat) : Nat → Nat → α :=
  fun h => om.m_N (d.pntr_ags f g h) iyr

/-- The local `wa` (line 544): weight-at-age of each sex. -/
def implementFisheries_wa (d : ModelData α) (iyr : Nat) (om : OperatingModel α)
    (f g : Nat) : Nat → Nat → α :=
  fun h => om.m_d3_wt_avg (d.pntr_ags f g h) iyr

/-- The local `d3_Va` of `implementFisheries` in the iteration `(f,g)` (lines
541-558): for sex `h`, fleet `k` and age `a`, the selectivity
`exp(d4_logSel(kk)(ig)(iyr))` times `pr + pd*m_dDiscMortRate(k)`, where
`pr = retention_probability(m_dLslim(k),m_dUslim(k),mu(h),sd(h))`, `pd = 1 - pr`,
`mu(h) = exp(log(wa(h)/d_a(ig))/d_b(ig))` and `sd(h) = 0.1*mu(h)`.
`retention_probability` is declared outside `milka.cpp`. -/
def implementFisheries_Va (ex lg : α → α)
    (retention_probability : α → α → (Nat → α) → (Nat → α) → Nat → α)
    (d : ModelData α) (iyr : Nat) (om : OperatingModel α) (f g : Nat) :
    Nat → Nat → Nat → α :=
  fun h k a =>
    let ig := d.pntr_ags f g h
    let wa : Nat → α := om.m_d3_wt_avg ig iyr
    let mu : Nat → α := fun a => ex (lg (wa a / d.d_a ig) / d.d_b ig)
    let sd : Nat → α := fun a => 0.1 * mu a
    let kk := d.m_nGearIndex k
    let pr : Nat → α := retention_probability (d.m_dLslim k) (d.m_dUslim k) mu sd
    let pd : Nat → α := fun a => 1 - pr a
    ex (om.d4_logSel kk ig iyr a) * (pr a + pd a * d.m_dDiscMortRate k)

/-- The call `cBCE.getFishingMortality(ct,ma,&d3_Va,na,wa,_hCt)` of line 564.
`BaranovCatchEquation` is declared in `baranov.h`; the solver is a parameter
that returns the vector `ft` and the catch by sex and fleet `_hCt`. -/
def implementFisheries_solve (ex lg : α → α)
    (retention_probability : α → α → (Nat → α) → (Nat → α) → Nat → α)
    (getFishingMortality : (Nat → α) → (Nat → Nat → α) → (Nat → Nat → Nat → α) →
      (Nat → Nat → α) → (Nat → Nat → α) → (Nat → α) × (Nat → Nat → α))
    (d : ModelData α) (iyr : Nat) (om : OperatingModel α) (f g : Nat) :
    (Nat → α) × (Nat → Nat → α) :=
  getFishingMortality (om.m_dTAC g) (implementFisheries_ma d iyr om f g)
    (implementFisheries_Va ex lg retention_probability d iyr om f g)
    (implementFisheries_na d iyr om f g) (implementFisheries_wa d iyr om f g)

/-- One pass of the loop of lines 583-593: a new row of `m_dCatchData`. -/
def implementFisheries_row (d : ModelData α) (iyr f g k hh : Nat) (_hCt : Nat → Nat → α)
    (h : Nat) (s : OperatingModel α) : OperatingModel α :=
  let row := s.m_irow + 1
  let c1 := assign2 s.m_dCatchData row 1 (iyr : α)
  let c2 := assign2 c1 row 2 (d.nFleetIndex k : α)
  let c3 := assign2 c2 row 3 (f : α)
  let c4 := assign2 c3 row 4 (g : α)
  let c5 := assign2 c4 row 5 (if hh > 0 then (h : α) else 0)
  let c6 := assign2 c5 row 6 1
  let c7 := assign2 c6 row 7
    (if hh > 0 then _hCt h k else vsum 1 d.nsex (fun h' => _hCt h' k))
  { s with m_irow := row, m_dCatchData := c7 }

/-- `OperatingModel::implementFisheries` (lines 515-604). -/
def implementFisheries (ex lg : α → α)
    (retention_probability : α → α → (Nat → α) → (Nat → α) → Nat → α)
    (getFishingMortality : (Nat → α) → (Nat → Nat → α) → (Nat → Nat → Nat → α) →
      (Nat → Nat → α) → (Nat → Nat → α) → (Nat → α) × (Nat → Nat → α))
    (d : ModelData α) (iyr : Nat) (om : OperatingModel α) : OperatingModel α :=
  forLoop 1 d.narea (fun f s =>
    forLoop 1 d.ngroup (fun g s =>
      let d3_Va := implementFisheries_Va ex lg retention_probability d iyr s f g
      let r := implementFisheries_solve ex lg retention_probability getFishingMortality
        d iyr s f g
      let ft := r.1
      let _hCt := r.2
      forLoop 1 d.nfleet (fun k s =>
        let s1 : OperatingModel α :=
          forLoop 1 d.nsex (fun h s =>
            let ig := d.pntr_ags f g h
            { s with
              m_F := fun ig' y a =>
                if ig' = ig ∧ y = iyr then s.m_F ig iyr a + ft k * d3_Va h k a
                else s.m_F ig' y a }) s
        if ft k > 0 then
          let hh := d.m_nCSex k
          forLoop 1 (hh + 1) (implementFisheries_row d iyr f g k hh _hCt) s1
        else s1) s) s) om

/-- The local `ca(h)` of `calcCompositionData` in the iteration `(f,g)` (lines
739-746): catch-at-age of sex `h`,
`elem_prod(elem_prod(elem_div(fa,za),1.-exp(-za)),na)` with
`fa = (ft>0?ft:1.0) * va` and `za = ma + fa`. -/
def calcCompositionData_ca (ex : α → α) (d : ModelData α) (iyr : Nat)
    (om : OperatingModel α) (gear f g : Nat) : Nat → Nat → α :=
  fun h a =>
    let ig := d.pntr_ags f g h
    let va := ex (om.d4_logSel gear ig iyr a)
    let na := om.m_N ig iyr a
    let ma := om.m_M ig iyr a
    let ft := om.m_ft ig gear iyr
    let fa := (if ft > 0 then ft else 1) * va
    let za := ma + fa
    fa / za * (1 - ex (-za)) * na

/-- The local `pa(h) = ca(h) / sum(ca(h))` (line 747), the sum running over
the ages `sage..nage`. -/
def calcCompositionData_pa (ex : α → α) (d : ModelData α) (iyr : Nat)
    (om : OperatingModel α) (gear f g : Nat) : Nat → Nat → α :=
  fun h a =>
    calcCompositionData_ca ex d iyr om gear f g h a
      / vsum d.sage d.nage (calcCompositionData_ca ex d iyr om gear f g h)

/-- One pass of the loop of lines 751-761: a new row of the table `m_d3_A(k)`.
`colsum(pa)` is the sum of the rows `1..nsex` of `pa`. -/
def calcCompositionData_row (d : ModelData α) (iyr k gear f g hh : Nat)
    (pa : Nat → Nat → α) (h : Nat) (s : OperatingModel α) : OperatingModel α :=
  let irow := s.calcCompositionData_irow + 1
  let row := d.n_A_nobs k + irow
  let sa : Int := (d.n_A_sage k : Int)
  let set (A : Nat → Nat → Int → α) (c : Int) (x : α) : Nat → Nat → Int → α :=
    fun k' r' c' => if k' = k ∧ r' = row ∧ c' = c then x else A k' r' c'
  let a1 := set s.m_d3_A (sa - 5) (iyr : α)
  let a2 := set a1 (sa - 4) (gear : α)
  let a3 := set a2 (sa - 3) (f : α)
  let a4 := set a3 (sa - 2) (g : α)
  let a5 := set a4 (sa - 1) (if hh > 0 then (h : α) else 0)
  let a6 : Nat → Nat → Int → α := fun k' r' c' =>
    if k' = k ∧ r' = row ∧ sa ≤ c' ∧ c' ≤ (d.n_A_nage k : Int) then
      (if hh > 0 then pa h c'.toNat else vsum 1 d.nsex (fun h' => pa h' c'.toNat))
    else a5 k' r' c'
  { s with calcCompositionData_irow := irow, m_d3_A := a6 }

/-- `OperatingModel::calcCompositionData` (lines 717-766).  The row counter
`irow` is a function-level `static`; it is the field
`calcCompositionData_irow`. -/
def calcCompositionData [FloorRing α] (ex : α → α) (d : ModelData α) (iyr : Nat)
    (om : OperatingModel α) : OperatingModel α :=
  forLoop 1 d.nAgears (fun k s =>
    let gear : Nat := ⌊s.m_d3_A k 1 ((d.n_A_sage k : Int) - 4)⌋₊
    forLoop 1 d.narea (fun f s =>
      forLoop 1 d.ngroup (fun g s =>
        let pa := calcCompositionData_pa ex d iyr s gear f g
        let hh := d.m_nASex k
        forLoop 1 (hh + 1) (calcCompositionData_row d iyr k gear f g hh pa) s) s) s) om

/-- One row written by `allocateTAC` (lines 444-451 and 457-464): the static
counter `irow` is incremented and the seven columns of the new row are set;
the catch column holds `m_dTAC(g)(k)`. -/
def allocateTAC_row (d : ModelData α) (iyr k f g h : Nat) (s : OperatingModel α) :
    OperatingModel α :=
  let irow := s.allocateTAC_irow + 1
  let c1 := assign2 s.m_dCatchData irow 1 (iyr : α)
  let c2 := assign2 c1 irow 2 (d.nFleetIndex k : α)
  let c3 := assign2 c2 irow 3 (f : α)
  let c4 := assign2 c3 irow 4 (g : α)
  let c5 := assign2 c4 irow 5 (h : α)
  let c6 := assign2 c5 irow 6 1
  let c7 := assign2 c6 irow 7 (s.m_dTAC g k)
  { s with allocateTAC_irow := irow, m_dCatchData := c7 }

/-- `OperatingModel::allocateTAC` (lines 428-473).  The row counter `irow` is a
function-level `static` initialised with `nCtNobs`; it is the field
`allocateTAC_irow`.  The local `h` holds `m_nCSex(k)` and is also the counter
of the loop over the sexes, so it is threaded through the loops over `f` and
`g` as the second component of the state; the sex loop leaves `nsex + 1` in
it. -/
def allocateTAC (d : ModelData α) (iyr : Nat) (om : OperatingModel α) : OperatingModel α :=
  forLoop 1 d.nfleet (fun k s =>
    (forLoop 1 d.narea (fun f st =>
      if d.m_nAGopen k f ≠ 0 then
        forLoop 1 d.ngroup (fun g st =>
          let st1 : OperatingModel α × Nat :=
            if st.2 = 0 then (allocateTAC_row d iyr k f g st.2 st.1, st.2) else st
          if st1.2 ≠ 0 then
            (forLoop 1 d.nsex (fun h s => allocateTAC_row d iyr k f g h s) st1.1, d.nsex + 1)
          else st1) st
      else st) (s, d.m_nCSex k)).1) om

/-! ### Set-up of a scenario

`allocate` followed by `initialize` sets every element to zero; `allocate`
alone leaves the values as they were.  A whole-vector assignment `v = w`
replaces the function.  Counts of years and rows are natural numbers: the
projection horizon `m_nPyr` is not before `nyr`. -/

/-- `OperatingModel::initParameters` (lines 155-248).  Lines 220-224 assign
`m_dM`, `m_dRho`, `m_dVarphi`, `m_dSigma` and `m_dTau`, which no method of
`milka.cpp` reads; they are not part of the state.  `pw` is `pow`.  The loop
of lines 228-232 assigns a scalar to the whole vectors `m_dRbar` and
`m_dRinit` in every iteration. -/
def initParameters [FloorRing α] (ex : α → α) (pw : α → α → α) (d : ModelData α)
    (om : OperatingModel α) : OperatingModel α :=
  let m_nNyr := d.nyr
  let m_irow := d.nCtNobs
  let m_nyrs := d.m_nPyr - m_nNyr
  let m_nn : Nat := forLoop 1 d.ngear (fun k nn =>
    let nn1 := nn + vsum 1 d.narea (fun f => d.m_nAGopen k f)
    nn1 + d.m_nCSex k * nn1) 0
  let m_nCtNobs := d.nCtNobs + m_nyrs * m_nn
  let m_dCatchData : Nat → Nat → α :=
    fun r c => if 1 ≤ r ∧ r ≤ d.nCtNobs then d.dCatchData r c else 0
  let m_n_it_nobs : Nat → Nat := fun k => d.n_it_nobs k + m_nyrs
  let m_d3SurveyData : Nat → Nat → Nat → α :=
    forLoop 1 d.nItNobs (fun k sv =>
      fun k' r c => if k' = k ∧ 1 ≤ r ∧ r ≤ d.n_it_nobs k then d.d3_survey_data k r c
        else sv k' r c) (fun _ _ _ => 0)
  let m_n_A_nobs : Nat → Nat :=
    fun k => d.n_A_nobs k + m_nyrs + m_nyrs * vsum 1 d.ngear d.m_nASex
  let m_d3_A : Nat → Nat → Int → α :=
    forLoop 1 d.nAgears (fun k A =>
      fun k' r c => if k' = k ∧ 1 ≤ r ∧ r ≤ d.n_A_nobs k then d.d3_A k r c
        else A k' r c) (fun _ _ _ => 0)
  let m_nWtNobs : Nat → Nat :=
    fun k => d.nWtNobs k + m_nyrs + m_nyrs * vsum 1 d.ngear d.m_nWSex
  let m_d3_inp_wt_avg : Nat → Nat → Int → α :=
    forLoop 1 d.nWtTab (fun k W =>
      fun k' r c => if k' = k ∧ 1 ≤ r ∧ r ≤ d.nWtNobs k then d.d3_inp_wt_avg k r c
        else W k' r c) (fun _ _ _ => 0)
  let m_dRo : Nat → α := fun g => ex (d.mv_log_ro g)
  let m_dSteepness : Nat → α := d.mv_steepness
  let rb : (Nat → α) × (Nat → α) :=
    forLoop 1 d.n_ag (fun ih _ =>
      (fun _ => ex (d.mv_log_rbar ih), fun _ => ex (d.mv_log_rinit ih)))
      (om.m_dRbar, om.m_dRinit)
  let m_dKappa : Nat → α :=
    match ⌊d.d_iscamCntrl 2⌋₊ with
    | 1 => fun g => 4 * m_dSteepness g / (1 - m_dSteepness g)
    | 2 => fun g => pw (5 * m_dSteepness g) 1.25
    | _ => om.m_dKappa
  { om with
    m_nNyr := m_nNyr, m_irow := m_irow, m_nyrs := m_nyrs, m_nn := m_nn
    m_nCtNobs := m_nCtNobs, m_dCatchData := m_dCatchData
    m_n_it_nobs := m_n_it_nobs, m_d3SurveyData := m_d3SurveyData
    m_n_A_nobs := m_n_A_nobs, m_d3_A := m_d3_A
    m_nWtNobs := m_nWtNobs, m_d3_inp_wt_avg := m_d3_inp_wt_avg
    m_dRo := m_dRo, m_dSteepness := m_dSteepness
    m_dRbar := rb.1, m_dRinit := rb.2, m_dKappa := m_dKappa }

/-- The loop of lines 282-298 of `initMemberVariables` for one stratum `ig`:
the historical years `syr..nyr` of `M`, `F`, `Z`, `S` and the weights are
copied from the model variables and the data, then `M` and the weights are
extended over the projection years. -/
def initMemberVariables_mortality (ex : α → α) (d : ModelData α) (ig : Nat)
    (s : OperatingModel α) : OperatingModel α :=
  let sM : OperatingModel α :=
    { s with
      m_M := fun ig' y a =>
        if ig' = ig ∧ d.syr ≤ y ∧ y ≤ d.nyr then d.mv_d3_M ig y a else s.m_M ig' y a }
  let sF : OperatingModel α :=
    { sM with
      m_F := fun ig' y a =>
        if ig' = ig ∧ d.syr ≤ y ∧ y ≤ d.nyr then d.mv_d3_F ig y a else sM.m_F ig' y a }
  let sZ : OperatingModel α :=
    { sF with
      m_Z := fun ig' y a =>
        if ig' = ig ∧ d.syr ≤ y ∧ y ≤ d.nyr then sF.m_M ig y a + sF.m_F ig y a
        else sF.m_Z ig' y a }
  let sS : OperatingModel α :=
    { sZ with
      m_S := fun ig' y a =>
        if ig' = ig ∧ d.syr ≤ y ∧ y ≤ d.nyr then ex (-(sZ.m_Z ig y a)) else sZ.m_S ig' y a }
  let sW : OperatingModel α :=
    { sS with
      m_d3_wt_avg := fun ig' y a =>
        if ig' = ig ∧ d.syr ≤ y ∧ y ≤ d.nyr + 1 then d.d3_wt_avg ig y a
        else sS.m_d3_wt_avg ig' y a
      m_d3_wt_mat := fun ig' y a =>
        if ig' = ig ∧ d.syr ≤ y ∧ y ≤ d.nyr + 1 then d.d3_wt_mat ig y a
        else sS.m_d3_wt_mat ig' y a }
  forLoop (d.nyr + 1) d.m_nPyr (fun i t =>
    { t with
      m_M := fun ig' y a => if ig' = ig ∧ y = i then t.m_M ig d.nyr a else t.m_M ig' y a
      m_d3_wt_avg := fun ig' y a =>
        if ig' = ig ∧ y = i + 1 then d.d3_wt_avg ig (d.nyr + 1) a else t.m_d3_wt_avg ig' y a
      m_d3_wt_mat := fun ig' y a =>
        if ig' = ig ∧ y = i + 1 then d.d3_wt_mat ig (d.nyr + 1) a
        else t.m_d3_wt_mat ig' y a }) sW

/-- `OperatingModel::initMemberVariables` (lines 251-331).  The members
`m_est_bo`, `m_est_bmsy`, `m_est_sbtt`, `m_est_btt`, `m_est_fmsy`, `m_est_msy`
and `m_dTAC` are allocated and not assigned.  `mv.sbt` is indexed by group and
year and is transposed on the copy. -/
def initMemberVariables (ex : α → α) (d : ModelData α) (om : OperatingModel α) :
    OperatingModel α :=
  let s0 : OperatingModel α :=
    { om with
      m_N := fun _ _ _ => 0, m_M := fun _ _ _ => 0, m_F := fun _ _ _ => 0
      m_Z := fun _ _ _ => 0, m_S := fun _ _ _ => 0, m_ft := fun _ _ _ => 0
      m_d3_wt_avg := fun _ _ _ => 0, m_d3_wt_mat := fun _ _ _ => 0
      m_log_rt := fun _ _ => 0
      m_sbt := fun y g => if d.syr ≤ y ∧ y ≤ d.nyr then d.mv_sbt g y else 0
      m_dbeta := fun _ => 0
      m_q := d.mv_q }
  let s1 := forLoop 1 d.n_ags (fun ig s => initMemberVariables_mortality ex d ig s) s0
  let s2 : OperatingModel α := { s1 with d4_logSel := fun _ _ _ _ => 0 }
  let s3 := forLoop 1 d.ngear (fun k s =>
    forLoop 1 d.n_ags (fun ig s =>
      let sh : OperatingModel α :=
        { s with
          d4_logSel := fun k' ig' y a =>
            if k' = k ∧ ig' = ig ∧ d.syr ≤ y ∧ y ≤ d.nyr then d.mv_d4_logSel k ig y a
            else s.d4_logSel k' ig' y a }
      forLoop (d.nyr + 1) d.m_nPyr (fun i t =>
        { t with
          d4_logSel := fun k' ig' y a =>
            if k' = k ∧ ig' = ig ∧ y = i then t.d4_logSel k ig d.nyr a
            else t.d4_logSel k' ig' y a }) sh) s) s2
  forLoop 1 d.n_ags (fun ig s =>
    forLoop 1 d.ngear (fun k s =>
      { s with
        m_ft := fun ig' k' y =>
          if ig' = ig ∧ k' = k ∧ d.syr ≤ y ∧ y ≤ d.nyr then d.mv_d3_ft ig k y
          else s.m_ft ig' k' y }) s) s3

/-- The local `lx` of `conditionReferenceModel` (lines 343-350) for the
stratum `ig`: survivorship to age from the natural mortality of year `syr`,
with the plus group `nage`. -/
def conditionReferenceModel_lx (ex : α → α) (d : ModelData α) (om : OperatingModel α)
    (ig : Nat) : Nat → α :=
  let lx0 : Nat → α := assign1 (fun _ => 0) d.sage 1
  let lx1 := forLoopLt d.sage d.nage (fun j lx =>
    assign1 lx (j + 1) (lx j * ex (-(om.m_M ig d.syr j)))) lx0
  assign1 lx1 d.nage (lx1 d.nage / (1 - ex (-(om.m_M ig d.syr d.nage))))

/-- The local `tr` of `conditionReferenceModel` (lines 352-361): the log
numbers at age of year `syr`, at unfished conditions when `d_iscamCntrl(5)` is
not zero. -/
def conditionReferenceModel_tr (ex lg : α → α) (d : ModelData α) (om : OperatingModel α)
    (ig : Nat) : Nat → α :=
  let g := d.n_group ig
  let ih := d.pntr_ag (d.n_area ig) g
  let lx := conditionReferenceModel_lx ex d om ig
  if d.d_iscamCntrl 5 ≠ 0 then
    fun a => lg (om.m_dRo g) + lg (lx a)
  else
    fun a =>
      if a = d.sage then d.mv_log_rbar ih + d.mv_log_rec_devs ih d.syr
      else if d.sage + 1 ≤ a ∧ a ≤ d.nage then
        d.mv_log_rinit ih + d.mv_init_log_rec_devs ih a + lg (lx a)
      else 0

/-- `OperatingModel::conditionReferenceModel` (lines 333-383).  `tr.shift`
re-bases `tr` at `syr-nage+sage`, so that `m_log_rt(ih)(y)` receives
`tr(y - syr + nage)`; the year index of `m_log_rt` is an integer because that
base can be negative. -/
def conditionReferenceModel (ex lg mfexp : α → α) (d : ModelData α)
    (om : OperatingModel α) : OperatingModel α :=
  forLoop 1 d.n_ags (fun ig s =>
    let f := d.n_area ig
    let g := d.n_group ig
    let ih := d.pntr_ag f g
    let tr := conditionReferenceModel_tr ex lg d s ig
    let s1 : OperatingModel α :=
      { s with
        m_N := fun ig' y a =>
          if ig' = ig ∧ y = d.syr ∧ d.sage ≤ a ∧ a ≤ d.nage then
            1 / (d.nsex : α) * mfexp (tr a)
          else s.m_N ig' y a }
    let s2 : OperatingModel α :=
      { s1 with
        m_log_rt := fun ih' y =>
          if ih' = ih ∧ (d.syr : Int) - d.nage + d.sage ≤ y ∧ y ≤ d.syr then
            tr (y - d.syr + d.nage).toNat
          else s1.m_log_rt ih' y }
    let s3 := forLoop d.syr d.nyr (fun i t =>
      let t1 : OperatingModel α :=
        if d.syr < i then
          let tl : OperatingModel α :=
            { t with
              m_log_rt := fun ih' y =>
                if ih' = ih ∧ y = (i : Int) then d.mv_log_rbar ih + d.mv_log_rec_devs ih i
                else t.m_log_rt ih' y }
          { tl with
            m_N := assign3 tl.m_N ig i d.sage (1 / (d.nsex : α) * mfexp (tl.m_log_rt ih i)) }
        else t
      let t2 : OperatingModel α :=
        { t1 with
          m_N := fun ig' y a =>
            if ig' = ig ∧ y = i + 1 ∧ d.sage + 1 ≤ a ∧ a ≤ d.nage then
              t1.m_N ig i (a - 1) * t1.m_S ig i (a - 1)
            else t1.m_N ig' y a }
      { t2 with
        m_N := assign3 t2.m_N ig (i + 1) d.nage
          (t2.m_N ig (i + 1) d.nage + t2.m_N ig i d.nage * t2.m_S ig i d.nage) }) s2
    { s3 with
      m_N := assign3 s3.m_N ig (d.nyr + 1) d.sage
        (1 / (d.nsex : α) * mfexp (d.mv_log_rbar ih)) }) om

/-! ### Survey index and the data file -/

/-- The local `dV` of `calcRelativeAbundance` (lines 652-675) for the series
`k` in the iteration `(f,g)`: the abundance metric selected by
`n_survey_type(k)`, accumulated over the sexes.  `na*va` is a dot product over
the ages `sage..nage`. -/
def calcRelativeAbundance_dV (ex : α → α) (d : ModelData α) (iyr : Nat)
    (om : OperatingModel α) (k gear f g : Nat) : α :=
  forLoop 1 d.nsex (fun h dV =>
    let ig := d.pntr_ags f g h
    let va : Nat → α := fun a => ex (om.d4_logSel gear ig iyr a)
    let wa := om.m_d3_wt_avg ig iyr
    let ma := om.m_d3_wt_mat ig iyr
    let na := om.m_N ig iyr
    match d.n_survey_type k with
    | 1 => dV + vsum d.sage d.nage (fun a => na a * va a)
    | 2 => dV + vsum d.sage d.nage (fun a => na a * va a * wa a)
    | 3 => dV + vsum d.sage d.nage (fun a => na a * ma a)
    | _ => dV) 0

/-- The eight assignments of lines 678-685 to the row `n_it_nobs(k)+irow` of
the survey table of series `k`. -/
def calcRelativeAbundance_row (d : ModelData α) (iyr k gear f g : Nat) (dV : α)
    (s : OperatingModel α) : OperatingModel α :=
  let row := d.n_it_nobs k + s.calcRelativeAbundance_irow
  let v1 := assign3 s.m_d3SurveyData k row 1 (iyr : α)
  let v2 := assign3 v1 k row 2 (s.m_q k * dV)
  let v3 := assign3 v2 k row 3 (gear : α)
  let v4 := assign3 v3 k row 4 (f : α)
  let v5 := assign3 v4 k row 5 (g : α)
  let v6 := assign3 v5 k row 6 0
  let v7 := assign3 v6 k row 7 1
  let v8 := assign3 v7 k row 8 0.5
  { s with m_d3SurveyData := v8 }

/-- `OperatingModel::calcRelativeAbundance` (lines 629-693).  The row counter
`irow` is a function-level `static` initialised with 0 and incremented once per
call; it is the field `calcRelativeAbundance_irow`.  The gear code is the
third column of the first historical row of the series. -/
def calcRelativeAbundance [FloorRing α] (ex : α → α) (d : ModelData α) (iyr : Nat)
    (om : OperatingModel α) : OperatingModel α :=
  let s0 : OperatingModel α :=
    { om with calcRelativeAbundance_irow := om.calcRelativeAbundance_irow + 1 }
  forLoop 1 d.nItNobs (fun k s =>
    let gear : Nat := ⌊d.d3_survey_data k 1 3⌋₊
    forLoop 1 d.narea (fun f s =>
      forLoop 1 d.ngroup (fun g s =>
        let dV := calcRelativeAbundance_dV ex d iyr s k gear f g
        calcRelativeAbundance_row d iyr k gear f g dV s) s) s) s0

/-- The number of catch rows that `writeDataFile` reports and emits (lines
918-921), `tmp_nCtNobs = nCtNobs+(iyr-nyr)*m_nn`. -/
def writeDataFile_tmp_nCtNobs (d : ModelData α) (om : OperatingModel α) (iyr : Nat) : Nat :=
  d.nCtNobs + (iyr - d.nyr) * om.m_nn

/-- The number of age-composition rows of series `k` that `writeDataFile`
reports and emits (line 951). -/
def writeDataFile_tmp_n_A_nobs (d : ModelData α) (iyr k : Nat) : Nat :=
  d.n_A_nobs k + (iyr - d.nyr) + (iyr - d.nyr) * vsum 1 d.ngear d.m_nASex

/-! ### The Baranov solver

`BaranovCatchEquation` is declared in `baranov.h`, which `milka.cpp` includes;
its body is modelled from the specification for one gear and one stratum. -/

/-- Modelled from the spec: the Baranov catch equation of section 4.3 for one
gear and one stratum, `catch = Σ_age N·(F·V/Z)·(1−exp(−Z))·W` with
`Z = M + F·V`, the sum running over the ages `sage..nage`. -/
def BaranovCatchEquation.catchAt (ex : α → α) (sage nage : Nat) (ma va na wa : Nat → α)
    (F : α) : α :=
  vsum sage nage (fun a =>
    na a * (F * va a / (ma a + F * va a)) * (1 - ex (-(ma a + F * va a))) * wa a)

/-- Modelled from the spec: the derivative of the Baranov catch with respect to
the fishing-mortality multiplier `F`, which the Newton iteration of section 4.3
divides by. -/
def BaranovCatchEquation.catchSlope (ex : α → α) (sage nage : Nat) (ma va na wa : Nat → α)
    (F : α) : α :=
  vsum sage nage (fun a =>
    na a * wa a *
      (va a * ma a * (1 - ex (-(ma a + F * va a))) / (ma a + F * va a) ^ 2
        + F * va a ^ 2 * ex (-(ma a + F * va a)) / (ma a + F * va a)))

/-- The second derivative of the Baranov catch with respect to `F`; it enters
the convergence proof of the iteration only. -/
def BaranovCatchEquation.catchCurvature (ex : α → α) (sage nage : Nat)
    (ma va na wa : Nat → α) (F : α) : α :=
  vsum sage nage (fun a =>
    na a * wa a *
      (va a ^ 2 *
        (ex (-(ma a + F * va a)) * (2 * ma a - F * va a * (ma a + F * va a))
            / (ma a + F * va a) ^ 2
          - 2 * ma a * (1 - ex (-(ma a + F * va a))) / (ma a + F * va a) ^ 3)))

/-- Modelled from the spec: one Newton iterate for the equation
`catch(F) = ct`. -/
def BaranovCatchEquation.newtonStep (ex : α → α) (sage nage : Nat) (ct : α)
    (ma va na wa : Nat → α) (F : α) : α :=
  F - (BaranovCatchEquation.catchAt ex sage nage ma va na wa F - ct)
    / BaranovCatchEquation.catchSlope ex sage nage ma va na wa F

/-- Modelled from the spec: the iteration of the Baranov solver of section 4.3
("solved iteratively (Newton-type iteration is the standard approach) until
convergence within a numerical tolerance, or failure is signaled").  It stops
with `some F` as soon as the catch at `F` is within the relative tolerance `tol`
of the target `ct`, replaces `F` by the Newton iterate otherwise, and signals
failure by `none` when the iterations run out. -/
def BaranovCatchEquation.newtonLoop (ex : α → α) (tol : α) (sage nage : Nat) (ct : α)
    (ma va na wa : Nat → α) : Nat → α → Option α
  | 0, _ => none
  | its + 1, F =>
    if |BaranovCatchEquation.catchAt ex sage nage ma va na wa F - ct| ≤ tol * ct then some F
    else
      BaranovCatchEquation.newtonLoop ex tol sage nage ct ma va na wa its
        (BaranovCatchEquation.newtonStep ex sage nage ct ma va na wa F)

/-- Modelled from the spec: `BaranovCatchEquation::getFishingMortality` for one
gear and one stratum, with the arguments `ct, ma, Va, na, wa` of the call in
`implementFisheries`.  The specification leaves the starting value, the
tolerance and the iteration limit open: the iteration starts from `F = 0`, and
`tol` and `maxits` are parameters. -/
def BaranovCatchEquation.getFishingMortality (ex : α → α) (tol : α) (maxits : Nat)
    (sage nage : Nat) (ct : α) (ma va na wa : Nat → α) : Option α :=
  BaranovCatchEquation.newtonLoop ex tol sage nage ct ma va na wa maxits 0

end Methods

/-! ## Concrete inputs -/

section Inputs

variable (α : Type) [LinearOrderedField α]

/-- A `model_data` with every dimension and table zero; concrete inputs
override the fields they need. -/
def ModelData.blank : ModelData α where
  narea := 0
  ngroup := 0
  nsex := 0
  nfleet := 0
  ngear := 0
  sage := 0
  nage := 0
  syr := 0
  nyr := 0
  n_ags := 0
  n_ag := 0
  pntr_ags := fun _ _ _ => 0
  pntr_ag := fun _ _ => 0
  n_area := fun _ => 0
  n_group := fun _ => 0
  d_a := fun _ => 0
  d_b := fun _ => 0
  d_iscamCntrl := fun _ => 0
  nFleetIndex := fun _ => 0
  nCtNobs := 0
  nAgears := 0
  n_A_sage := fun _ => 0
  n_A_nage := fun _ => 0
  n_A_nobs := fun _ => 0
  mv_so := fun _ => 0
  mv_sbo := fun _ => 0
  m_nPyr := 0
  m_nHCR := 0
  m_nGearIndex := fun _ => 0
  m_nCSex := fun _ => 0
  m_nASex := fun _ => 0
  m_dLslim := fun _ => 0
  m_dUslim := fun _ => 0
  m_dDiscMortRate := fun _ => 0
  m_nAGopen := fun _ _ => 0
  m_nRecType := 0
  m_dispersal := fun _ _ => 0
  m_nWSex := fun _ => 0
  dAllocation := fun _ => 0
  dCatchData := fun _ _ => 0
  nItNobs := 0
  n_it_nobs := fun _ => 0
  d3_survey_data := fun _ _ _ => 0
  d3_A := fun _ _ _ => 0
  nWtTab := 0
  nWtNobs := fun _ => 0
  d3_inp_wt_avg := fun _ _ _ => 0
  d3_wt_avg := fun _ _ _ => 0
  d3_wt_mat := fun _ _ _ => 0
  mv_log_ro := fun _ => 0
  mv_steepness := fun _ => 0
  mv_log_rbar := fun _ => 0
  mv_log_rinit := fun _ => 0
  mv_log_rec_devs := fun _ _ => 0
  mv_init_log_rec_devs := fun _ _ => 0
  mv_q := fun _ => 0
  mv_sbt := fun _ _ => 0
  mv_d3_M := fun _ _ _ => 0
  mv_d3_F := fun _ _ _ => 0
  mv_d3_ft := fun _ _ _ => 0
  mv_d4_logSel := fun _ _ _ _ => 0
  n_survey_type := fun _ => 0

/-- An operating model whose arrays are all zero (the state right after the
`allocate` and `initialize` calls). -/
def OperatingModel.blank : OperatingModel α where
  m_N := fun _ _ _ => 0
  m_M := fun _ _ _ => 0
  m_F := fun _ _ _ => 0
  m_Z := fun _ _ _ => 0
  m_S := fun _ _ _ => 0
  m_ft := fun _ _ _ => 0
  m_d3_wt_avg := fun _ _ _ => 0
  m_d3_wt_mat := fun _ _ _ => 0
  d4_logSel := fun _ _ _ _ => 0
  m_sbt := fun _ _ => 0
  m_dbeta := fun _ => 0
  m_dKappa := fun _ => 0
  m_dRbar := fun _ => 0
  m_est_fmsy := fun _ _ => 0
  m_est_btt := fun _ => 0
  m_dTAC := fun _ _ => 0
  m_dCatchData := fun _ _ => 0
  m_irow := 0
  m_d3_A := fun _ _ _ => 0
  calcCompositionData_irow := 0
  allocateTAC_irow := 0
  m_nNyr := 0
  m_nyrs := 0
  m_nn := 0
  m_nCtNobs := 0
  m_n_it_nobs := fun _ => 0
  m_d3SurveyData := fun _ _ _ => 0
  m_n_A_nobs := fun _ => 0
  m_nWtNobs := fun _ => 0
  m_d3_inp_wt_avg := fun _ _ _ => 0
  m_dRo := fun _ => 0
  m_dSteepness := fun _ => 0
  m_dRinit := fun _ => 0
  m_log_rt := fun _ _ => 0
  m_q := fun _ => 0
  calcRelativeAbundance_irow := 0

/-- One group, one fleet, harvest control rule 1. -/
def tacData : ModelData α :=
  { ModelData.blank α with ngroup := 1, nfleet := 1, m_nHCR := 1 }

/-- Stock status with `F_MSY = 0.2` and a current biomass of `1000`. -/
def tacModel : OperatingModel α :=
  { OperatingModel.blank α with
    m_est_fmsy := fun _ _ => 0.2
    m_est_btt := fun _ => 1000 }

/-- One stratum. -/
def oneStratumData : ModelData α :=
  { ModelData.blank α with
    narea := 1, ngroup := 1, nsex := 1, n_ags := 1, n_ag := 1
    pntr_ags := fun _ _ _ => 1, pntr_ag := fun _ _ => 1
    n_area := fun _ => 1, n_group := fun _ => 1 }

/-- One stratum with the ages 1..3 and average recruitment. -/
def ageingData : ModelData α :=
  { oneStratumData α with sage := 1, nage := 3, syr := 1, nyr := 1, m_nRecType := 3 }

/-- Abundance `100, 50, 25` at the ages 1..3 of year 1, `M = 0.2`, `F = 0.1`. -/
def ageingModel : OperatingModel α :=
  { OperatingModel.blank α with
    m_N := fun _ y a => if y = 1 then (if a = 1 then 100 else if a = 2 then 50 else 25) else 0
    m_M := fun _ _ _ => 0.2
    m_F := fun _ _ _ => 0.1
    m_dRbar := fun _ => 80 }

/-- Two areas, one group, two sexes and two fleets; the stratum of area `f`
and sex `h` has index `2*(f-1) + h`. -/
def fisheryData : ModelData α :=
  { ModelData.blank α with
    narea := 2, ngroup := 1, nsex := 2, nfleet := 2, ngear := 2, n_ags := 4, n_ag := 2
    pntr_ags := fun f _ h => 2 * (f - 1) + h, pntr_ag := fun f _ => f
    n_area := fun ig => (ig + 1) / 2, n_group := fun _ => 1
    sage := 1, nage := 2, syr := 1, nyr := 1
    m_nGearIndex := fun k => k, nFleetIndex := fun k => k
    d_a := fun _ => 1, d_b := fun _ => 3
    m_dDiscMortRate := fun _ => 0.5
    m_nAGopen := fun _ _ => 1 }

/-- A population with 100 fish of weight 1 at every age and `M = 0.2`; the
target catch of each fleet is 10. -/
def fisheryModel : OperatingModel α :=
  { OperatingModel.blank α with
    m_N := fun _ _ _ => 100
    m_M := fun _ _ _ => 0.2
    m_d3_wt_avg := fun _ _ _ => 1
    m_dTAC := fun _ _ => 10 }

/-- One age-sampling series of gear 1 with one historical row, ages 1..2, one
area, one group and two sexes; the series is not sexed. -/
def compData : ModelData α :=
  { ModelData.blank α with
    narea := 1, ngroup := 1, nsex := 2, nfleet := 1, ngear := 1, n_ags := 2, n_ag := 1
    pntr_ags := fun _ _ h => h, pntr_ag := fun _ _ => 1
    n_area := fun _ => 1, n_group := fun _ => 1
    sage := 1, nage := 2, syr := 1, nyr := 1
    nAgears := 1, n_A_sage := fun _ => 1, n_A_nage := fun _ => 2, n_A_nobs := fun _ => 1
    m_nASex := fun _ => 0 }

/-- Abundance 100 at every age, `M = 0.2`, log-selectivity 0, and the gear
code 1 in the historical row of the age-composition table. -/
def compModel : OperatingModel α :=
  { OperatingModel.blank α with
    m_N := fun _ _ _ => 100
    m_M := fun _ _ _ => 0.2
    m_d3_A := fun _ r c => if r = 1 ∧ c = -3 then 1 else 0 }


/-- One stratum, ages 1..2, Beverton-Holt recruitment with `so = 3`, `sbo = 8`. -/
def bhData : ModelData α :=
  { oneStratumData α with
    sage := 1, nage := 2, m_nRecType := 1, mv_so := fun _ => 3, mv_sbo := fun _ => 8 }

/-- `kappa = 5` and a spawning biomass of 2 in year 1. -/
def bhModel : OperatingModel α :=
  { OperatingModel.blank α with
    m_dKappa := fun _ => 5
    m_sbt := fun y _ => if y = 1 then 2 else 0 }

/-- `kappa = 5` and a spawning biomass of 2 in year 1. -/
def rickerModel : OperatingModel α :=
  { OperatingModel.blank α with
    m_dKappa := fun _ => 5
    m_sbt := fun y _ => if y = 1 then 2 else 0 }

/-- One area, one group, two sexes, ages 1..2, dispersal matrix `[1]`,
Ricker recruitment with `so = 3`, `sbo = 8`. -/
def rickerData : ModelData α :=
  { ModelData.blank α with
    narea := 1, ngroup := 1, nsex := 2, n_ags := 2, n_ag := 1
    pntr_ags := fun _ _ h => h, pntr_ag := fun _ _ => 1
    n_area := fun _ => 1, n_group := fun _ => 1
    sage := 1, nage := 2, m_nRecType := 2, mv_so := fun _ => 3, mv_sbo := fun _ => 8
    m_dispersal := fun _ _ => 1 }

/-- Two areas, one group, one sex, average recruitment, and a dispersal
matrix that sends every recruit to the other area. -/
def swapData : ModelData α :=
  { ModelData.blank α with
    narea := 2, ngroup := 1, nsex := 1, n_ags := 2, n_ag := 2
    pntr_ags := fun f _ _ => f, pntr_ag := fun f _ => f
    n_area := fun ig => ig, n_group := fun _ => 1
    sage := 1, nage := 2, m_nRecType := 3
    m_dispersal := fun i j => if i = j then 0 else 1 }

/-- Average recruitment of 10 in area 1 and 30 in area 2. -/
def swapModel : OperatingModel α :=
  { OperatingModel.blank α with m_dRbar := fun ih => if ih = 1 then 10 else 30 }

/-- One area, one group, two sexes, average recruitment, dispersal `[1]`. -/
def twoSexData : ModelData α :=
  { ModelData.blank α with
    narea := 1, ngroup := 1, nsex := 2, n_ags := 2, n_ag := 1
    pntr_ags := fun _ _ h => h, pntr_ag := fun _ _ => 1
    n_area := fun _ => 1, n_group := fun _ => 1
    sage := 1, nage := 2, m_nRecType := 3
    m_dispersal := fun _ _ => 1 }

/-- Average recruitment of 80. -/
def twoSexModel : OperatingModel α :=
  { OperatingModel.blank α with m_dRbar := fun _ => 80 }

/-- A retention curve for the concrete inputs: every fish is retained. -/
def retainAll : α → α → (Nat → α) → (Nat → α) → Nat → α :=
  fun _ _ _ _ _ => 1

/-- A solver for the concrete inputs: it returns `ft(k) = ct(k) / 1000` and no
catch by sex. -/
def rateSolver : (Nat → α) → (Nat → Nat → α) → (Nat → Nat → Nat → α) →
    (Nat → Nat → α) → (Nat → Nat → α) → (Nat → α) × (Nat → Nat → α) :=
  fun ct _ _ _ _ => (fun k => ct k / 1000, fun _ _ => 0)

/-- One fleet, one area, one group and one sex; the area is open to the fleet,
the catch is not sexed and there is no historical catch row. -/
def catchData : ModelData α :=
  { oneStratumData α with
    nfleet := 1, ngear := 1, sage := 1, nage := 1, syr := 1, nyr := 1
    nFleetIndex := fun k => k, m_nGearIndex := fun k => k
    m_nCSex := fun _ => 0, m_nAGopen := fun _ _ => 1, nCtNobs := 0 }

/-- A target catch of 10 and both row counters at `nCtNobs = 0`. -/
def catchModel : OperatingModel α :=
  { OperatingModel.blank α with
    m_dTAC := fun _ _ => 10, m_irow := 0, allocateTAC_irow := 0 }

/-- A solver for the concrete inputs: it returns `ft(k) = 0.1` and a catch of 7
for every sex and fleet. -/
def fixedSolver : (Nat → α) → (Nat → Nat → α) → (Nat → Nat → Nat → α) →
    (Nat → Nat → α) → (Nat → Nat → α) → (Nat → α) × (Nat → Nat → α) :=
  fun _ _ _ _ _ => (fun _ => 0.1, fun _ _ => 7)

/-- One group and two fleets under harvest control rule 1, with the allocation
fractions 0.25 and 0.75. -/
def allocData : ModelData α :=
  { ModelData.blank α with
    ngroup := 1, nfleet := 2, ngear := 2, m_nHCR := 1
    dAllocation := fun k => if k = 1 then 0.25 else 0.75 }

/-- Stock status with `F_MSY = 0.2` and a current biomass estimate of `-1000`. -/
def negativeBiomassModel : OperatingModel α :=
  { OperatingModel.blank α with
    m_est_fmsy := fun _ _ => 0.2
    m_est_btt := fun _ => -1000 }

/-- A solver for the concrete inputs that returns the target catches it is
handed as `ft`, so that the targets can be read off. -/
def echoSolver : (Nat → α) → (Nat → Nat → α) → (Nat → Nat → Nat → α) →
    (Nat → Nat → α) → (Nat → Nat → α) → (Nat → α) × (Nat → Nat → α) :=
  fun ct _ _ _ _ => (ct, fun _ _ => 0)

/-- One stratum, ages 1..2, Ricker recruitment with `so = 3`, `sbo = 8`. -/
def lagData : ModelData α :=
  { oneStratumData α with
    sage := 1, nage := 2, m_nRecType := 2, mv_so := fun _ => 3, mv_sbo := fun _ => 8 }

/-- `kappa = 5`, a spawning biomass of 2 in year 1 and of 4 in year 2. -/
def lagModel : OperatingModel α :=
  { OperatingModel.blank α with
    m_dKappa := fun _ => 5
    m_sbt := fun y _ => if y = 1 then 2 else if y = 2 then 4 else 0 }

/-- Two sexes in one area and one group, ages 1..2, average recruitment, and
spawning at the fraction 0.5 of the year's total mortality. -/
def spawnData : ModelData α :=
  { twoSexData α with d_iscamCntrl := fun i => if i = 13 then 0.5 else 0 }

/-- Abundance 100 and mature weight 2 at every age, `Z = 0.4`, and no spawning
biomass recorded yet. -/
def spawnModel : OperatingModel α :=
  { OperatingModel.blank α with
    m_N := fun _ _ _ => 100
    m_Z := fun _ _ _ => 0.4
    m_d3_wt_mat := fun _ _ _ => 2
    m_dRbar := fun _ => 80 }

/-- Two areas of one group and one sex with average recruitment; the
area-groups have `log_rbar = 0` and `log_rbar = 1`. -/
def rbarData : ModelData α :=
  { swapData α with
    syr := 1, nyr := 1, m_nPyr := 2
    mv_log_rbar := fun ih => if ih = 1 then 0 else 1 }

/-- Historical years 1..2 and projection years 3..4 of one stratum whose
natural mortality is 0.2 in year 1 and 0.3 in year 2. -/
def frozenData : ModelData α :=
  { oneStratumData α with
    sage := 1, nage := 2, syr := 1, nyr := 2, m_nPyr := 4
    mv_d3_M := fun _ y _ => if y = 1 then 0.2 else 0.3 }

/-- One stratum with the ages 1..3, one historical year, and the
unfished-initialisation control set. -/
def unfishedData : ModelData α :=
  { oneStratumData α with
    sage := 1, nage := 3, syr := 1, nyr := 1, m_nPyr := 2
    d_iscamCntrl := fun i => if i = 5 then 1 else 0 }

/-- Unfished recruitment `R0 = 1000` and `M = 0.2`. -/
def unfishedModel : OperatingModel α :=
  { OperatingModel.blank α with
    m_dRo := fun _ => 1000
    m_M := fun _ _ _ => 0.2 }

/-- Two fleets on one open area, one group and two sexes; the catch of fleet 2
is sexed, that of fleet 1 is not; one projection year and no historical catch
row. -/
def rowCountData : ModelData α :=
  { ModelData.blank α with
    narea := 1, ngroup := 1, nsex := 2, nfleet := 2, ngear := 2, n_ags := 2, n_ag := 1
    pntr_ags := fun _ _ h => h, pntr_ag := fun _ _ => 1
    n_area := fun _ => 1, n_group := fun _ => 1
    sage := 1, nage := 1, syr := 1, nyr := 1, m_nPyr := 2
    nFleetIndex := fun k => k, m_nGearIndex := fun k => k
    m_nCSex := fun k => if k = 2 then 1 else 0
    m_nAGopen := fun _ _ => 1, nCtNobs := 0 }

/-- The fishery of `catchData` with the one area closed to the one fleet. -/
def closedData : ModelData α :=
  { catchData α with m_nAGopen := fun _ _ => 0 }

/-- Two unsexed age-sampling series, each with one historical row that carries
the gear code 1, on one area, one group and two sexes; one projection year. -/
def twoSeriesData : ModelData α :=
  { compData α with
    nAgears := 2, m_nPyr := 2
    d3_A := fun _ r c => if r = 1 ∧ c = -3 then 1 else 0 }

/-- The fishery of `fisheryData` with one survey series of type 1 (vulnerable
numbers) that has one historical row carrying the gear code 1. -/
def surveyData : ModelData α :=
  { fisheryData α with
    nItNobs := 1, n_it_nobs := fun _ => 1, n_survey_type := fun _ => 1
    d3_survey_data := fun _ r c => if r = 1 ∧ c = 3 then 1 else 0 }

/-- The population of `fisheryModel` with catchability `q = 0.5`. -/
def surveyModel : OperatingModel α :=
  { fisheryModel α with m_q := fun _ => 0.5 }

end Inputs

/-! ## Loops -/

theorem forLoop_invariant {σ : Type} (Inv : Nat → σ → Prop) (lo hi : Nat)
    (body : Nat → σ → σ) (s : σ) (hle : lo ≤ hi + 1) (h0 : Inv lo s)
    (hstep : ∀ i t, lo ≤ i → i ≤ hi → Inv i t → Inv (i + 1) (body i t)) :
    Inv (hi + 1) (forLoop lo hi body s) := by
  unfold forLoop
  obtain ⟨n, hn⟩ : ∃ n, hi + 1 - lo = n := ⟨_, rfl⟩
  have hhi : hi + 1 = lo + n := by omega
  rw [hn, hhi]
  have key : ∀ (m : Nat) (l : Nat) (t : σ), l + m = lo + n → lo ≤ l → Inv l t →
      Inv (lo + n) ((List.range' l m).foldl (fun acc i => body i acc) t) := by
    intro m
    induction m with
    | zero =>
      intro l t hl _ ht
      simp only [List.range'_zero, List.foldl_nil]
      have : l = lo + n := by omega
      exact this ▸ ht
    | succ m ih =>
      intro l t hl hlo ht
      simp only [List.range'_succ, List.foldl_cons]
      exact ih (l + 1) (body l t) (by omega) (by omega)
        (hstep l t hlo (by omega) ht)
  exact key n lo s rfl le_rfl h0

theorem forLoop_preserves {σ : Type} (P : σ → Prop) (lo hi : Nat)
    (body : Nat → σ → σ) (s : σ) (h0 : P s)
    (hstep : ∀ i t, lo ≤ i → i ≤ hi → P t → P (body i t)) :
    P (forLoop lo hi body s) := by
  by_cases hle : lo ≤ hi + 1
  · exact forLoop_invariant (fun _ t => P t) lo hi body s hle h0 hstep
  · have : hi + 1 - lo = 0 := by omega
    simp only [forLoop, this, List.range'_zero, List.foldl_nil]
    exact h0

/-- A loop whose body adds `term i` to a component of the state. -/
theorem forLoop_accumulate {σ β : Type} [AddCommMonoid β] (P : σ → Prop) (proj : σ → β)
    (term : Nat → β) (lo hi : Nat) (body : Nat → σ → σ) (s : σ) (h0 : P s)
    (hstep : ∀ i t, lo ≤ i → i ≤ hi → P t →
      P (body i t) ∧ proj (body i t) = proj t + term i) :
    P (forLoop lo hi body s) ∧
      proj (forLoop lo hi body s) = proj s + ∑ i ∈ Finset.Icc lo hi, term i := by
  by_cases hle : lo ≤ hi + 1
  · have key := forLoop_invariant
      (fun i t => P t ∧ proj t = proj s + ∑ j ∈ Finset.Ico lo i, term j)
      lo hi body s hle ⟨h0, by simp⟩
      (by
        rintro i t h1 h2 ⟨hP, hsum⟩
        obtain ⟨hP', hadd⟩ := hstep i t h1 h2 hP
        refine ⟨hP', ?_⟩
        rw [hadd, hsum, Finset.sum_Ico_succ_top h1, add_assoc])
    dsimp only at key
    rw [Nat.Ico_succ_right] at key
    exact key
  · have h1 : hi + 1 - lo = 0 := by omega
    have h2 : Finset.Icc lo hi = ∅ := Finset.Icc_eq_empty (by omega)
    simp only [forLoop, h1, List.range'_zero, List.foldl_nil, h2, Finset.sum_empty, add_zero]
    exact ⟨h0, trivial⟩

/-! ## Harvest control rule -/

/-- Under rule 1 `calculateTAC` overwrites exactly the rows `1..ngroup` of
`m_dTAC` and nothing else. -/
theorem calculateTAC_eq {α : Type} [LinearOrderedField α] (ex : α → α)
    (d : ModelData α) (om : OperatingModel α) (hHCR : d.m_nHCR = 1) :
    calculateTAC ex d om =
      { om with
        m_dTAC := fun g k =>
          if 1 ≤ g ∧ g ≤ d.ngroup then (1 - ex (-(om.m_est_fmsy g k))) * om.m_est_btt g
          else om.m_dTAC g k } := by
  have key := forLoop_invariant
    (fun i s => s = { om with
        m_dTAC := fun g k =>
          if 1 ≤ g ∧ g < i then (1 - ex (-(om.m_est_fmsy g k))) * om.m_est_btt g
          else om.m_dTAC g k })
    1 d.ngroup
    (fun g s =>
      match d.m_nHCR with
      | 1 => { s with
          m_dTAC := fun g' k =>
            if g' = g then (1 - ex (-(s.m_est_fmsy g k))) * s.m_est_btt g
            else s.m_dTAC g' k }
      | _ => s) om (by omega)
    (by
      cases om
      simp only [OperatingModel.mk.injEq, true_and, and_true]
      funext g k
      rw [if_neg]
      omega)
    (by
      intro i t h1 h2 ht
      subst ht
      simp only [hHCR, OperatingModel.mk.injEq, true_and, and_true]
      funext g k
      by_cases hg : g = i
      · subst hg
        rw [if_pos rfl, if_pos ⟨h1, Nat.lt_succ_self g⟩]
      · rw [if_neg hg]
        by_cases hlt : 1 ≤ g ∧ g < i
        · rw [if_pos hlt, if_pos ⟨hlt.1, by omega⟩]
        · rw [if_neg hlt, if_neg (by omega)])
  simp only [Nat.lt_succ_iff] at key
  exact key

theorem exp_neg_fifth_bounds :
    (0.81872 : ℝ) < Real.exp (-0.2) ∧ Real.exp (-0.2) < 0.81874 := by
  have e0 : (0.2 : ℝ) = 2 / 10 := by norm_num
  rw [e0]
  have h : |Real.exp (-(2 / 10) : ℝ) - ∑ m ∈ Finset.range 5, (-(2 / 10) : ℝ) ^ m / m.factorial|
      ≤ |(-(2 / 10) : ℝ)| ^ 5 * ((Nat.succ 5 : ℕ) / ((Nat.factorial 5 : ℕ) * (5 : ℕ))) :=
    Real.exp_bound (by norm_num [abs_le]) (by norm_num)
  simp only [Finset.sum_range_succ, Finset.sum_range_zero] at h
  have e : |(-(2 / 10) : ℝ)| = 2 / 10 := by rw [abs_neg]; exact abs_of_pos (by norm_num)
  rw [e, abs_le] at h
  norm_num [Nat.factorial] at h
  constructor <;> [linarith [h.1]; linarith [h.2]]

/-- C1. Under harvest-control rule 1 `calculateTAC` sets, for every group `g`
of `1..ngroup` and every fleet `k`,
`TAC(g,k) = (1 - exp(-F_MSY(g,k))) * biomass(g)`; with `F_MSY = 0.2` and
`biomass = 1000` that value lies strictly between 181.26 and 181.28. -/
theorem calculateTAC_constant_harvest_rate (d : ModelData ℝ) (om : OperatingModel ℝ)
    (hHCR : d.m_nHCR = 1) (g k : Nat) (hg1 : 1 ≤ g) (hg2 : g ≤ d.ngroup) :
    (calculateTAC Real.exp d om).m_dTAC g k
        = (1 - Real.exp (-(om.m_est_fmsy g k))) * om.m_est_btt g ∧
      (om.m_est_fmsy g k = 0.2 → om.m_est_btt g = 1000 →
        181.26 < (calculateTAC Real.exp d om).m_dTAC g k ∧
          (calculateTAC Real.exp d om).m_dTAC g k < 181.28) := by
  have hval : (calculateTAC Real.exp d om).m_dTAC g k
      = (1 - Real.exp (-(om.m_est_fmsy g k))) * om.m_est_btt g := by
    rw [calculateTAC_eq Real.exp d om hHCR]
    simp only [if_pos (And.intro hg1 hg2)]
  refine ⟨hval, ?_⟩
  intro hf hb
  rw [hval, hf, hb]
  have hb := exp_neg_fifth_bounds
  constructor <;> [linarith [hb.2]; linarith [hb.1]]

/-- C1 at one group, one fleet, `F_MSY = 0.2`, `biomass = 1000`. -/
theorem calculateTAC_constant_harvest_rate_witness :
    (tacData ℝ).m_nHCR = 1 ∧ 1 ≤ 1 ∧ 1 ≤ (tacData ℝ).ngroup ∧
      (calculateTAC Real.exp (tacData ℝ) (tacModel ℝ)).m_dTAC 1 1
        = (1 - Real.exp (-((tacModel ℝ).m_est_fmsy 1 1))) * (tacModel ℝ).m_est_btt 1 ∧
      ((tacModel ℝ).m_est_fmsy 1 1 = 0.2 → (tacModel ℝ).m_est_btt 1 = 1000 →
        181.26 < (calculateTAC Real.exp (tacData ℝ) (tacModel ℝ)).m_dTAC 1 1 ∧
          (calculateTAC Real.exp (tacData ℝ) (tacModel ℝ)).m_dTAC 1 1 < 181.28) :=
  ⟨rfl, le_rfl, le_rfl,
    calculateTAC_constant_harvest_rate (tacData ℝ) (tacModel ℝ) rfl 1 1 le_rfl le_rfl⟩

/-! ## The Baranov solver -/

namespace BaranovCatchEquation

theorem hasDerivAt_term (n v w m F : ℝ) (hz : m + F * v ≠ 0) :
    HasDerivAt (fun F : ℝ => n * (F * v / (m + F * v)) * (1 - Real.exp (-(m + F * v))) * w)
      (n * w * (v * m * (1 - Real.exp (-(m + F * v))) / (m + F * v) ^ 2
        + F * v ^ 2 * Real.exp (-(m + F * v)) / (m + F * v))) F := by
  have hx : HasDerivAt (fun F : ℝ => F * v) v F := by
    simpa using (hasDerivAt_id F).mul_const v
  have hZ : HasDerivAt (fun F : ℝ => m + F * v) v F := hx.const_add m
  have hE : HasDerivAt (fun F : ℝ => Real.exp (-(m + F * v)))
      (Real.exp (-(m + F * v)) * -v) F := hZ.neg.exp
  have hQ := hx.div hZ hz
  have hP := ((hQ.const_mul n).mul (hE.const_sub 1)).mul_const w
  convert hP using 1
  field_simp
  ring

theorem hasDerivAt_slope_term (n v w m F : ℝ) (hz : m + F * v ≠ 0) :
    HasDerivAt (fun F : ℝ => n * w * (v * m * (1 - Real.exp (-(m + F * v))) / (m + F * v) ^ 2
        + F * v ^ 2 * Real.exp (-(m + F * v)) / (m + F * v)))
      (n * w * (v ^ 2 * (Real.exp (-(m + F * v)) * (2 * m - F * v * (m + F * v)) / (m + F * v) ^ 2
        - 2 * m * (1 - Real.exp (-(m + F * v))) / (m + F * v) ^ 3))) F := by
  have hx : HasDerivAt (fun F : ℝ => F * v) v F := by
    simpa using (hasDerivAt_id F).mul_const v
  have hZ : HasDerivAt (fun F : ℝ => m + F * v) v F := hx.const_add m
  have hE : HasDerivAt (fun F : ℝ => Real.exp (-(m + F * v)))
      (Real.exp (-(m + F * v)) * -v) F := hZ.neg.exp
  have h1 := (((hE.const_sub 1).const_mul (v * m)).div (hZ.pow 2) (pow_ne_zero 2 hz))
  have h2 := (((hasDerivAt_id F).mul_const (v ^ 2)).mul hE).div hZ hz
  have hP := (h1.add h2).const_mul (n * w)
  convert hP using 1
  simp only [id, Nat.cast_ofNat, Nat.add_one_sub_one, pow_one, one_mul]
  field_simp
  ring

theorem exp_neg_lt_one_of_pos {z : ℝ} (hz : 0 < z) : Real.exp (-z) < 1 := by
  have := Real.exp_lt_exp.2 (show -z < 0 by linarith)
  rwa [Real.exp_zero] at this

/-- sign of the slope of one age-term -/
theorem slope_term_nonneg (n v w m F : ℝ) (hn : 0 ≤ n) (hv : 0 ≤ v) (hw : 0 ≤ w) (hm : 0 < m)
    (hF : 0 ≤ F) :
    0 ≤ n * w * (v * m * (1 - Real.exp (-(m + F * v))) / (m + F * v) ^ 2
        + F * v ^ 2 * Real.exp (-(m + F * v)) / (m + F * v)) := by
  have hZ : 0 < m + F * v := by positivity
  have hE : 0 ≤ 1 - Real.exp (-(m + F * v)) := by
    have := exp_neg_lt_one_of_pos hZ; linarith
  have hE' : 0 < Real.exp (-(m + F * v)) := Real.exp_pos _
  positivity

theorem slope_term_pos (n v w m F : ℝ) (hn : 0 < n) (hv : 0 < v) (hw : 0 < w) (hm : 0 < m)
    (hF : 0 ≤ F) :
    0 < n * w * (v * m * (1 - Real.exp (-(m + F * v))) / (m + F * v) ^ 2
        + F * v ^ 2 * Real.exp (-(m + F * v)) / (m + F * v)) := by
  have hZ : 0 < m + F * v := by positivity
  have hE : 0 < 1 - Real.exp (-(m + F * v)) := by
    have := exp_neg_lt_one_of_pos hZ; linarith
  have hE' : 0 < Real.exp (-(m + F * v)) := Real.exp_pos _
  have h1 : 0 < v * m * (1 - Real.exp (-(m + F * v))) / (m + F * v) ^ 2 := by positivity
  have h2 : 0 ≤ F * v ^ 2 * Real.exp (-(m + F * v)) / (m + F * v) := by positivity
  have : 0 < n * w := by positivity
  exact mul_pos this (by linarith)

/-- sign of the second derivative of one age-term -/
theorem curvature_term_nonpos (n v w m F : ℝ) (hn : 0 ≤ n) (hv : 0 ≤ v) (hw : 0 ≤ w)
    (hm : 0 < m) (hF : 0 ≤ F) :
    n * w * (v ^ 2 * (Real.exp (-(m + F * v)) * (2 * m - F * v * (m + F * v)) / (m + F * v) ^ 2
        - 2 * m * (1 - Real.exp (-(m + F * v))) / (m + F * v) ^ 3)) ≤ 0 := by
  have hZ : 0 < m + F * v := by positivity
  have hx : 0 ≤ F * v := by positivity
  set Z := m + F * v with hZdef
  set e := Real.exp (-Z) with hedef
  have he : 0 < e := Real.exp_pos _
  have hprod : e * Real.exp Z = 1 := by
    rw [hedef, ← Real.exp_add]; simp
  have h1 : Z + 1 ≤ Real.exp Z := Real.add_one_le_exp Z
  have h2 : e * (Z + 1) ≤ 1 := by
    calc e * (Z + 1) ≤ e * Real.exp Z := mul_le_mul_of_nonneg_left h1 he.le
      _ = 1 := hprod
  have key : e * (2 * m - F * v * Z) / Z ^ 2 - 2 * m * (1 - e) / Z ^ 3 ≤ 0 := by
    have : e * (2 * m - F * v * Z) / Z ^ 2 - 2 * m * (1 - e) / Z ^ 3
        = (e * Z * (2 * m - F * v * Z) - 2 * m * (1 - e)) / Z ^ 3 := by
      field_simp
      ring
    rw [this]
    apply div_nonpos_of_nonpos_of_nonneg _ (by positivity)
    have h3 : 0 ≤ e * (F * v) * Z ^ 2 := by positivity
    nlinarith [mul_le_mul_of_nonneg_left h2 (by positivity : (0:ℝ) ≤ 2 * m)]
  have hnw : 0 ≤ n * w * v ^ 2 := by positivity
  have := mul_nonpos_of_nonneg_of_nonpos hnw key
  calc n * w * (v ^ 2 * (e * (2 * m - F * v * Z) / Z ^ 2 - 2 * m * (1 - e) / Z ^ 3))
      = n * w * v ^ 2 * (e * (2 * m - F * v * Z) / Z ^ 2 - 2 * m * (1 - e) / Z ^ 3) := by ring
    _ ≤ 0 := this


section Sums

variable (sage nage : Nat) (ma va na wa : Nat → ℝ)

theorem catchAt_zero : catchAt Real.exp sage nage ma va na wa 0 = 0 := by
  simp [catchAt, vsum]

theorem total_pos (hM : ∀ a, sage ≤ a → a ≤ nage → 0 < ma a)
    (hV : ∀ a, sage ≤ a → a ≤ nage → 0 ≤ va a) {F : ℝ} (hF : 0 ≤ F) (a : Nat)
    (ha : a ∈ Finset.Icc sage nage) : 0 < ma a + F * va a := by
  rw [Finset.mem_Icc] at ha
  have h1 := hM a ha.1 ha.2
  have h2 := hV a ha.1 ha.2
  positivity

theorem catchAt_hasDerivAt (hM : ∀ a, sage ≤ a → a ≤ nage → 0 < ma a)
    (hV : ∀ a, sage ≤ a → a ≤ nage → 0 ≤ va a) {F : ℝ} (hF : 0 ≤ F) :
    HasDerivAt (catchAt Real.exp sage nage ma va na wa)
      (catchSlope Real.exp sage nage ma va na wa F) F := by
  have h : HasDerivAt
      (fun G : ℝ => ∑ a ∈ Finset.Icc sage nage,
        na a * (G * va a / (ma a + G * va a)) * (1 - Real.exp (-(ma a + G * va a))) * wa a)
      (∑ a ∈ Finset.Icc sage nage, na a * wa a *
        (va a * ma a * (1 - Real.exp (-(ma a + F * va a))) / (ma a + F * va a) ^ 2
          + F * va a ^ 2 * Real.exp (-(ma a + F * va a)) / (ma a + F * va a))) F :=
    HasDerivAt.sum (fun a ha => hasDerivAt_term (na a) (va a) (wa a) (ma a) F
      (ne_of_gt (total_pos sage nage ma va hM hV hF a ha)))
  exact h

theorem catchSlope_hasDerivAt (hM : ∀ a, sage ≤ a → a ≤ nage → 0 < ma a)
    (hV : ∀ a, sage ≤ a → a ≤ nage → 0 ≤ va a) {F : ℝ} (hF : 0 ≤ F) :
    HasDerivAt (catchSlope Real.exp sage nage ma va na wa)
      (catchCurvature Real.exp sage nage ma va na wa F) F := by
  have h : HasDerivAt
      (fun G : ℝ => ∑ a ∈ Finset.Icc sage nage, na a * wa a *
        (va a * ma a * (1 - Real.exp (-(ma a + G * va a))) / (ma a + G * va a) ^ 2
          + G * va a ^ 2 * Real.exp (-(ma a + G * va a)) / (ma a + G * va a)))
      (∑ a ∈ Finset.Icc sage nage, na a * wa a *
        (va a ^ 2 *
          (Real.exp (-(ma a + F * va a)) * (2 * ma a - F * va a * (ma a + F * va a))
              / (ma a + F * va a) ^ 2
            - 2 * ma a * (1 - Real.exp (-(ma a + F * va a))) / (ma a + F * va a) ^ 3))) F :=
    HasDerivAt.sum (fun a ha => hasDerivAt_slope_term (na a) (va a) (wa a) (ma a) F
      (ne_of_gt (total_pos sage nage ma va hM hV hF a ha)))
  exact h

theorem catchSlope_nonneg (hM : ∀ a, sage ≤ a → a ≤ nage → 0 < ma a)
    (hV : ∀ a, sage ≤ a → a ≤ nage → 0 ≤ va a) (hN : ∀ a, sage ≤ a → a ≤ nage → 0 ≤ na a)
    (hW : ∀ a, sage ≤ a → a ≤ nage → 0 ≤ wa a) {F : ℝ} (hF : 0 ≤ F) :
    0 ≤ catchSlope Real.exp sage nage ma va na wa F := by
  unfold catchSlope vsum
  refine Finset.sum_nonneg (fun a ha => ?_)
  rw [Finset.mem_Icc] at ha
  exact slope_term_nonneg _ _ _ _ _ (hN a ha.1 ha.2) (hV a ha.1 ha.2) (hW a ha.1 ha.2)
    (hM a ha.1 ha.2) hF

theorem catchSlope_pos (hM : ∀ a, sage ≤ a → a ≤ nage → 0 < ma a)
    (hV : ∀ a, sage ≤ a → a ≤ nage → 0 ≤ va a) (hN : ∀ a, sage ≤ a → a ≤ nage → 0 ≤ na a)
    (hW : ∀ a, sage ≤ a → a ≤ nage → 0 ≤ wa a)
    (hvul : ∃ a, sage ≤ a ∧ a ≤ nage ∧ 0 < na a ∧ 0 < va a ∧ 0 < wa a) {F : ℝ} (hF : 0 ≤ F) :
    0 < catchSlope Real.exp sage nage ma va na wa F := by
  obtain ⟨a0, h1, h2, hn, hv, hw⟩ := hvul
  unfold catchSlope vsum
  refine Finset.sum_pos' (fun a ha => ?_) ⟨a0, Finset.mem_Icc.2 ⟨h1, h2⟩, ?_⟩
  · rw [Finset.mem_Icc] at ha
    exact slope_term_nonneg _ _ _ _ _ (hN a ha.1 ha.2) (hV a ha.1 ha.2) (hW a ha.1 ha.2)
      (hM a ha.1 ha.2) hF
  · exact slope_term_pos _ _ _ _ _ hn hv hw (hM a0 h1 h2) hF

theorem catchCurvature_nonpos (hM : ∀ a, sage ≤ a → a ≤ nage → 0 < ma a)
    (hV : ∀ a, sage ≤ a → a ≤ nage → 0 ≤ va a) (hN : ∀ a, sage ≤ a → a ≤ nage → 0 ≤ na a)
    (hW : ∀ a, sage ≤ a → a ≤ nage → 0 ≤ wa a) {F : ℝ} (hF : 0 ≤ F) :
    catchCurvature Real.exp sage nage ma va na wa F ≤ 0 := by
  unfold catchCurvature vsum
  refine Finset.sum_nonpos (fun a ha => ?_)
  rw [Finset.mem_Icc] at ha
  exact curvature_term_nonpos _ _ _ _ _ (hN a ha.1 ha.2) (hV a ha.1 ha.2) (hW a ha.1 ha.2)
    (hM a ha.1 ha.2) hF

theorem catchAt_concaveOn (hM : ∀ a, sage ≤ a → a ≤ nage → 0 < ma a)
    (hV : ∀ a, sage ≤ a → a ≤ nage → 0 ≤ va a) (hN : ∀ a, sage ≤ a → a ≤ nage → 0 ≤ na a)
    (hW : ∀ a, sage ≤ a → a ≤ nage → 0 ≤ wa a) :
    ConcaveOn ℝ (Set.Ici 0) (catchAt Real.exp sage nage ma va na wa) := by
  refine @concaveOn_of_hasDerivWithinAt2_nonpos (Set.Ici 0) (convex_Ici 0)
    (catchAt Real.exp sage nage ma va na wa) (catchSlope Real.exp sage nage ma va na wa)
    (catchCurvature Real.exp sage nage ma va na wa) ?_ ?_ ?_ ?_
  · intro x hx
    exact (catchAt_hasDerivAt sage nage ma va na wa hM hV hx).continuousAt.continuousWithinAt
  · intro x hx
    rw [interior_Ici] at hx
    exact (catchAt_hasDerivAt sage nage ma va na wa hM hV (le_of_lt hx)).hasDerivWithinAt
  · intro x hx
    rw [interior_Ici] at hx
    exact (catchSlope_hasDerivAt sage nage ma va na wa hM hV (le_of_lt hx)).hasDerivWithinAt
  · intro x hx
    rw [interior_Ici] at hx
    exact catchCurvature_nonpos sage nage ma va na wa hM hV hN hW (le_of_lt hx)

/-- tangent-line bound to the right of `F` -/
theorem catchAt_le_tangent (hM : ∀ a, sage ≤ a → a ≤ nage → 0 < ma a)
    (hV : ∀ a, sage ≤ a → a ≤ nage → 0 ≤ va a) (hN : ∀ a, sage ≤ a → a ≤ nage → 0 ≤ na a)
    (hW : ∀ a, sage ≤ a → a ≤ nage → 0 ≤ wa a) {F G : ℝ} (hF : 0 ≤ F) (hFG : F ≤ G) :
    catchAt Real.exp sage nage ma va na wa G
      ≤ catchAt Real.exp sage nage ma va na wa F
        + catchSlope Real.exp sage nage ma va na wa F * (G - F) := by
  rcases eq_or_lt_of_le hFG with h | h
  · subst h; simp
  · have hc := catchAt_concaveOn sage nage ma va na wa hM hV hN hW
    have hs := hc.slope_le_of_hasDerivAt (Set.mem_Ici.2 hF) (Set.mem_Ici.2 (hF.trans hFG)) h
      (catchAt_hasDerivAt sage nage ma va na wa hM hV hF)
    rw [slope_def_field, div_le_iff₀ (sub_pos.2 h)] at hs
    linarith

/-- the slope is largest at `F = 0` -/
theorem catchSlope_le_zero (hM : ∀ a, sage ≤ a → a ≤ nage → 0 < ma a)
    (hV : ∀ a, sage ≤ a → a ≤ nage → 0 ≤ va a) (hN : ∀ a, sage ≤ a → a ≤ nage → 0 ≤ na a)
    (hW : ∀ a, sage ≤ a → a ≤ nage → 0 ≤ wa a) {F : ℝ} (hF : 0 ≤ F) :
    catchSlope Real.exp sage nage ma va na wa F
      ≤ catchSlope Real.exp sage nage ma va na wa 0 := by
  rcases eq_or_lt_of_le hF with h | h
  · subst h; exact le_rfl
  · have hc := catchAt_concaveOn sage nage ma va na wa hM hV hN hW
    have h0 : (0:ℝ) ∈ Set.Ici (0:ℝ) := Set.mem_Ici.2 le_rfl
    have h1 := hc.slope_le_of_hasDerivAt h0 (Set.mem_Ici.2 hF) h
      (catchAt_hasDerivAt sage nage ma va na wa hM hV le_rfl)
    have h2 := hc.le_slope_of_hasDerivAt h0 (Set.mem_Ici.2 hF) h
      (catchAt_hasDerivAt sage nage ma va na wa hM hV hF)
    exact h2.trans h1

theorem catchAt_strictMonoOn (hM : ∀ a, sage ≤ a → a ≤ nage → 0 < ma a)
    (hV : ∀ a, sage ≤ a → a ≤ nage → 0 ≤ va a) (hN : ∀ a, sage ≤ a → a ≤ nage → 0 ≤ na a)
    (hW : ∀ a, sage ≤ a → a ≤ nage → 0 ≤ wa a)
    (hvul : ∃ a, sage ≤ a ∧ a ≤ nage ∧ 0 < na a ∧ 0 < va a ∧ 0 < wa a) :
    StrictMonoOn (catchAt Real.exp sage nage ma va na wa) (Set.Ici 0) := by
  refine strictMonoOn_of_deriv_pos (convex_Ici 0) ?_ ?_
  · intro x hx
    exact (catchAt_hasDerivAt sage nage ma va na wa hM hV hx).continuousAt.continuousWithinAt
  · intro x hx
    rw [interior_Ici] at hx
    rw [(catchAt_hasDerivAt sage nage ma va na wa hM hV (le_of_lt hx)).deriv]
    exact catchSlope_pos sage nage ma va na wa hM hV hN hW hvul (le_of_lt hx)

/-- a positive catch needs an age with fish, vulnerability and weight -/
theorem exists_vulnerable_of_catchAt_pos (hN : ∀ a, sage ≤ a → a ≤ nage → 0 ≤ na a)
    (hV : ∀ a, sage ≤ a → a ≤ nage → 0 ≤ va a) (hW : ∀ a, sage ≤ a → a ≤ nage → 0 ≤ wa a)
    {F : ℝ} (hpos : 0 < catchAt Real.exp sage nage ma va na wa F) :
    ∃ a, sage ≤ a ∧ a ≤ nage ∧ 0 < na a ∧ 0 < va a ∧ 0 < wa a := by
  by_contra hcon
  have hle : catchAt Real.exp sage nage ma va na wa F ≤ 0 := by
    unfold catchAt vsum
    refine Finset.sum_nonpos (fun a ha => ?_)
    rw [Finset.mem_Icc] at ha
    have hz : na a = 0 ∨ va a = 0 ∨ wa a = 0 := by
      by_contra h
      push_neg at h
      exact hcon ⟨a, ha.1, ha.2, lt_of_le_of_ne (hN a ha.1 ha.2) (Ne.symm h.1),
        lt_of_le_of_ne (hV a ha.1 ha.2) (Ne.symm h.2.1),
        lt_of_le_of_ne (hW a ha.1 ha.2) (Ne.symm h.2.2)⟩
    rcases hz with h | h | h <;> simp [h]
  linarith

end Sums

section Newton

variable (tol : ℝ) (sage nage : Nat) (ct : ℝ) (ma va na wa : Nat → ℝ)

/-- The loop returns an iterate that meets the stopping test as soon as one of
the first `its` iterates does. -/
theorem newtonLoop_of_iterate (its : Nat) :
    ∀ (F : ℝ) (k : Nat), k < its →
      |catchAt Real.exp sage nage ma va na wa
          ((newtonStep Real.exp sage nage ct ma va na wa)^[k] F) - ct| ≤ tol * ct →
      ∃ j, j ≤ k ∧ newtonLoop Real.exp tol sage nage ct ma va na wa its F
          = some ((newtonStep Real.exp sage nage ct ma va na wa)^[j] F) ∧
        |catchAt Real.exp sage nage ma va na wa
          ((newtonStep Real.exp sage nage ct ma va na wa)^[j] F) - ct| ≤ tol * ct := by
  induction its with
  | zero => intro F k hk; omega
  | succ its ih =>
    intro F k hk hcrit
    by_cases h0 : |catchAt Real.exp sage nage ma va na wa F - ct| ≤ tol * ct
    · refine ⟨0, Nat.zero_le _, ?_, ?_⟩
      · simp only [newtonLoop, h0, if_true, Function.iterate_zero, id]
      · simpa using h0
    · cases k with
      | zero => exact absurd (by simpa using hcrit) h0
      | succ k =>
        rw [Function.iterate_succ_apply] at hcrit
        obtain ⟨j, hj, hres, hc⟩ := ih _ k (by omega) hcrit
        refine ⟨j + 1, by omega, ?_, ?_⟩
        · simp only [newtonLoop, h0, if_false, Function.iterate_succ_apply]
          exact hres
        · rw [Function.iterate_succ_apply]
          exact hc

/-- The Newton iterates started at `F = 0` stay nonnegative and never
overshoot the target catch. -/
theorem newton_iterate_le (hM : ∀ a, sage ≤ a → a ≤ nage → 0 < ma a)
    (hV : ∀ a, sage ≤ a → a ≤ nage → 0 ≤ va a) (hN : ∀ a, sage ≤ a → a ≤ nage → 0 ≤ na a)
    (hW : ∀ a, sage ≤ a → a ≤ nage → 0 ≤ wa a)
    (hvul : ∃ a, sage ≤ a ∧ a ≤ nage ∧ 0 < na a ∧ 0 < va a ∧ 0 < wa a) (hct : 0 ≤ ct)
    (k : Nat) :
    0 ≤ (newtonStep Real.exp sage nage ct ma va na wa)^[k] 0 ∧
      catchAt Real.exp sage nage ma va na wa
        ((newtonStep Real.exp sage nage ct ma va na wa)^[k] 0) ≤ ct := by
  induction k with
  | zero =>
    simp only [Function.iterate_zero, id, le_refl, true_and]
    rw [catchAt_zero]
    exact hct
  | succ k ih =>
    rw [Function.iterate_succ_apply']
    obtain ⟨h0, hle⟩ := ih
    set F := (newtonStep Real.exp sage nage ct ma va na wa)^[k] 0 with hFdef
    have hs := catchSlope_pos sage nage ma va na wa hM hV hN hW hvul h0
    have hinc : 0 ≤ (ct - catchAt Real.exp sage nage ma va na wa F)
        / catchSlope Real.exp sage nage ma va na wa F :=
      div_nonneg (by linarith) hs.le
    have hstep : newtonStep Real.exp sage nage ct ma va na wa F
        = F + (ct - catchAt Real.exp sage nage ma va na wa F)
          / catchSlope Real.exp sage nage ma va na wa F := by
      unfold newtonStep
      ring
    rw [hstep]
    refine ⟨by linarith, ?_⟩
    have ht := catchAt_le_tangent sage nage ma va na wa hM hV hN hW h0
      (show F ≤ F + (ct - catchAt Real.exp sage nage ma va na wa F)
          / catchSlope Real.exp sage nage ma va na wa F by linarith)
    have hcancel : catchSlope Real.exp sage nage ma va na wa F
        * (F + (ct - catchAt Real.exp sage nage ma va na wa F)
          / catchSlope Real.exp sage nage ma va na wa F - F)
        = ct - catchAt Real.exp sage nage ma va na wa F := by
      field_simp
      ring
    rw [hcancel] at ht
    linarith

/-- While the stopping test fails, every Newton iterate advances by more than
`tol * ct / slope(0)`. -/
theorem newton_iterate_lower (hM : ∀ a, sage ≤ a → a ≤ nage → 0 < ma a)
    (hV : ∀ a, sage ≤ a → a ≤ nage → 0 ≤ va a) (hN : ∀ a, sage ≤ a → a ≤ nage → 0 ≤ na a)
    (hW : ∀ a, sage ≤ a → a ≤ nage → 0 ≤ wa a)
    (hvul : ∃ a, sage ≤ a ∧ a ≤ nage ∧ 0 < na a ∧ 0 < va a ∧ 0 < wa a) (hct : 0 < ct)
    (htol : 0 < tol) (K : Nat)
    (hfail : ∀ k, k < K →
      ¬ |catchAt Real.exp sage nage ma va na wa
          ((newtonStep Real.exp sage nage ct ma va na wa)^[k] 0) - ct| ≤ tol * ct) :
    (K : ℝ) * (tol * ct / catchSlope Real.exp sage nage ma va na wa 0)
      ≤ (newtonStep Real.exp sage nage ct ma va na wa)^[K] 0 := by
  induction K with
  | zero => simp
  | succ K ih =>
    have hprev := ih (fun k hk => hfail k (by omega))
    obtain ⟨h0, hle⟩ := newton_iterate_le sage nage ct ma va na wa hM hV hN hW hvul hct.le K
    have hf := hfail K (by omega)
    rw [Function.iterate_succ_apply']
    set F := (newtonStep Real.exp sage nage ct ma va na wa)^[K] 0 with hFdef
    have hs := catchSlope_pos sage nage ma va na wa hM hV hN hW hvul h0
    have hs0 := catchSlope_pos sage nage ma va na wa hM hV hN hW hvul (le_refl (0:ℝ))
    have hsle := catchSlope_le_zero sage nage ma va na wa hM hV hN hW h0
    have hgap : tol * ct < ct - catchAt Real.exp sage nage ma va na wa F := by
      rw [abs_sub_comm, abs_of_nonneg (by linarith)] at hf
      linarith
    have hstep : newtonStep Real.exp sage nage ct ma va na wa F
        = F + (ct - catchAt Real.exp sage nage ma va na wa F)
          / catchSlope Real.exp sage nage ma va na wa F := by
      unfold newtonStep
      ring
    have hinc : tol * ct / catchSlope Real.exp sage nage ma va na wa 0
        ≤ (ct - catchAt Real.exp sage nage ma va na wa F)
          / catchSlope Real.exp sage nage ma va na wa F := by
      have hpos : 0 < tol * ct := mul_pos htol hct
      calc tol * ct / catchSlope Real.exp sage nage ma va na wa 0
          ≤ tol * ct / catchSlope Real.exp sage nage ma va na wa F :=
            div_le_div_of_nonneg_left hpos.le hs hsle
        _ ≤ (ct - catchAt Real.exp sage nage ma va na wa F)
            / catchSlope Real.exp sage nage ma va na wa F :=
            div_le_div_of_nonneg_right hgap.le hs.le
    rw [hstep]
    push_cast
    linarith

end Newton

/-- C2. Baranov round trip for one gear and one stratum: when natural mortality
is positive, abundance, vulnerability and weight are nonnegative, and the
target catch `ct > 0` is feasible (some `F ≥ 0` yields at least `ct`), the
solver with a relative tolerance `tol ≤ 1e-6` returns, for every iteration
limit from some `n` on, a multiplier `F ≥ 0` whose Baranov catch
`Σ N·(F·V/Z)·(1−exp(−Z))·W`, `Z = M + F·V`, is within `1e-6 · ct` of `ct`. -/
theorem getFishingMortality_round_trip (tol : ℝ) (sage nage : Nat) (ct : ℝ)
    (ma va na wa : Nat → ℝ)
    (hM : ∀ a, sage ≤ a → a ≤ nage → 0 < ma a)
    (hV : ∀ a, sage ≤ a → a ≤ nage → 0 ≤ va a)
    (hN : ∀ a, sage ≤ a → a ≤ nage → 0 ≤ na a)
    (hW : ∀ a, sage ≤ a → a ≤ nage → 0 ≤ wa a)
    (hct : 0 < ct) (htol : 0 < tol) (htol6 : tol ≤ 1e-6)
    (hfeas : ∃ Fmax, 0 ≤ Fmax ∧ ct ≤ catchAt Real.exp sage nage ma va na wa Fmax) :
    ∃ n, ∀ maxits, n ≤ maxits →
      ∃ F, getFishingMortality Real.exp tol maxits sage nage ct ma va na wa = some F ∧
        0 ≤ F ∧ |catchAt Real.exp sage nage ma va na wa F - ct| ≤ 1e-6 * ct := by
  obtain ⟨Fmax, hFmax, hreach⟩ := hfeas
  have hvul := exists_vulnerable_of_catchAt_pos sage nage ma va na wa hN hV hW
    (lt_of_lt_of_le hct hreach)
  have hs0 := catchSlope_pos sage nage ma va na wa hM hV hN hW hvul (le_refl (0:ℝ))
  have hε : 0 < tol * ct / catchSlope Real.exp sage nage ma va na wa 0 :=
    div_pos (mul_pos htol hct) hs0
  obtain ⟨K, hK⟩ := exists_nat_gt (Fmax / (tol * ct / catchSlope Real.exp sage nage ma va na wa 0))
  rw [div_lt_iff₀ hε] at hK
  have hex : ∃ k, k < K ∧
      |catchAt Real.exp sage nage ma va na wa
          ((newtonStep Real.exp sage nage ct ma va na wa)^[k] 0) - ct| ≤ tol * ct := by
    by_contra hcon
    push_neg at hcon
    have hlow := newton_iterate_lower tol sage nage ct ma va na wa hM hV hN hW hvul hct htol K
      (fun k hk => not_le.2 (hcon k hk))
    obtain ⟨h0, hle⟩ := newton_iterate_le sage nage ct ma va na wa hM hV hN hW hvul hct.le K
    have hmono := catchAt_strictMonoOn sage nage ma va na wa hM hV hN hW hvul
    have hbig : Fmax < (newtonStep Real.exp sage nage ct ma va na wa)^[K] 0 :=
      lt_of_lt_of_le hK hlow
    have := hmono (Set.mem_Ici.2 hFmax) (Set.mem_Ici.2 h0) hbig
    linarith
  obtain ⟨k, hk, hcrit⟩ := hex
  refine ⟨K, fun maxits hmax => ?_⟩
  obtain ⟨j, -, hres, hc⟩ := newtonLoop_of_iterate tol sage nage ct ma va na wa maxits 0 k
    (by omega) hcrit
  refine ⟨_, hres, ?_, ?_⟩
  · exact (newton_iterate_le sage nage ct ma va na wa hM hV hN hW hvul hct.le j).1
  · refine hc.trans ?_
    exact mul_le_mul_of_nonneg_right htol6 hct.le

/-- C2 at one age class with 1000 fish of weight 1, full vulnerability,
`M = 0.2` and a target catch of 100, which `F = 1` exceeds. -/
theorem getFishingMortality_round_trip_witness :
    (∀ a, 1 ≤ a → a ≤ 1 → (0:ℝ) < (fun _ => 0.2) a) ∧
    (∀ a, 1 ≤ a → a ≤ 1 → (0:ℝ) ≤ (fun _ => 1) a) ∧
    (∀ a, 1 ≤ a → a ≤ 1 → (0:ℝ) ≤ (fun _ => 1000) a) ∧
    (∀ a, 1 ≤ a → a ≤ 1 → (0:ℝ) ≤ (fun _ => 1) a) ∧
    (0:ℝ) < 100 ∧ (0:ℝ) < 1e-6 ∧ (1e-6:ℝ) ≤ 1e-6 ∧
    (∃ Fmax : ℝ, 0 ≤ Fmax ∧ 100 ≤ catchAt Real.exp 1 1 (fun _ => 0.2)
      (fun _ => 1) (fun _ => 1000) (fun _ => 1) Fmax) ∧
    ∃ n, ∀ maxits, n ≤ maxits →
      ∃ F, getFishingMortality Real.exp 1e-6 maxits 1 1 100
          (fun _ => 0.2) (fun _ => 1) (fun _ => 1000) (fun _ => 1) = some F ∧
        0 ≤ F ∧ |catchAt Real.exp 1 1 (fun _ => 0.2) (fun _ => 1)
          (fun _ => 1000) (fun _ => 1) F - 100| ≤ 1e-6 * 100 := by
  have hfeas : ∃ Fmax : ℝ, 0 ≤ Fmax ∧ 100 ≤ catchAt Real.exp 1 1
      (fun _ => 0.2) (fun _ => 1) (fun _ => 1000) (fun _ => 1) Fmax := by
    refine ⟨1, zero_le_one, ?_⟩
    have h1 : (1.2:ℝ) + 1 ≤ Real.exp 1.2 := Real.add_one_le_exp _
    have h2 : Real.exp (-(0.2 + 1 * 1)) * Real.exp 1.2 = 1 := by
      rw [← Real.exp_add]; norm_num
    have h3 : Real.exp (-(0.2 + 1 * 1)) ≤ 1 / 2 := by
      have hpos := Real.exp_pos (-(0.2 + 1 * 1))
      nlinarith
    simp only [catchAt, vsum, Finset.Icc_self, Finset.sum_singleton]
    norm_num at h3 ⊢
    nlinarith
  exact ⟨fun _ _ _ => by norm_num, fun _ _ _ => by norm_num, fun _ _ _ => by norm_num,
    fun _ _ _ => by norm_num, by norm_num, by norm_num, le_rfl, hfeas,
    getFishingMortality_round_trip 1e-6 1 1 100 (fun _ => 0.2) (fun _ => 1) (fun _ => 1000)
      (fun _ => 1) (fun _ _ _ => by norm_num) (fun _ _ _ => by norm_num)
      (fun _ _ _ => by norm_num) (fun _ _ _ => by norm_num) (by norm_num) (by norm_num) le_rfl
      hfeas⟩

end BaranovCatchEquation

/-! ## Total mortality -/

/-- `calcTotalMortality(iyr)` overwrites the rows `iyr` of `m_Z` and `m_S` for the
strata `1..n_ags`: `Z = M + F` and `S = 1 - exp(-Z)`. -/
theorem calcTotalMortality_eq {α : Type} [LinearOrderedField α] (ex : α → α)
    (d : ModelData α) (iyr : Nat) (om : OperatingModel α) :
    calcTotalMortality ex d iyr om =
      { om with
        m_Z := fun ig y a =>
          if (1 ≤ ig ∧ ig ≤ d.n_ags) ∧ y = iyr then om.m_M ig iyr a + om.m_F ig iyr a
          else om.m_Z ig y a
        m_S := fun ig y a =>
          if (1 ≤ ig ∧ ig ≤ d.n_ags) ∧ y = iyr then
            1 - ex (-(om.m_M ig iyr a + om.m_F ig iyr a))
          else om.m_S ig y a } := by
  obtain ⟨Inv, hInv⟩ : ∃ Inv : Nat → OperatingModel α → Prop, Inv = fun i s =>
      s = { om with
        m_Z := fun ig y a =>
          if (1 ≤ ig ∧ ig < i) ∧ y = iyr then om.m_M ig iyr a + om.m_F ig iyr a
          else om.m_Z ig y a
        m_S := fun ig y a =>
          if (1 ≤ ig ∧ ig < i) ∧ y = iyr then
            1 - ex (-(om.m_M ig iyr a + om.m_F ig iyr a))
          else om.m_S ig y a } := ⟨_, rfl⟩
  have key : Inv (d.n_ags + 1) (calcTotalMortality ex d iyr om) := by
    refine forLoop_invariant Inv 1 d.n_ags _ om (by omega) ?_ ?_
    · subst hInv
      cases om
      simp only [OperatingModel.mk.injEq, true_and, and_true]
      constructor <;>
      · funext ig y a
        rw [if_neg]
        omega
    · subst hInv
      intro i t h1 h2 ht
      subst ht
      simp only [OperatingModel.mk.injEq, true_and, and_true]
      constructor <;>
      · funext ig y a
        by_cases hy : y = iyr
        · by_cases hig : ig = i
          · subst hig
            simp [hy, h1]
          · by_cases hlt : 1 ≤ ig ∧ ig < i
            · have hlt' : 1 ≤ ig ∧ ig < i + 1 := ⟨hlt.1, by omega⟩
              simp [hy, hig, hlt, hlt']
            · have hlt' : ¬ (1 ≤ ig ∧ ig < i + 1) := by omega
              simp [hy, hig, hlt, hlt']
        · simp [hy]
  subst hInv
  simp only [Nat.lt_succ_iff] at key
  exact key

/-- C4. With one stratum and `M = F = 0` in year 1, `calcTotalMortality(1)`
stores `Z = 0` and the survival rate `S = 1 - exp(-Z) = 0`, whereas
`exp(-Z) = 1`. -/
theorem calcTotalMortality_survival_at_zero :
    (calcTotalMortality Real.exp (oneStratumData ℝ) 1 (OperatingModel.blank ℝ)).m_Z 1 1 0 = 0 ∧
    (calcTotalMortality Real.exp (oneStratumData ℝ) 1 (OperatingModel.blank ℝ)).m_S 1 1 0 = 0 ∧
    Real.exp (-((calcTotalMortality Real.exp (oneStratumData ℝ) 1
      (OperatingModel.blank ℝ)).m_Z 1 1 0)) = 1 := by
  simp [calcTotalMortality, forLoop, oneStratumData, ModelData.blank, OperatingModel.blank]

/-! ## Population update -/

section Update

variable {α : Type} [LinearOrderedField α]

/-- The first loop nest of `updateReferenceModel` writes `m_sbt` only. -/
theorem updateReferenceModel_sbt_frame (mfexp : α → α) (d : ModelData α) (iyr : Nat)
    (om : OperatingModel α) :
    ∃ sbt, updateReferenceModel_sbt mfexp d iyr om = { om with m_sbt := sbt } := by
  unfold updateReferenceModel_sbt
  refine forLoop_preserves (fun s => ∃ sbt, s = { om with m_sbt := sbt }) _ _ _ _ ?_ ?_
  · exact ⟨om.m_sbt, rfl⟩
  · intro f t _ _ ht
    refine forLoop_preserves (fun s => ∃ sbt, s = { om with m_sbt := sbt }) _ _ _ _ ht ?_
    intro h t _ _ ht
    refine forLoop_preserves (fun s => ∃ sbt, s = { om with m_sbt := sbt }) _ _ _ _ ht ?_
    rintro g t _ _ ⟨sbt, rfl⟩
    exact ⟨_, rfl⟩

theorem updateReferenceModel_recruits_frame (ex lg : α → α) (d : ModelData α) (iyr : Nat)
    (om : OperatingModel α) (tmp : Nat → α) :
    (updateReferenceModel_recruits ex lg d iyr (om, tmp)).1.m_M = om.m_M ∧
    (updateReferenceModel_recruits ex lg d iyr (om, tmp)).1.m_F = om.m_F ∧
    ∀ ig y a, (y ≠ iyr + 1 ∨ a ≠ d.sage) →
      (updateReferenceModel_recruits ex lg d iyr (om, tmp)).1.m_N ig y a = om.m_N ig y a := by
  unfold updateReferenceModel_recruits
  refine forLoop_preserves (fun st : OperatingModel α × (Nat → α) =>
    st.1.m_M = om.m_M ∧ st.1.m_F = om.m_F ∧
    ∀ ig y a, (y ≠ iyr + 1 ∨ a ≠ d.sage) → st.1.m_N ig y a = om.m_N ig y a) _ _ _ _ ?_ ?_
  · exact ⟨rfl, rfl, fun _ _ _ _ => rfl⟩
  · rintro ig ⟨t, tmp'⟩ _ _ ⟨hM, hF, hN⟩
    have hne : ∀ (ig' y a : Nat), (y ≠ iyr + 1 ∨ a ≠ d.sage) →
        ¬ (ig' = ig ∧ y = iyr + 1 ∧ a = d.sage) := by
      intro ig' y a h1 h2
      rcases h1 with h1 | h1
      · exact h1 h2.2.1
      · exact h1 h2.2.2
    refine ⟨?_, ?_, ?_⟩
    · dsimp only
      split <;> exact hM
    · dsimp only
      split <;> exact hF
    · intro ig' y a hya
      dsimp only
      split <;> simp only [assign3, if_neg (hne ig' y a hya)] <;> exact hN ig' y a hya


/-- Closed form of the third loop of `updateReferenceModel`. -/
theorem updateReferenceModel_ageing_spec (ex : α → α) (d : ModelData α) (iyr : Nat)
    (tmp_rec : Nat → α) (om : OperatingModel α) :
    (updateReferenceModel_ageing ex d iyr tmp_rec om).m_M = om.m_M ∧
    (updateReferenceModel_ageing ex d iyr tmp_rec om).m_F = om.m_F ∧
    (∀ ig y a, (y ≠ iyr + 1 ∨ ¬ (1 ≤ ig ∧ ig ≤ d.n_ags)) →
      (updateReferenceModel_ageing ex d iyr tmp_rec om).m_N ig y a = om.m_N ig y a) ∧
    (∀ ig a, 1 ≤ ig → ig ≤ d.n_ags →
      (updateReferenceModel_ageing ex d iyr tmp_rec om).m_N ig (iyr + 1) a =
        if a = d.nage then
          (if d.sage + 1 ≤ d.nage then
              om.m_N ig iyr (d.nage - 1) *
                ex (-(om.m_M ig iyr (d.nage - 1) + om.m_F ig iyr (d.nage - 1)))
            else if d.nage = d.sage then
              (tmp_rec (d.n_area ig) / (d.nsex : α)) *
                (om.m_N ig (iyr + 1) d.sage / tmp_rec (d.n_area ig))
            else om.m_N ig (iyr + 1) d.nage)
            + om.m_N ig iyr d.nage * ex (-(om.m_M ig iyr d.nage + om.m_F ig iyr d.nage))
        else if d.sage + 1 ≤ a ∧ a ≤ d.nage then
          om.m_N ig iyr (a - 1) * ex (-(om.m_M ig iyr (a - 1) + om.m_F ig iyr (a - 1)))
        else if a = d.sage then
          (tmp_rec (d.n_area ig) / (d.nsex : α)) *
            (om.m_N ig (iyr + 1) d.sage / tmp_rec (d.n_area ig))
        else om.m_N ig (iyr + 1) a) := by
  obtain ⟨Inv, hInv⟩ : ∃ Inv : Nat → OperatingModel α → Prop, Inv =
    (fun i (s : OperatingModel α) =>
      s.m_M = om.m_M ∧ s.m_F = om.m_F ∧
      (∀ ig y a, (y ≠ iyr + 1 ∨ ¬ (1 ≤ ig ∧ ig < i)) → s.m_N ig y a = om.m_N ig y a) ∧
      (∀ ig a, 1 ≤ ig → ig < i →
        s.m_N ig (iyr + 1) a =
          if a = d.nage then
            (if d.sage + 1 ≤ d.nage then
                om.m_N ig iyr (d.nage - 1) *
                  ex (-(om.m_M ig iyr (d.nage - 1) + om.m_F ig iyr (d.nage - 1)))
              else if d.nage = d.sage then
                (tmp_rec (d.n_area ig) / (d.nsex : α)) *
                  (om.m_N ig (iyr + 1) d.sage / tmp_rec (d.n_area ig))
              else om.m_N ig (iyr + 1) d.nage)
              + om.m_N ig iyr d.nage * ex (-(om.m_M ig iyr d.nage + om.m_F ig iyr d.nage))
          else if d.sage + 1 ≤ a ∧ a ≤ d.nage then
            om.m_N ig iyr (a - 1) * ex (-(om.m_M ig iyr (a - 1) + om.m_F ig iyr (a - 1)))
          else if a = d.sage then
            (tmp_rec (d.n_area ig) / (d.nsex : α)) *
              (om.m_N ig (iyr + 1) d.sage / tmp_rec (d.n_area ig))
          else om.m_N ig (iyr + 1) a)) := ⟨_, rfl⟩
  have key : Inv (d.n_ags + 1) (updateReferenceModel_ageing ex d iyr tmp_rec om) := by
    refine forLoop_invariant Inv 1 d.n_ags _ om (by omega) ?_ ?_
    · subst hInv
      exact ⟨rfl, rfl, fun _ _ _ _ => rfl, fun ig a h1 h2 => by omega⟩
    · subst hInv
      rintro i t hi1 hi2 ⟨hM, hF, hfr, hrow⟩
      have hyr : ∀ a, t.m_N i iyr a = om.m_N i iyr a :=
        fun a => hfr i iyr a (Or.inl (by omega))
      have hcur : ∀ a, t.m_N i (iyr + 1) a = om.m_N i (iyr + 1) a :=
        fun a => hfr i (iyr + 1) a (Or.inr (by omega))
      refine ⟨hM, hF, ?_, ?_⟩
      · intro ig y a hcond
        have hne : ¬ (ig = i ∧ y = iyr + 1) := by
          rintro ⟨rfl, rfl⟩
          rcases hcond with h | h
          · exact h rfl
          · exact h ⟨hi1, Nat.lt_succ_self _⟩
        have h3 : ∀ k, ¬ (ig = i ∧ y = iyr + 1 ∧ k) := fun k hk => hne ⟨hk.1, hk.2.1⟩
        simp only [assign3, h3, if_false]
        apply hfr
        rcases hcond with h | h
        · exact Or.inl h
        · exact Or.inr (fun hh => h ⟨hh.1, Nat.lt_succ_of_lt hh.2⟩)
      · intro ig a hig1 hig2
        by_cases hig : ig = i
        · subst hig
          have hne : ¬ (iyr = iyr + 1) := by omega
          simp only [assign3, true_and, hyr, hcur, hM, hF, hne, false_and, if_false]
          by_cases ha : a = d.nage
          · subst ha
            simp only [if_true, le_refl, and_true]
          · simp only [ha, if_false]
        · have h3 : ∀ k, ¬ (ig = i ∧ k) := fun k hk => hig hk.1
          simp only [assign3, h3, if_false]
          exact hrow ig a hig1 (by omega)
  subst hInv
  simp only [Nat.lt_succ_iff] at key
  exact key

/-- The recruits that `updateReferenceModel` leaves at age `sage` of year
`iyr+1`: the stratum's share of the area total `tmp_rec`, times
`tmp_rec / nsex`.  The dispersal matrix does not enter. -/
theorem updateReferenceModel_age_min (ex lg mfexp : α → α) (d : ModelData α) (iyr : Nat)
    (om : OperatingModel α) (ig : Nat) (hig1 : 1 ≤ ig) (hig2 : ig ≤ d.n_ags)
    (hage : d.sage < d.nage) :
    (updateReferenceModel ex lg mfexp d iyr om).m_N ig (iyr + 1) d.sage
      = ((updateReferenceModel_recruits ex lg d iyr
            (updateReferenceModel_sbt mfexp d iyr om, fun _ => 0)).2 (d.n_area ig)
          / (d.nsex : α))
        * ((updateReferenceModel_recruits ex lg d iyr
            (updateReferenceModel_sbt mfexp d iyr om, fun _ => 0)).1.m_N ig (iyr + 1) d.sage
          / (updateReferenceModel_recruits ex lg d iyr
            (updateReferenceModel_sbt mfexp d iyr om, fun _ => 0)).2 (d.n_area ig)) := by
  obtain ⟨-, -, -, hrow⟩ := updateReferenceModel_ageing_spec ex d iyr
    (updateReferenceModel_recruits ex lg d iyr
      (updateReferenceModel_sbt mfexp d iyr om, fun _ => 0)).2
    (updateReferenceModel_recruits ex lg d iyr
      (updateReferenceModel_sbt mfexp d iyr om, fun _ => 0)).1
  have h := hrow ig d.sage hig1 hig2
  rw [if_neg (by omega), if_neg (by omega), if_pos rfl] at h
  exact h

end Update

/-- C3. Ageing step of `updateReferenceModel(iyr)`: for every stratum `ig` of
`1..n_ags`, with `survival a = exp(-(M(ig,iyr,a) + F(ig,iyr,a)))`, every age
`a` from `sage` to `nage-2` gives `N(ig,iyr+1,a+1) = N(ig,iyr,a) * survival a`,
the plus group is
`N(ig,iyr+1,nage) = N(ig,iyr,nage-1) * survival (nage-1) + N(ig,iyr,nage) * survival nage`,
and the abundance of year `iyr` is left as it was. -/
theorem updateReferenceModel_ageing_step (mfexp : ℝ → ℝ) (d : ModelData ℝ) (iyr : Nat)
    (om : OperatingModel ℝ) (ig : Nat) (hig1 : 1 ≤ ig) (hig2 : ig ≤ d.n_ags)
    (hage : d.sage < d.nage) :
    (∀ a, d.sage ≤ a → a + 2 ≤ d.nage →
      (updateReferenceModel Real.exp Real.log mfexp d iyr om).m_N ig (iyr + 1) (a + 1)
        = om.m_N ig iyr a * Real.exp (-(om.m_M ig iyr a + om.m_F ig iyr a))) ∧
    (updateReferenceModel Real.exp Real.log mfexp d iyr om).m_N ig (iyr + 1) d.nage
      = om.m_N ig iyr (d.nage - 1)
          * Real.exp (-(om.m_M ig iyr (d.nage - 1) + om.m_F ig iyr (d.nage - 1)))
        + om.m_N ig iyr d.nage * Real.exp (-(om.m_M ig iyr d.nage + om.m_F ig iyr d.nage)) ∧
    (∀ a, (updateReferenceModel Real.exp Real.log mfexp d iyr om).m_N ig iyr a
      = om.m_N ig iyr a) := by
  obtain ⟨sbt, hsbt⟩ := updateReferenceModel_sbt_frame mfexp d iyr om
  obtain ⟨hM, hF, hN⟩ := updateReferenceModel_recruits_frame Real.exp Real.log d iyr
    (updateReferenceModel_sbt mfexp d iyr om) (fun _ => 0)
  obtain ⟨-, -, hfr, hrow⟩ := updateReferenceModel_ageing_spec Real.exp d iyr
    (updateReferenceModel_recruits Real.exp Real.log d iyr
      (updateReferenceModel_sbt mfexp d iyr om, fun _ => 0)).2
    (updateReferenceModel_recruits Real.exp Real.log d iyr
      (updateReferenceModel_sbt mfexp d iyr om, fun _ => 0)).1
  have hyr : ∀ a, (updateReferenceModel_recruits Real.exp Real.log d iyr
      (updateReferenceModel_sbt mfexp d iyr om, fun _ => 0)).1.m_N ig iyr a = om.m_N ig iyr a := by
    intro a
    rw [hN ig iyr a (Or.inl (by omega)), hsbt]
  have hM0 : (updateReferenceModel_sbt mfexp d iyr om).m_M = om.m_M := by rw [hsbt]
  have hF0 : (updateReferenceModel_sbt mfexp d iyr om).m_F = om.m_F := by rw [hsbt]
  refine ⟨?_, ?_, ?_⟩
  · intro a ha1 ha2
    have h := hrow ig (a + 1) hig1 hig2
    rw [if_neg (by omega), if_pos ⟨by omega, by omega⟩, Nat.add_sub_cancel, hyr, hM, hF, hM0,
      hF0] at h
    exact h
  · have h := hrow ig d.nage hig1 hig2
    rw [if_pos rfl, if_pos (by omega), hyr, hyr, hM, hF, hM0, hF0] at h
    exact h
  · intro a
    have h := hfr ig iyr a (Or.inl (by omega))
    rw [hyr] at h
    exact h

/-- C3 at one stratum with ages 1..3 in year 1. -/
theorem updateReferenceModel_ageing_step_witness :
    1 ≤ 1 ∧ 1 ≤ (ageingData ℝ).n_ags ∧ (ageingData ℝ).sage < (ageingData ℝ).nage ∧
    (∀ a, (ageingData ℝ).sage ≤ a → a + 2 ≤ (ageingData ℝ).nage →
      (updateReferenceModel Real.exp Real.log Real.exp (ageingData ℝ) 1 (ageingModel ℝ)).m_N
          1 (1 + 1) (a + 1)
        = (ageingModel ℝ).m_N 1 1 a
          * Real.exp (-((ageingModel ℝ).m_M 1 1 a + (ageingModel ℝ).m_F 1 1 a))) ∧
    (updateReferenceModel Real.exp Real.log Real.exp (ageingData ℝ) 1 (ageingModel ℝ)).m_N
        1 (1 + 1) (ageingData ℝ).nage
      = (ageingModel ℝ).m_N 1 1 ((ageingData ℝ).nage - 1)
          * Real.exp (-((ageingModel ℝ).m_M 1 1 ((ageingData ℝ).nage - 1)
              + (ageingModel ℝ).m_F 1 1 ((ageingData ℝ).nage - 1)))
        + (ageingModel ℝ).m_N 1 1 (ageingData ℝ).nage
          * Real.exp (-((ageingModel ℝ).m_M 1 1 (ageingData ℝ).nage
              + (ageingModel ℝ).m_F 1 1 (ageingData ℝ).nage)) ∧
    (∀ a, (updateReferenceModel Real.exp Real.log Real.exp (ageingData ℝ) 1
        (ageingModel ℝ)).m_N 1 1 a = (ageingModel ℝ).m_N 1 1 a) :=
  ⟨le_rfl, le_rfl, by decide,
    updateReferenceModel_ageing_step Real.exp (ageingData ℝ) 1 (ageingModel ℝ) 1 le_rfl le_rfl
      (by decide)⟩

/-! ## Fishing mortality -/

section Fishery

variable {α : Type} [LinearOrderedField α]

/-- `implementFisheries` adds to `m_F(ig)(iyr)` one term per area, group, fleet
and sex whose stratum index is `ig`; it leaves the other years of `m_F` and the
arrays read by the solver unchanged. -/
theorem implementFisheries_m_F (ex lg : α → α)
    (retention_probability : α → α → (Nat → α) → (Nat → α) → Nat → α)
    (getFishingMortality : (Nat → α) → (Nat → Nat → α) → (Nat → Nat → Nat → α) →
      (Nat → Nat → α) → (Nat → Nat → α) → (Nat → α) × (Nat → Nat → α))
    (d : ModelData α) (iyr : Nat) (om : OperatingModel α) (ig a : Nat) :
    (∀ ig' y a', y ≠ iyr →
      (implementFisheries ex lg retention_probability getFishingMortality d iyr om).m_F ig' y a'
        = om.m_F ig' y a') ∧
    (implementFisheries ex lg retention_probability getFishingMortality d iyr om).m_F ig iyr a
      = om.m_F ig iyr a +
        ∑ f ∈ Finset.Icc 1 d.narea, ∑ g ∈ Finset.Icc 1 d.ngroup,
          ∑ k ∈ Finset.Icc 1 d.nfleet, ∑ h ∈ Finset.Icc 1 d.nsex,
            if d.pntr_ags f g h = ig then
              (implementFisheries_solve ex lg retention_probability getFishingMortality
                  d iyr om f g).1 k
                * implementFisheries_Va ex lg retention_probability d iyr om f g h k a
            else 0 := by
  obtain ⟨P, hP⟩ : ∃ P : OperatingModel α → Prop, P = fun s =>
      ∃ F cd irow, s = { om with m_F := F, m_dCatchData := cd, m_irow := irow } ∧
        ∀ ig' y a', y ≠ iyr → F ig' y a' = om.m_F ig' y a' := ⟨_, rfl⟩
  have hP0 : P om := by
    subst hP; exact ⟨om.m_F, om.m_dCatchData, om.m_irow, rfl, fun _ _ _ _ => rfl⟩
  have hrow : ∀ f g k hh hCt lo hi t, P t →
      P (forLoop lo hi (implementFisheries_row d iyr f g k hh hCt) t) ∧
      (forLoop lo hi (implementFisheries_row d iyr f g k hh hCt) t).m_F = t.m_F := by
    intro f g k hh hCt lo hi t ht
    refine forLoop_preserves (fun u => P u ∧ u.m_F = t.m_F) _ _ _ _ ⟨ht, rfl⟩ ?_
    rintro h u _ _ ⟨hu, huF⟩
    subst hP
    obtain ⟨F, cd, irow, rfl, hF⟩ := hu
    exact ⟨⟨F, _, _, rfl, hF⟩, huF⟩
  have key : P (implementFisheries ex lg retention_probability getFishingMortality d iyr om) ∧
      (implementFisheries ex lg retention_probability getFishingMortality d iyr om).m_F ig iyr a
      = om.m_F ig iyr a +
        ∑ f ∈ Finset.Icc 1 d.narea, ∑ g ∈ Finset.Icc 1 d.ngroup,
          ∑ k ∈ Finset.Icc 1 d.nfleet, ∑ h ∈ Finset.Icc 1 d.nsex,
            if d.pntr_ags f g h = ig then
              (implementFisheries_solve ex lg retention_probability getFishingMortality
                  d iyr om f g).1 k
                * implementFisheries_Va ex lg retention_probability d iyr om f g h k a
            else 0 := by
    unfold implementFisheries
    refine forLoop_accumulate P (fun s => s.m_F ig iyr a) _ 1 d.narea _ om hP0 ?_
    intro f t _ _ ht
    dsimp only
    refine forLoop_accumulate P (fun s => s.m_F ig iyr a) _ 1 d.ngroup _ t ht ?_
    intro g t _ _ ht
    have hVa : implementFisheries_Va ex lg retention_probability d iyr t f g
        = implementFisheries_Va ex lg retention_probability d iyr om f g := by
      subst hP; obtain ⟨F, cd, irow, rfl, -⟩ := ht; rfl
    have hft : implementFisheries_solve ex lg retention_probability getFishingMortality
          d iyr t f g
        = implementFisheries_solve ex lg retention_probability getFishingMortality
          d iyr om f g := by
      subst hP; obtain ⟨F, cd, irow, rfl, -⟩ := ht; rfl
    dsimp only
    rw [hVa, hft]
    refine forLoop_accumulate P (fun s => s.m_F ig iyr a) _ 1 d.nfleet _ t ht ?_
    intro k t _ _ ht
    dsimp only
    have hin : P (forLoop 1 d.nsex (fun h s =>
            { s with
              m_F := fun ig' y a =>
                if ig' = d.pntr_ags f g h ∧ y = iyr then s.m_F (d.pntr_ags f g h) iyr a +
                  (implementFisheries_solve ex lg retention_probability getFishingMortality
                      d iyr om f g).1 k
                    * implementFisheries_Va ex lg retention_probability d iyr om f g h k a
                else s.m_F ig' y a }) t) ∧
        (forLoop 1 d.nsex (fun h s =>
            { s with
              m_F := fun ig' y a =>
                if ig' = d.pntr_ags f g h ∧ y = iyr then s.m_F (d.pntr_ags f g h) iyr a +
                  (implementFisheries_solve ex lg retention_probability getFishingMortality
                      d iyr om f g).1 k
                    * implementFisheries_Va ex lg retention_probability d iyr om f g h k a
                else s.m_F ig' y a }) t).m_F ig iyr a = t.m_F ig iyr a +
          ∑ h ∈ Finset.Icc 1 d.nsex, if d.pntr_ags f g h = ig then
              (implementFisheries_solve ex lg retention_probability getFishingMortality
                  d iyr om f g).1 k
                * implementFisheries_Va ex lg retention_probability d iyr om f g h k a
            else 0 := by
      refine forLoop_accumulate P (fun s => s.m_F ig iyr a) _ 1 d.nsex _ t ht ?_
      intro h u _ _ hu
      constructor
      · subst hP
        obtain ⟨F, cd, irow, rfl, hF⟩ := hu
        refine ⟨_, cd, irow, rfl, ?_⟩
        intro ig' y a' hy
        have : ¬ (ig' = d.pntr_ags f g h ∧ y = iyr) := fun hh => hy hh.2
        simp only [this, if_false]
        exact hF ig' y a' hy
      · by_cases hig : d.pntr_ags f g h = ig
        · simp only [hig, and_self, if_true]
        · have : ¬ (ig = d.pntr_ags f g h ∧ True) := fun hh => hig hh.1.symm
          simp only [this, hig, if_false, add_zero]
    split
    · obtain ⟨h1, h2⟩ := hrow f g k (d.m_nCSex k)
        (implementFisheries_solve ex lg retention_probability getFishingMortality
                d iyr om f g).2 1 (d.m_nCSex k + 1) _ hin.1
      exact ⟨h1, by rw [h2]; exact hin.2⟩
    · exact hin
  refine ⟨?_, key.2⟩
  have := key.1
  subst hP
  obtain ⟨F, cd, irow, hs, hF⟩ := this
  intro ig' y a' hy
  rw [hs]
  exact hF ig' y a' hy

end Fishery

/-- When distinct strata have distinct indices, the sum over the grid of the
terms that hit one stratum is the sum over the fleets. -/
theorem pntr_ags_sum_collapse {α : Type} [LinearOrderedField α] (d : ModelData α)
    (X : Nat → Nat → Nat → Nat → α)
    (hinj : ∀ f g h f' g' h', 1 ≤ f → f ≤ d.narea → 1 ≤ g → g ≤ d.ngroup → 1 ≤ h →
      h ≤ d.nsex → 1 ≤ f' → f' ≤ d.narea → 1 ≤ g' → g' ≤ d.ngroup → 1 ≤ h' → h' ≤ d.nsex →
      d.pntr_ags f g h = d.pntr_ags f' g' h' → f = f' ∧ g = g' ∧ h = h')
    (f0 g0 h0 : Nat) (hf1 : 1 ≤ f0) (hf2 : f0 ≤ d.narea) (hg1 : 1 ≤ g0) (hg2 : g0 ≤ d.ngroup)
    (hh1 : 1 ≤ h0) (hh2 : h0 ≤ d.nsex) :
    (∑ f ∈ Finset.Icc 1 d.narea, ∑ g ∈ Finset.Icc 1 d.ngroup,
      ∑ k ∈ Finset.Icc 1 d.nfleet, ∑ h ∈ Finset.Icc 1 d.nsex,
        if d.pntr_ags f g h = d.pntr_ags f0 g0 h0 then X f g k h else 0)
      = ∑ k ∈ Finset.Icc 1 d.nfleet, X f0 g0 k h0 := by
  have hz : ∀ f g h, f ∈ Finset.Icc 1 d.narea → g ∈ Finset.Icc 1 d.ngroup →
      h ∈ Finset.Icc 1 d.nsex → (f ≠ f0 ∨ g ≠ g0 ∨ h ≠ h0) →
      ¬ d.pntr_ags f g h = d.pntr_ags f0 g0 h0 := by
    intro f g h hf hg hh hne heq
    rw [Finset.mem_Icc] at hf hg hh
    obtain ⟨e1, e2, e3⟩ := hinj f g h f0 g0 h0 hf.1 hf.2 hg.1 hg.2 hh.1 hh.2 hf1 hf2 hg1 hg2
      hh1 hh2 heq
    rcases hne with h | h | h
    · exact h e1
    · exact h e2
    · exact h e3
  rw [Finset.sum_eq_single f0, Finset.sum_eq_single g0]
  · refine Finset.sum_congr rfl (fun k _ => ?_)
    rw [Finset.sum_eq_single h0]
    · rw [if_pos rfl]
    · intro h hh hne
      rw [if_neg (hz f0 g0 h (Finset.mem_Icc.2 ⟨hf1, hf2⟩) (Finset.mem_Icc.2 ⟨hg1, hg2⟩) hh
        (Or.inr (Or.inr hne)))]
    · intro hmem
      exact absurd (Finset.mem_Icc.2 ⟨hh1, hh2⟩) hmem
  · intro g hg hne
    refine Finset.sum_eq_zero (fun k _ => Finset.sum_eq_zero (fun h hh => ?_))
    rw [if_neg (hz f0 g h (Finset.mem_Icc.2 ⟨hf1, hf2⟩) hg hh (Or.inr (Or.inl hne)))]
  · intro hmem
    exact absurd (Finset.mem_Icc.2 ⟨hg1, hg2⟩) hmem
  · intro f hf hne
    refine Finset.sum_eq_zero (fun g hg => Finset.sum_eq_zero (fun k _ =>
      Finset.sum_eq_zero (fun h hh => ?_)))
    rw [if_neg (hz f g h hf hg hh (Or.inl hne))]
  · intro hmem
    exact absurd (Finset.mem_Icc.2 ⟨hf1, hf2⟩) hmem

/-- C5. If `m_F(ig)(iyr)` is zero for every stratum of the area-group-sex grid
before `implementFisheries(iyr)`, and `pntr_ags` gives distinct strata distinct
indices, then afterwards `F(ags(f,g,h),iyr,a) = Σ_k ft(k) * V(h,k,a)` for every
area `f`, group `g`, sex `h` and age `a`, where `ft` is the vector the solver
returned for `(f,g)` and `V` is the joint vulnerability assembled for that
stratum; the other years of `F` are unchanged. -/
theorem implementFisheries_accumulates
    (retention_probability : ℝ → ℝ → (Nat → ℝ) → (Nat → ℝ) → Nat → ℝ)
    (getFishingMortality : (Nat → ℝ) → (Nat → Nat → ℝ) → (Nat → Nat → Nat → ℝ) →
      (Nat → Nat → ℝ) → (Nat → Nat → ℝ) → (Nat → ℝ) × (Nat → Nat → ℝ))
    (d : ModelData ℝ) (iyr : Nat) (om : OperatingModel ℝ)
    (hzero : ∀ f g h a, 1 ≤ f → f ≤ d.narea → 1 ≤ g → g ≤ d.ngroup → 1 ≤ h → h ≤ d.nsex →
      om.m_F (d.pntr_ags f g h) iyr a = 0)
    (hinj : ∀ f g h f' g' h', 1 ≤ f → f ≤ d.narea → 1 ≤ g → g ≤ d.ngroup → 1 ≤ h →
      h ≤ d.nsex → 1 ≤ f' → f' ≤ d.narea → 1 ≤ g' → g' ≤ d.ngroup → 1 ≤ h' → h' ≤ d.nsex →
      d.pntr_ags f g h = d.pntr_ags f' g' h' → f = f' ∧ g = g' ∧ h = h') :
    (∀ f g h a, 1 ≤ f → f ≤ d.narea → 1 ≤ g → g ≤ d.ngroup → 1 ≤ h → h ≤ d.nsex →
      (implementFisheries Real.exp Real.log retention_probability getFishingMortality
          d iyr om).m_F (d.pntr_ags f g h) iyr a
        = ∑ k ∈ Finset.Icc 1 d.nfleet,
            (implementFisheries_solve Real.exp Real.log retention_probability
                getFishingMortality d iyr om f g).1 k
              * implementFisheries_Va Real.exp Real.log retention_probability d iyr om f g h k a) ∧
    (∀ ig y a, y ≠ iyr →
      (implementFisheries Real.exp Real.log retention_probability getFishingMortality
          d iyr om).m_F ig y a = om.m_F ig y a) := by
  constructor
  · intro f g h a hf1 hf2 hg1 hg2 hh1 hh2
    rw [(implementFisheries_m_F Real.exp Real.log retention_probability getFishingMortality
      d iyr om (d.pntr_ags f g h) a).2, hzero f g h a hf1 hf2 hg1 hg2 hh1 hh2, zero_add]
    exact pntr_ags_sum_collapse d
      (fun f g k h => (implementFisheries_solve Real.exp Real.log retention_probability
                getFishingMortality d iyr om f g).1 k
              * implementFisheries_Va Real.exp Real.log retention_probability d iyr om f g h k a)
      hinj f g h hf1 hf2 hg1 hg2 hh1 hh2
  · intro ig y a hy
    exact (implementFisheries_m_F Real.exp Real.log retention_probability getFishingMortality
      d iyr om ig a).1 ig y a hy

/-- The stratum index of the concrete fishery is injective on its grid. -/
theorem fisheryData_pntr_ags_injective (f g h f' g' h' : Nat)
    (hf1 : 1 ≤ f) (hf2 : f ≤ (fisheryData ℝ).narea)
    (hg1 : 1 ≤ g) (hg2 : g ≤ (fisheryData ℝ).ngroup)
    (hh1 : 1 ≤ h) (hh2 : h ≤ (fisheryData ℝ).nsex)
    (hf1' : 1 ≤ f') (hf2' : f' ≤ (fisheryData ℝ).narea)
    (hg1' : 1 ≤ g') (hg2' : g' ≤ (fisheryData ℝ).ngroup)
    (hh1' : 1 ≤ h') (hh2' : h' ≤ (fisheryData ℝ).nsex)
    (he : (fisheryData ℝ).pntr_ags f g h = (fisheryData ℝ).pntr_ags f' g' h') :
    f = f' ∧ g = g' ∧ h = h' := by
  simp only [fisheryData, ModelData.blank] at *
  omega

/-- C5 at two areas, one group, two sexes and two fleets in year 2. -/
theorem implementFisheries_accumulates_witness :
    (∀ f g h a, 1 ≤ f → f ≤ (fisheryData ℝ).narea → 1 ≤ g → g ≤ (fisheryData ℝ).ngroup →
      1 ≤ h → h ≤ (fisheryData ℝ).nsex →
      (fisheryModel ℝ).m_F ((fisheryData ℝ).pntr_ags f g h) 2 a = 0) ∧
    (∀ f g h f' g' h', 1 ≤ f → f ≤ (fisheryData ℝ).narea → 1 ≤ g →
      g ≤ (fisheryData ℝ).ngroup → 1 ≤ h → h ≤ (fisheryData ℝ).nsex → 1 ≤ f' →
      f' ≤ (fisheryData ℝ).narea → 1 ≤ g' → g' ≤ (fisheryData ℝ).ngroup → 1 ≤ h' →
      h' ≤ (fisheryData ℝ).nsex →
      (fisheryData ℝ).pntr_ags f g h = (fisheryData ℝ).pntr_ags f' g' h' →
      f = f' ∧ g = g' ∧ h = h') ∧
    (∀ f g h a, 1 ≤ f → f ≤ (fisheryData ℝ).narea → 1 ≤ g → g ≤ (fisheryData ℝ).ngroup →
      1 ≤ h → h ≤ (fisheryData ℝ).nsex →
      (implementFisheries Real.exp Real.log (retainAll ℝ) (rateSolver ℝ)
          (fisheryData ℝ) 2 (fisheryModel ℝ)).m_F ((fisheryData ℝ).pntr_ags f g h) 2 a
        = ∑ k ∈ Finset.Icc 1 (fisheryData ℝ).nfleet,
            (implementFisheries_solve Real.exp Real.log (retainAll ℝ) (rateSolver ℝ)
                (fisheryData ℝ) 2 (fisheryModel ℝ) f g).1 k
              * implementFisheries_Va Real.exp Real.log (retainAll ℝ) (fisheryData ℝ) 2
                  (fisheryModel ℝ) f g h k a) ∧
    (∀ ig y a, y ≠ 2 →
      (implementFisheries Real.exp Real.log (retainAll ℝ) (rateSolver ℝ)
          (fisheryData ℝ) 2 (fisheryModel ℝ)).m_F ig y a = (fisheryModel ℝ).m_F ig y a) :=
  ⟨fun _ _ _ _ _ _ _ _ _ _ => rfl, fisheryData_pntr_ags_injective,
    implementFisheries_accumulates (retainAll ℝ) (rateSolver ℝ) (fisheryData ℝ) 2
      (fisheryModel ℝ) (fun _ _ _ _ _ _ _ _ _ _ => rfl) fisheryData_pntr_ags_injective⟩

/-- C6. One stratum, Beverton-Holt recruitment with `so = 3`, `kappa = 5`,
`sbo = 8` (so `beta = 1/2`) and a lagged spawning biomass `SB = 2`:
`updateReferenceModel(2)` assigns `so*SB/1 + beta*SB = 7` recruits to year 3,
whereas `so*SB/(1 + beta*SB) = 3`. -/
theorem updateReferenceModel_beverton_holt_value :
    (updateReferenceModel Real.exp Real.log Real.exp (bhData ℝ) 2 (bhModel ℝ)).m_N 1 3 1 = 7 ∧
    (bhData ℝ).mv_so 1 * (bhModel ℝ).m_sbt 1 1
        / (1 + ((bhModel ℝ).m_dKappa 1 - 1) / (bhData ℝ).mv_sbo 1 * (bhModel ℝ).m_sbt 1 1)
      = 3 := by
  constructor
  · simp [updateReferenceModel, updateReferenceModel_ageing, updateReferenceModel_recruits,
      updateReferenceModel_sbt, forLoop, bhData, bhModel, oneStratumData, ModelData.blank,
      OperatingModel.blank, assign1, assign2, assign3, vsum]
    norm_num
  · simp [bhData, bhModel, oneStratumData, ModelData.blank, OperatingModel.blank]
    norm_num

/-- C7. One area, one group, two sexes, Ricker recruitment with stock-recruit
value `R = so*SB*exp(-beta*SB)`, `so = 3`, `SB = 2`, `beta = log 5 / 8`:
`updateReferenceModel(2)` leaves `R/4` recruits to each sex, not `R/2`, and `R`
is positive. -/
theorem updateReferenceModel_ricker_two_sexes :
    (updateReferenceModel Real.exp Real.log Real.exp (rickerData ℝ) 2 (rickerModel ℝ)).m_N 1 3 1
      = 3 * 2 * Real.exp (-(Real.log 5 / 8) * 2) / 4 ∧
    (updateReferenceModel Real.exp Real.log Real.exp (rickerData ℝ) 2 (rickerModel ℝ)).m_N 2 3 1
      = 3 * 2 * Real.exp (-(Real.log 5 / 8) * 2) / 4 ∧
    0 < 3 * 2 * Real.exp (-(Real.log 5 / 8) * 2) := by
  refine ⟨?_, ?_, by positivity⟩ <;>
  · simp [updateReferenceModel, updateReferenceModel_ageing, updateReferenceModel_recruits,
      updateReferenceModel_sbt, forLoop, rickerData, rickerModel, ModelData.blank,
      OperatingModel.blank, assign1, assign2, assign3, vsum, List.range']
    field_simp
    ring

/-- C8. Two areas with 10 and 30 recruits before dispersal and a dispersal
matrix that sends every recruit to the other area: after
`updateReferenceModel(2)` area 1 holds 10 recruits and area 2 holds 30, whereas
`tmp_rec * m_dispersal` is 30 for area 1 and 10 for area 2. -/
theorem updateReferenceModel_dispersal_unused :
    (updateReferenceModel_recruits Real.exp Real.log (swapData ℝ) 2
        (updateReferenceModel_sbt Real.exp (swapData ℝ) 2 (swapModel ℝ), fun _ => 0)).2 1 = 10 ∧
    (updateReferenceModel_recruits Real.exp Real.log (swapData ℝ) 2
        (updateReferenceModel_sbt Real.exp (swapData ℝ) 2 (swapModel ℝ), fun _ => 0)).2 2 = 30 ∧
    (updateReferenceModel Real.exp Real.log Real.exp (swapData ℝ) 2 (swapModel ℝ)).m_N 1 3 1 = 10 ∧
    (updateReferenceModel Real.exp Real.log Real.exp (swapData ℝ) 2 (swapModel ℝ)).m_N 2 3 1 = 30 ∧
    updateReferenceModel_tmp_rec_dis (swapData ℝ)
      (updateReferenceModel_recruits Real.exp Real.log (swapData ℝ) 2
        (updateReferenceModel_sbt Real.exp (swapData ℝ) 2 (swapModel ℝ), fun _ => 0)).2 1 = 30 ∧
    updateReferenceModel_tmp_rec_dis (swapData ℝ)
      (updateReferenceModel_recruits Real.exp Real.log (swapData ℝ) 2
        (updateReferenceModel_sbt Real.exp (swapData ℝ) 2 (swapModel ℝ), fun _ => 0)).2 2 = 10 := by
  have e : Finset.Icc 1 2 = {1, 2} := by decide
  refine ⟨?_, ?_, ?_, ?_, ?_, ?_⟩ <;>
  simp [updateReferenceModel, updateReferenceModel_ageing, updateReferenceModel_recruits,
    updateReferenceModel_sbt, updateReferenceModel_tmp_rec_dis, forLoop, swapData, swapModel,
    ModelData.blank, OperatingModel.blank, assign1, assign2, assign3, vsum, List.range', e]

/-- C9. One area, one group, two sexes, dispersal matrix `[1]` and 40 recruits
of each sex before the dispersal step (`tmp_rec(1) = 80`): after
`updateReferenceModel(2)` each sex holds 20 recruits, 40 in all. -/
theorem updateReferenceModel_recruits_not_conserved :
    (updateReferenceModel_recruits Real.exp Real.log (twoSexData ℝ) 2
        (updateReferenceModel_sbt Real.exp (twoSexData ℝ) 2 (twoSexModel ℝ), fun _ => 0)).2 1
      = 80 ∧
    vsum 1 (twoSexData ℝ).narea (fun j => (twoSexData ℝ).m_dispersal 1 j) = 1 ∧
    (updateReferenceModel Real.exp Real.log Real.exp (twoSexData ℝ) 2 (twoSexModel ℝ)).m_N 1 3 1
      = 20 ∧
    (updateReferenceModel Real.exp Real.log Real.exp (twoSexData ℝ) 2 (twoSexModel ℝ)).m_N 2 3 1
      = 20 := by
  refine ⟨?_, ?_, ?_, ?_⟩ <;>
  simp [updateReferenceModel, updateReferenceModel_ageing, updateReferenceModel_recruits,
    updateReferenceModel_sbt, forLoop, twoSexData, twoSexModel, ModelData.blank,
    OperatingModel.blank, assign1, assign2, assign3, vsum, List.range'] <;>
  norm_num

/-! ## Age compositions -/

section Composition

variable {α : Type} [LinearOrderedField α]

/-- The proportions `pa(h)` sum to one over the ages when the catch of sex `h` is not zero. -/
theorem calcCompositionData_pa_sum (ex : α → α) (d : ModelData α) (iyr : Nat)
    (om : OperatingModel α) (gear f g h : Nat)
    (hpos : vsum d.sage d.nage (calcCompositionData_ca ex d iyr om gear f g h) ≠ 0) :
    vsum d.sage d.nage (calcCompositionData_pa ex d iyr om gear f g h) = 1 := by
  unfold calcCompositionData_pa
  unfold vsum at hpos ⊢
  rw [← Finset.sum_div, div_self hpos]

/-- The column sums `colsum(pa)` sum to the number of sexes over the ages. -/
theorem calcCompositionData_colsum_pa_sum (ex : α → α) (d : ModelData α) (iyr : Nat)
    (om : OperatingModel α) (gear f g : Nat)
    (hpos : ∀ h, 1 ≤ h → h ≤ d.nsex →
      vsum d.sage d.nage (calcCompositionData_ca ex d iyr om gear f g h) ≠ 0) :
    vsum d.sage d.nage
      (fun a => vsum 1 d.nsex (fun h => calcCompositionData_pa ex d iyr om gear f g h a))
      = (d.nsex : α) := by
  unfold vsum
  rw [Finset.sum_comm]
  have h1 : ∀ h ∈ Finset.Icc 1 d.nsex,
      ∑ a ∈ Finset.Icc d.sage d.nage, calcCompositionData_pa ex d iyr om gear f g h a = 1 := by
    intro h hh
    rw [Finset.mem_Icc] at hh
    exact calcCompositionData_pa_sum ex d iyr om gear f g h (hpos h hh.1 hh.2)
  rw [Finset.sum_congr rfl h1]
  simp

end Composition

theorem compModel_ca_pos (h : Nat) :
    0 < vsum (compData ℝ).sage (compData ℝ).nage
        (calcCompositionData_ca Real.exp (compData ℝ) 2 (compModel ℝ) 1 1 1 h) := by
  have hlt : Real.exp (-1 + -0.2) < 1 := by
    have := Real.exp_lt_exp.2 (show (-1 + -0.2 : ℝ) < 0 by norm_num)
    rwa [Real.exp_zero] at this
  simp [calcCompositionData_ca, compData, compModel, ModelData.blank, OperatingModel.blank, vsum]
  have : (0:ℝ) < 1 - Real.exp (-1 + -0.2) := by linarith
  positivity

/-- C10. One unsexed age-sampling series over the ages 1..2, one area, one
group, two sexes, each sex with positive catch: `calcCompositionData(2)`
appends one row (row 2, tagged with year 2 and sex 0) whose age composition
`colsum(pa)` sums to 2 over the ages. -/
theorem calcCompositionData_aggregate_row_sum :
    (compData ℝ).m_nASex 1 = 0 ∧
    (0 < vsum (compData ℝ).sage (compData ℝ).nage
        (calcCompositionData_ca Real.exp (compData ℝ) 2 (compModel ℝ) 1 1 1 1) ∧
     0 < vsum (compData ℝ).sage (compData ℝ).nage
        (calcCompositionData_ca Real.exp (compData ℝ) 2 (compModel ℝ) 1 1 1 2)) ∧
    (calcCompositionData Real.exp (compData ℝ) 2 (compModel ℝ)).calcCompositionData_irow = 1 ∧
    (calcCompositionData Real.exp (compData ℝ) 2 (compModel ℝ)).m_d3_A 1 2 (-4) = 2 ∧
    (calcCompositionData Real.exp (compData ℝ) 2 (compModel ℝ)).m_d3_A 1 2 0 = 0 ∧
    vsum (compData ℝ).sage (compData ℝ).nage
      (fun a => (calcCompositionData Real.exp (compData ℝ) 2 (compModel ℝ)).m_d3_A 1 2 (a : Int))
      = 2 := by
  refine ⟨rfl, ⟨compModel_ca_pos 1, compModel_ca_pos 2⟩, ?_, ?_, ?_, ?_⟩
  · simp [calcCompositionData, forLoop, calcCompositionData_row, compData, compModel,
      ModelData.blank, OperatingModel.blank]
  · simp [calcCompositionData, forLoop, calcCompositionData_row, compData, compModel,
      ModelData.blank, OperatingModel.blank, vsum]
  · simp [calcCompositionData, forLoop, calcCompositionData_row, compData, compModel,
      ModelData.blank, OperatingModel.blank, vsum]
  · have key := calcCompositionData_colsum_pa_sum Real.exp (compData ℝ) 2 (compModel ℝ) 1 1 1
      (fun h _ _ => ne_of_gt (compModel_ca_pos h))
    have e : (fun a : Nat =>
          (calcCompositionData Real.exp (compData ℝ) 2 (compModel ℝ)).m_d3_A 1 2 (a : Int))
        = fun a => if 1 ≤ a ∧ a ≤ 2 then
            vsum 1 (compData ℝ).nsex
              (fun h => calcCompositionData_pa Real.exp (compData ℝ) 2 (compModel ℝ) 1 1 1 h a)
          else 0 := by
      funext a
      simp [calcCompositionData, forLoop, calcCompositionData_row, compData, compModel,
        ModelData.blank, OperatingModel.blank]
    rw [e]
    unfold vsum at key ⊢
    have hc : ∀ a ∈ Finset.Icc (compData ℝ).sage (compData ℝ).nage,
        (if 1 ≤ a ∧ a ≤ 2 then
            ∑ h ∈ Finset.Icc 1 (compData ℝ).nsex,
              calcCompositionData_pa Real.exp (compData ℝ) 2 (compModel ℝ) 1 1 1 h a
          else 0)
        = ∑ h ∈ Finset.Icc 1 (compData ℝ).nsex,
              calcCompositionData_pa Real.exp (compData ℝ) 2 (compModel ℝ) 1 1 1 h a := by
      intro a ha
      rw [Finset.mem_Icc] at ha
      exact if_pos ha
    rw [Finset.sum_congr rfl hc, key]
    norm_num [compData, ModelData.blank]

/-! ## Catch table -/

section CatchTable

variable {α : Type} [LinearOrderedField α]

/-- A row written by `allocateTAC` lies just above the static counter. -/
theorem allocateTAC_row_frame (d : ModelData α) (iyr k f g h : Nat) (s : OperatingModel α) :
    (allocateTAC_row d iyr k f g h s).allocateTAC_irow = s.allocateTAC_irow + 1 ∧
    (allocateTAC_row d iyr k f g h s).m_irow = s.m_irow ∧
    ∀ r c, r ≠ s.allocateTAC_irow + 1 →
      (allocateTAC_row d iyr k f g h s).m_dCatchData r c = s.m_dCatchData r c := by
  refine ⟨rfl, rfl, ?_⟩
  intro r c hr
  have hne : ∀ j, ¬ (r = s.allocateTAC_irow + 1 ∧ c = j) := fun j hj => hr hj.1
  simp only [allocateTAC_row, assign2, hne, if_false]

/-- `allocateTAC` writes only rows above its static counter, up to the
counter's new value, and leaves `m_irow` alone. -/
theorem allocateTAC_frame (d : ModelData α) (iyr : Nat) (om : OperatingModel α) :
    om.allocateTAC_irow ≤ (allocateTAC d iyr om).allocateTAC_irow ∧
    (allocateTAC d iyr om).m_irow = om.m_irow ∧
    ∀ r c, (r ≤ om.allocateTAC_irow ∨ (allocateTAC d iyr om).allocateTAC_irow < r) →
      (allocateTAC d iyr om).m_dCatchData r c = om.m_dCatchData r c := by
  obtain ⟨P, hP⟩ : ∃ P : OperatingModel α → Prop, P = fun s =>
      om.allocateTAC_irow ≤ s.allocateTAC_irow ∧ s.m_irow = om.m_irow ∧
      ∀ r c, (r ≤ om.allocateTAC_irow ∨ s.allocateTAC_irow < r) →
        s.m_dCatchData r c = om.m_dCatchData r c := ⟨_, rfl⟩
  have hrow : ∀ k f g h s, P s → P (allocateTAC_row d iyr k f g h s) := by
    intro k f g h s hs
    subst hP
    obtain ⟨h1, h2, h3⟩ := hs
    obtain ⟨e1, e2, e3⟩ := allocateTAC_row_frame d iyr k f g h s
    refine ⟨by omega, by rw [e2, h2], ?_⟩
    intro r c hr
    rw [e3 r c (by omega)]
    exact h3 r c (by omega)
  have key : P (allocateTAC d iyr om) := by
    unfold allocateTAC
    refine forLoop_preserves P _ _ _ _ (by subst hP; exact ⟨le_rfl, rfl, fun _ _ _ => rfl⟩) ?_
    intro k s _ _ hs
    refine forLoop_preserves (fun st : OperatingModel α × Nat => P st.1) _ _ _ _ hs ?_
    intro f st _ _ hst
    split
    · refine forLoop_preserves (fun st : OperatingModel α × Nat => P st.1) _ _ _ _ hst ?_
      intro g st _ _ hst
      dsimp only
      by_cases h0 : st.2 = 0
      · have hz : ¬ (allocateTAC_row d iyr k f g st.2 st.1, st.2).2 ≠ 0 := by simpa using h0
        rw [if_pos h0, if_neg hz]
        exact hrow _ _ _ _ _ hst
      · rw [if_neg h0, if_pos h0]
        exact forLoop_preserves P _ _ _ _ hst (fun h s _ _ hs => hrow _ _ _ _ _ hs)
    · exact hst
  subst hP
  exact key

/-- A row written by `implementFisheries` lies just above `m_irow`. -/
theorem implementFisheries_row_frame (d : ModelData α) (iyr f g k hh : Nat)
    (hCt : Nat → Nat → α) (h : Nat) (s : OperatingModel α) :
    (implementFisheries_row d iyr f g k hh hCt h s).m_irow = s.m_irow + 1 ∧
    (∃ cd, implementFisheries_row d iyr f g k hh hCt h s
      = { s with m_irow := s.m_irow + 1, m_dCatchData := cd }) ∧
    ∀ r c, r ≠ s.m_irow + 1 →
      (implementFisheries_row d iyr f g k hh hCt h s).m_dCatchData r c = s.m_dCatchData r c := by
  refine ⟨rfl, ⟨_, rfl⟩, ?_⟩
  intro r c hr
  have hne : ∀ j, ¬ (r = s.m_irow + 1 ∧ c = j) := fun j hj => hr hj.1
  simp only [implementFisheries_row, assign2, hne, if_false]

/-- `implementFisheries` changes `m_F`, `m_irow` and `m_dCatchData` only, and in
the catch table only rows above `m_irow`, up to the counter's new value. -/
theorem implementFisheries_frame (ex lg : α → α)
    (retention_probability : α → α → (Nat → α) → (Nat → α) → Nat → α)
    (getFishingMortality : (Nat → α) → (Nat → Nat → α) → (Nat → Nat → Nat → α) →
      (Nat → Nat → α) → (Nat → Nat → α) → (Nat → α) × (Nat → Nat → α))
    (d : ModelData α) (iyr : Nat) (om : OperatingModel α) :
    (∃ F cd irow,
      implementFisheries ex lg retention_probability getFishingMortality d iyr om
        = { om with m_F := F, m_dCatchData := cd, m_irow := irow }) ∧
    om.m_irow ≤
      (implementFisheries ex lg retention_probability getFishingMortality d iyr om).m_irow ∧
    ∀ r c, (r ≤ om.m_irow ∨
        (implementFisheries ex lg retention_probability getFishingMortality d iyr om).m_irow
          < r) →
      (implementFisheries ex lg retention_probability getFishingMortality d iyr om).m_dCatchData
        r c = om.m_dCatchData r c := by
  obtain ⟨P, hP⟩ : ∃ P : OperatingModel α → Prop, P = fun s =>
      (∃ F cd irow, s = { om with m_F := F, m_dCatchData := cd, m_irow := irow }) ∧
      om.m_irow ≤ s.m_irow ∧
      ∀ r c, (r ≤ om.m_irow ∨ s.m_irow < r) → s.m_dCatchData r c = om.m_dCatchData r c :=
    ⟨_, rfl⟩
  have hrow : ∀ f g k hh hCt h s, P s → P (implementFisheries_row d iyr f g k hh hCt h s) := by
    intro f g k hh hCt h s hs
    subst hP
    obtain ⟨⟨F, cd, irow, hs0⟩, h2, h3⟩ := hs
    obtain ⟨e1, ⟨cd', e2⟩, e3⟩ := implementFisheries_row_frame d iyr f g k hh hCt h s
    refine ⟨?_, by omega, ?_⟩
    · rw [e2, hs0]
      exact ⟨F, cd', _, rfl⟩
    · intro r c hr
      rw [e3 r c (by omega)]
      exact h3 r c (by omega)
  have key : P (implementFisheries ex lg retention_probability getFishingMortality d iyr om) := by
    unfold implementFisheries
    refine forLoop_preserves P _ _ _ _
      (by subst hP; exact ⟨⟨_, _, _, rfl⟩, le_rfl, fun _ _ _ => rfl⟩) ?_
    intro f s _ _ hs
    refine forLoop_preserves P _ _ _ _ hs ?_
    intro g sg _ _ hs
    dsimp only
    refine forLoop_preserves P _ _ _ _ hs ?_
    intro k s _ _ hs
    dsimp only
    have hF : P (forLoop 1 d.nsex (fun h s =>
        { s with
          m_F := fun ig' y a =>
            if ig' = d.pntr_ags f g h ∧ y = iyr then
              s.m_F (d.pntr_ags f g h) iyr a
                + (implementFisheries_solve ex lg retention_probability getFishingMortality
                    d iyr sg f g).1 k
                  * implementFisheries_Va ex lg retention_probability d iyr sg f g h k a
            else s.m_F ig' y a }) s) := by
      refine forLoop_preserves P _ _ _ _ hs ?_
      intro h u _ _ hu
      subst hP
      obtain ⟨⟨F, cd, irow, rfl⟩, h2, h3⟩ := hu
      exact ⟨⟨_, cd, irow, rfl⟩, h2, h3⟩
    split
    · exact forLoop_preserves P _ _ _ _ hF (fun h s _ _ hs => hrow _ _ _ _ _ _ _ hs)
    · exact hF
  subst hP
  exact key

end CatchTable

/-- C11 (as stated, refuted). One fleet, one open area, one group, unsexed
catch, target catch 10, no historical rows: `allocateTAC(2)` writes row 1 with
catch 10, and the call `implementFisheries(2)` that follows rewrites row 1 with
the realised catch 7. -/
theorem allocateTAC_row_overwritten :
    (catchModel ℝ).allocateTAC_irow = 0 ∧
    (allocateTAC (catchData ℝ) 2 (catchModel ℝ)).allocateTAC_irow = 1 ∧
    (allocateTAC (catchData ℝ) 2 (catchModel ℝ)).m_dCatchData 1 7 = 10 ∧
    (implementFisheries Real.exp Real.log (retainAll ℝ) (fixedSolver ℝ) (catchData ℝ) 2
      (allocateTAC (catchData ℝ) 2 (catchModel ℝ))).m_dCatchData 1 7 = 7 ∧
    (implementFisheries Real.exp Real.log (retainAll ℝ) (fixedSolver ℝ) (catchData ℝ) 2
      (allocateTAC (catchData ℝ) 2 (catchModel ℝ))).m_dCatchData 1 7
      ≠ (allocateTAC (catchData ℝ) 2 (catchModel ℝ)).m_dCatchData 1 7 := by
  have h1 : (allocateTAC (catchData ℝ) 2 (catchModel ℝ)).m_dCatchData 1 7 = 10 := by
    simp [allocateTAC, allocateTAC_row, forLoop, catchData, catchModel, oneStratumData,
      ModelData.blank, OperatingModel.blank, assign2]
  have h2 : (implementFisheries Real.exp Real.log (retainAll ℝ) (fixedSolver ℝ) (catchData ℝ) 2
      (allocateTAC (catchData ℝ) 2 (catchModel ℝ))).m_dCatchData 1 7 = 7 := by
    have hpos : (0 : ℝ) < 0.1 := by norm_num
    simp [implementFisheries, implementFisheries_row, implementFisheries_solve, fixedSolver,
      allocateTAC, allocateTAC_row, forLoop, catchData, catchModel, oneStratumData,
      ModelData.blank, OperatingModel.blank, assign2, vsum, hpos]
  refine ⟨rfl, ?_, h1, h2, ?_⟩
  · simp [allocateTAC, allocateTAC_row, forLoop, catchData, catchModel, oneStratumData,
      ModelData.blank, OperatingModel.blank]
  · rw [h1, h2]
    norm_num

/-- C11 (amended). `allocateTAC` and `implementFisheries` each write the catch
table through a row counter of their own (`allocateTAC`'s static `irow` and
`m_irow`): a call changes only rows above its counter, up to the counter's new
value, never lowers its counter and leaves the other operation's counter
alone.  So neither operation changes a row at or below its own counter, which
covers the historical rows and the rows the same operation wrote before. -/
theorem catch_rows_above_own_counter
    (retention_probability : ℝ → ℝ → (Nat → ℝ) → (Nat → ℝ) → Nat → ℝ)
    (getFishingMortality : (Nat → ℝ) → (Nat → Nat → ℝ) → (Nat → Nat → Nat → ℝ) →
      (Nat → Nat → ℝ) → (Nat → Nat → ℝ) → (Nat → ℝ) × (Nat → Nat → ℝ))
    (d : ModelData ℝ) (iyr : Nat) (om : OperatingModel ℝ) :
    (om.allocateTAC_irow ≤ (allocateTAC d iyr om).allocateTAC_irow ∧
      (allocateTAC d iyr om).m_irow = om.m_irow ∧
      ∀ r c, (r ≤ om.allocateTAC_irow ∨ (allocateTAC d iyr om).allocateTAC_irow < r) →
        (allocateTAC d iyr om).m_dCatchData r c = om.m_dCatchData r c) ∧
    (om.m_irow ≤
        (implementFisheries Real.exp Real.log retention_probability getFishingMortality
          d iyr om).m_irow ∧
      (implementFisheries Real.exp Real.log retention_probability getFishingMortality
          d iyr om).allocateTAC_irow = om.allocateTAC_irow ∧
      ∀ r c, (r ≤ om.m_irow ∨
          (implementFisheries Real.exp Real.log retention_probability getFishingMortality
            d iyr om).m_irow < r) →
        (implementFisheries Real.exp Real.log retention_probability getFishingMortality
          d iyr om).m_dCatchData r c = om.m_dCatchData r c) := by
  refine ⟨allocateTAC_frame d iyr om, ?_⟩
  obtain ⟨⟨F, cd, irow, hs⟩, h2, h3⟩ := implementFisheries_frame Real.exp Real.log
    retention_probability getFishingMortality d iyr om
  refine ⟨h2, ?_, h3⟩
  rw [hs]

/-! ## Harvest control rule: allocation and sign -/

/-- C12 (as stated, refuted). One group, two fleets with the allocation
fractions 0.25 and 0.75 (which sum to 1), `F_MSY = 0.2` for both fleets and
biomass 1000: no group-level TAC `G` gives `TAC(1,k) = G * fraction(k)` for both
fleets, because `calculateTAC` gives both fleets the same positive TAC. -/
theorem calculateTAC_not_allocated :
    vsum 1 (allocData ℝ).nfleet (allocData ℝ).dAllocation = 1 ∧
    ¬ ∃ G : ℝ, ∀ k, 1 ≤ k → k ≤ (allocData ℝ).nfleet →
      (calculateTAC Real.exp (allocData ℝ) (tacModel ℝ)).m_dTAC 1 k
        = G * (allocData ℝ).dAllocation k := by
  have e : Finset.Icc 1 2 = {1, 2} := by decide
  constructor
  · simp [vsum, allocData, ModelData.blank, e]
    norm_num
  · rintro ⟨G, hG⟩
    have h1 := hG 1 le_rfl (by decide)
    have h2 := hG 2 (by decide) le_rfl
    rw [calculateTAC_eq Real.exp (allocData ℝ) (tacModel ℝ) rfl] at h1 h2
    simp [allocData, tacModel, ModelData.blank, OperatingModel.blank] at h1 h2
    have hb := exp_neg_fifth_bounds
    norm_num at h1 h2
    nlinarith [hb.1, hb.2]

/-- C12 (amended). Under rule 1, for every group `g` of `1..ngroup` and fleet
`k`, `TAC(g,k) = (1 - exp(-F_MSY(g,k))) * biomass(g)`: the split across fleets
comes from the per-fleet `F_MSY` estimates only.  The allocation table is not
read (replacing it leaves the result unchanged), and the fleet TACs of a group
sum to `(Σ_k (1 - exp(-F_MSY(g,k)))) * biomass(g)`. -/
theorem calculateTAC_per_fleet_rate (d : ModelData ℝ) (om : OperatingModel ℝ)
    (hHCR : d.m_nHCR = 1) (g : Nat) (hg1 : 1 ≤ g) (hg2 : g ≤ d.ngroup) :
    (∀ k, (calculateTAC Real.exp d om).m_dTAC g k
      = (1 - Real.exp (-(om.m_est_fmsy g k))) * om.m_est_btt g) ∧
    (∀ A : Nat → ℝ,
      calculateTAC Real.exp { d with dAllocation := A } om = calculateTAC Real.exp d om) ∧
    vsum 1 d.nfleet (fun k => (calculateTAC Real.exp d om).m_dTAC g k)
      = vsum 1 d.nfleet (fun k => 1 - Real.exp (-(om.m_est_fmsy g k))) * om.m_est_btt g := by
  have hval : ∀ k, (calculateTAC Real.exp d om).m_dTAC g k
      = (1 - Real.exp (-(om.m_est_fmsy g k))) * om.m_est_btt g := by
    intro k
    rw [calculateTAC_eq Real.exp d om hHCR]
    simp only [if_pos (And.intro hg1 hg2)]
  refine ⟨hval, fun A => rfl, ?_⟩
  unfold vsum
  rw [Finset.sum_mul]
  exact Finset.sum_congr rfl (fun k _ => hval k)

/-- C12 (amended) at one group and two fleets. -/
theorem calculateTAC_per_fleet_rate_witness :
    (allocData ℝ).m_nHCR = 1 ∧ 1 ≤ 1 ∧ 1 ≤ (allocData ℝ).ngroup ∧
    (∀ k, (calculateTAC Real.exp (allocData ℝ) (tacModel ℝ)).m_dTAC 1 k
      = (1 - Real.exp (-((tacModel ℝ).m_est_fmsy 1 k))) * (tacModel ℝ).m_est_btt 1) ∧
    (∀ A : Nat → ℝ,
      calculateTAC Real.exp { allocData ℝ with dAllocation := A } (tacModel ℝ)
        = calculateTAC Real.exp (allocData ℝ) (tacModel ℝ)) ∧
    vsum 1 (allocData ℝ).nfleet
        (fun k => (calculateTAC Real.exp (allocData ℝ) (tacModel ℝ)).m_dTAC 1 k)
      = vsum 1 (allocData ℝ).nfleet (fun k => 1 - Real.exp (-((tacModel ℝ).m_est_fmsy 1 k)))
        * (tacModel ℝ).m_est_btt 1 :=
  ⟨rfl, le_rfl, le_rfl,
    calculateTAC_per_fleet_rate (allocData ℝ) (tacModel ℝ) rfl 1 le_rfl le_rfl⟩

/-- C13 (as stated, refuted). With `F_MSY = 0.2 ≥ 0` and a biomass estimate of
`-1000`, `calculateTAC` produces a negative TAC. -/
theorem calculateTAC_negative_biomass :
    0 ≤ (negativeBiomassModel ℝ).m_est_fmsy 1 1 ∧
    (calculateTAC Real.exp (tacData ℝ) (negativeBiomassModel ℝ)).m_dTAC 1 1 < 0 := by
  constructor
  · norm_num [negativeBiomassModel, OperatingModel.blank]
  · have hval : (calculateTAC Real.exp (tacData ℝ) (negativeBiomassModel ℝ)).m_dTAC 1 1
        = (1 - Real.exp (-0.2)) * (-1000) := by
      rw [calculateTAC_eq Real.exp (tacData ℝ) (negativeBiomassModel ℝ) rfl]
      simp only [tacData, negativeBiomassModel, ModelData.blank, OperatingModel.blank,
        le_refl, and_self, if_true]
    rw [hval]
    have hb := exp_neg_fifth_bounds
    nlinarith [hb.1, hb.2]

/-- C13 (amended). Under rule 1, for every non-negative `F_MSY` estimate and
every non-negative biomass estimate the TAC is non-negative; `calculateTAC` has
no clamp, and the TAC is `(1 - exp(-F_MSY)) * biomass` whatever the sign of the
biomass estimate. -/
theorem calculateTAC_nonneg (d : ModelData ℝ) (om : OperatingModel ℝ)
    (hHCR : d.m_nHCR = 1) (g k : Nat) (hg1 : 1 ≤ g) (hg2 : g ≤ d.ngroup)
    (hF : 0 ≤ om.m_est_fmsy g k) (hB : 0 ≤ om.m_est_btt g) :
    0 ≤ (calculateTAC Real.exp d om).m_dTAC g k := by
  rw [calculateTAC_eq Real.exp d om hHCR]
  simp only [if_pos (And.intro hg1 hg2)]
  have h1 : Real.exp (-(om.m_est_fmsy g k)) ≤ 1 := by
    have := Real.exp_le_exp.2 (show -(om.m_est_fmsy g k) ≤ 0 by linarith)
    rwa [Real.exp_zero] at this
  exact mul_nonneg (by linarith) hB

/-- C13 (amended) at `F_MSY = 0.2` and biomass 1000. -/
theorem calculateTAC_nonneg_witness :
    (tacData ℝ).m_nHCR = 1 ∧ 1 ≤ 1 ∧ 1 ≤ (tacData ℝ).ngroup ∧
    0 ≤ (tacModel ℝ).m_est_fmsy 1 1 ∧ 0 ≤ (tacModel ℝ).m_est_btt 1 ∧
    0 ≤ (calculateTAC Real.exp (tacData ℝ) (tacModel ℝ)).m_dTAC 1 1 :=
  ⟨rfl, le_rfl, le_rfl, by norm_num [tacModel, OperatingModel.blank],
    by norm_num [tacModel, OperatingModel.blank],
    calculateTAC_nonneg (tacData ℝ) (tacModel ℝ) rfl 1 1 le_rfl le_rfl
      (by norm_num [tacModel, OperatingModel.blank])
      (by norm_num [tacModel, OperatingModel.blank])⟩

/-! ## Fishery: targets and vulnerability -/

/-- C16. Two areas, one group, a TAC of 10 for fleet 1: the target catch that
`implementFisheries` hands to the solver is 10 in area 1 and 10 in area 2 (the
solver used here returns its targets), 20 in all for a TAC of 10. -/
theorem implementFisheries_full_TAC_per_area :
    (fisheryData ℝ).narea = 2 ∧ (fisheryModel ℝ).m_dTAC 1 1 = 10 ∧
    (implementFisheries_solve Real.exp Real.log (retainAll ℝ) (echoSolver ℝ)
      (fisheryData ℝ) 2 (fisheryModel ℝ) 1 1).1 1 = 10 ∧
    (implementFisheries_solve Real.exp Real.log (retainAll ℝ) (echoSolver ℝ)
      (fisheryData ℝ) 2 (fisheryModel ℝ) 2 1).1 1 = 10 := by
  refine ⟨rfl, ?_, ?_, ?_⟩ <;>
  simp [implementFisheries_solve, echoSolver, fisheryModel, OperatingModel.blank]

/-- C19. The joint vulnerability that `implementFisheries` assembles for area
`f`, group `g`, sex `h`, fleet `k` and age `a`, and hands to the solver, is
`V = Pc * (Pr + (1 - Pr) * dm)` with `Pc = exp(d4_logSel(kk)(ig)(iyr)(a))`,
`kk = m_nGearIndex(k)`, `Pr` the retention probability at age `a` and `dm` the
fleet's discard mortality rate.  When `0 ≤ Pr ≤ 1` and `0 ≤ dm ≤ 1` this gives
`0 ≤ V ≤ Pc`, `V = Pc` for `dm = 1` and `V = Pc * Pr` for `dm = 0`. -/
theorem implementFisheries_joint_vulnerability
    (retention_probability : ℝ → ℝ → (Nat → ℝ) → (Nat → ℝ) → Nat → ℝ)
    (getFishingMortality : (Nat → ℝ) → (Nat → Nat → ℝ) → (Nat → Nat → Nat → ℝ) →
      (Nat → Nat → ℝ) → (Nat → Nat → ℝ) → (Nat → ℝ) × (Nat → Nat → ℝ))
    (d : ModelData ℝ) (iyr : Nat) (om : OperatingModel ℝ) (f g h k a : Nat)
    (hPr0 : 0 ≤ retention_probability (d.m_dLslim k) (d.m_dUslim k)
      (fun a => Real.exp (Real.log (om.m_d3_wt_avg (d.pntr_ags f g h) iyr a
        / d.d_a (d.pntr_ags f g h)) / d.d_b (d.pntr_ags f g h)))
      (fun a => 0.1 * Real.exp (Real.log (om.m_d3_wt_avg (d.pntr_ags f g h) iyr a
        / d.d_a (d.pntr_ags f g h)) / d.d_b (d.pntr_ags f g h))) a)
    (hPr1 : retention_probability (d.m_dLslim k) (d.m_dUslim k)
      (fun a => Real.exp (Real.log (om.m_d3_wt_avg (d.pntr_ags f g h) iyr a
        / d.d_a (d.pntr_ags f g h)) / d.d_b (d.pntr_ags f g h)))
      (fun a => 0.1 * Real.exp (Real.log (om.m_d3_wt_avg (d.pntr_ags f g h) iyr a
        / d.d_a (d.pntr_ags f g h)) / d.d_b (d.pntr_ags f g h))) a ≤ 1)
    (hdm0 : 0 ≤ d.m_dDiscMortRate k) (hdm1 : d.m_dDiscMortRate k ≤ 1) :
    implementFisheries_solve Real.exp Real.log retention_probability getFishingMortality
        d iyr om f g
      = getFishingMortality (om.m_dTAC g) (implementFisheries_ma d iyr om f g)
          (implementFisheries_Va Real.exp Real.log retention_probability d iyr om f g)
          (implementFisheries_na d iyr om f g) (implementFisheries_wa d iyr om f g) ∧
    implementFisheries_Va Real.exp Real.log retention_probability d iyr om f g h k a
      = Real.exp (om.d4_logSel (d.m_nGearIndex k) (d.pntr_ags f g h) iyr a)
        * (retention_probability (d.m_dLslim k) (d.m_dUslim k)
            (fun a => Real.exp (Real.log (om.m_d3_wt_avg (d.pntr_ags f g h) iyr a
              / d.d_a (d.pntr_ags f g h)) / d.d_b (d.pntr_ags f g h)))
            (fun a => 0.1 * Real.exp (Real.log (om.m_d3_wt_avg (d.pntr_ags f g h) iyr a
              / d.d_a (d.pntr_ags f g h)) / d.d_b (d.pntr_ags f g h))) a
          + (1 - retention_probability (d.m_dLslim k) (d.m_dUslim k)
            (fun a => Real.exp (Real.log (om.m_d3_wt_avg (d.pntr_ags f g h) iyr a
              / d.d_a (d.pntr_ags f g h)) / d.d_b (d.pntr_ags f g h)))
            (fun a => 0.1 * Real.exp (Real.log (om.m_d3_wt_avg (d.pntr_ags f g h) iyr a
              / d.d_a (d.pntr_ags f g h)) / d.d_b (d.pntr_ags f g h))) a)
            * d.m_dDiscMortRate k) ∧
    0 ≤ implementFisheries_Va Real.exp Real.log retention_probability d iyr om f g h k a ∧
    implementFisheries_Va Real.exp Real.log retention_probability d iyr om f g h k a
      ≤ Real.exp (om.d4_logSel (d.m_nGearIndex k) (d.pntr_ags f g h) iyr a) ∧
    (d.m_dDiscMortRate k = 1 →
      implementFisheries_Va Real.exp Real.log retention_probability d iyr om f g h k a
        = Real.exp (om.d4_logSel (d.m_nGearIndex k) (d.pntr_ags f g h) iyr a)) ∧
    (d.m_dDiscMortRate k = 0 →
      implementFisheries_Va Real.exp Real.log retention_probability d iyr om f g h k a
        = Real.exp (om.d4_logSel (d.m_nGearIndex k) (d.pntr_ags f g h) iyr a)
          * retention_probability (d.m_dLslim k) (d.m_dUslim k)
            (fun a => Real.exp (Real.log (om.m_d3_wt_avg (d.pntr_ags f g h) iyr a
              / d.d_a (d.pntr_ags f g h)) / d.d_b (d.pntr_ags f g h)))
            (fun a => 0.1 * Real.exp (Real.log (om.m_d3_wt_avg (d.pntr_ags f g h) iyr a
              / d.d_a (d.pntr_ags f g h)) / d.d_b (d.pntr_ags f g h))) a) := by
  have hPc := Real.exp_pos (om.d4_logSel (d.m_nGearIndex k) (d.pntr_ags f g h) iyr a)
  refine ⟨rfl, rfl, ?_, ?_, ?_, ?_⟩
  · simp only [implementFisheries_Va]
    exact mul_nonneg hPc.le (by nlinarith)
  · simp only [implementFisheries_Va]
    have : retention_probability (d.m_dLslim k) (d.m_dUslim k)
        (fun a => Real.exp (Real.log (om.m_d3_wt_avg (d.pntr_ags f g h) iyr a
          / d.d_a (d.pntr_ags f g h)) / d.d_b (d.pntr_ags f g h)))
        (fun a => 0.1 * Real.exp (Real.log (om.m_d3_wt_avg (d.pntr_ags f g h) iyr a
          / d.d_a (d.pntr_ags f g h)) / d.d_b (d.pntr_ags f g h))) a
      + (1 - retention_probability (d.m_dLslim k) (d.m_dUslim k)
        (fun a => Real.exp (Real.log (om.m_d3_wt_avg (d.pntr_ags f g h) iyr a
          / d.d_a (d.pntr_ags f g h)) / d.d_b (d.pntr_ags f g h)))
        (fun a => 0.1 * Real.exp (Real.log (om.m_d3_wt_avg (d.pntr_ags f g h) iyr a
          / d.d_a (d.pntr_ags f g h)) / d.d_b (d.pntr_ags f g h))) a)
        * d.m_dDiscMortRate k ≤ 1 := by nlinarith
    calc _ ≤ Real.exp (om.d4_logSel (d.m_nGearIndex k) (d.pntr_ags f g h) iyr a) * 1 :=
          mul_le_mul_of_nonneg_left this hPc.le
      _ = _ := mul_one _
  · intro h1
    simp only [implementFisheries_Va, h1]
    ring
  · intro h0
    simp only [implementFisheries_Va, h0]
    ring

/-- C19 at area 1, group 1, sex 1, fleet 1 and age 1 of the concrete fishery,
where every fish is retained and the discard mortality rate is 0.5. -/
theorem implementFisheries_joint_vulnerability_witness :
    (0:ℝ) ≤ (fisheryData ℝ).m_dDiscMortRate 1 ∧ (fisheryData ℝ).m_dDiscMortRate 1 ≤ 1 ∧
    0 ≤ implementFisheries_Va Real.exp Real.log (retainAll ℝ) (fisheryData ℝ) 2
        (fisheryModel ℝ) 1 1 1 1 1 ∧
    implementFisheries_Va Real.exp Real.log (retainAll ℝ) (fisheryData ℝ) 2
        (fisheryModel ℝ) 1 1 1 1 1
      ≤ Real.exp ((fisheryModel ℝ).d4_logSel ((fisheryData ℝ).m_nGearIndex 1)
          ((fisheryData ℝ).pntr_ags 1 1 1) 2 1) :=
  have hw := implementFisheries_joint_vulnerability (retainAll ℝ) (rateSolver ℝ)
    (fisheryData ℝ) 2 (fisheryModel ℝ) 1 1 1 1 1 (by simp [retainAll]) (by simp [retainAll])
    (by norm_num [fisheryData, ModelData.blank]) (by norm_num [fisheryData, ModelData.blank])
  ⟨by norm_num [fisheryData, ModelData.blank], by norm_num [fisheryData, ModelData.blank],
    hw.2.2.1, hw.2.2.2.1⟩

/-! ## Recruitment lag -/

/-- C18. One stratum with `sage = 1`, Ricker recruitment (`so = 3`,
`beta = log 5 / 8`) and spawning biomass 2 in year 1 and 4 in year 2:
`updateReferenceModel(2)` assigns to year 3 the recruits computed from the
spawning biomass of year `iyr - sage = 1`, `3 * 2 * exp(-beta * 2)`, which differ
from the recruits computed from year `iyr + 1 - sage = 2`,
`3 * 4 * exp(-beta * 4)`. -/
theorem updateReferenceModel_recruitment_lag :
    (updateReferenceModel_sbt Real.exp (lagData ℝ) 2 (lagModel ℝ)).m_sbt 1 1 = 2 ∧
    (updateReferenceModel_sbt Real.exp (lagData ℝ) 2 (lagModel ℝ)).m_sbt 2 1 = 4 ∧
    (updateReferenceModel Real.exp Real.log Real.exp (lagData ℝ) 2 (lagModel ℝ)).m_N 1 3 1
      = 3 * 2 * Real.exp (-(Real.log 5 / 8) * 2) ∧
    3 * 2 * Real.exp (-(Real.log 5 / 8) * 2) ≠ 3 * 4 * Real.exp (-(Real.log 5 / 8) * 4) := by
  refine ⟨?_, ?_, ?_, ?_⟩
  · simp [updateReferenceModel_sbt, forLoop, lagData, lagModel, oneStratumData,
      ModelData.blank, OperatingModel.blank, assign2, vsum]
  · simp [updateReferenceModel_sbt, forLoop, lagData, lagModel, oneStratumData,
      ModelData.blank, OperatingModel.blank, assign2, vsum]
  · simp [updateReferenceModel, updateReferenceModel_ageing, updateReferenceModel_recruits,
      updateReferenceModel_sbt, forLoop, lagData, lagModel, oneStratumData, ModelData.blank,
      OperatingModel.blank, assign1, assign2, assign3, vsum]
  · intro heq
    have hx : 0 < Real.exp (-(Real.log 5 / 8) * 2) := Real.exp_pos _
    have h2 : Real.exp (-(Real.log 5 / 8) * 4)
        = Real.exp (-(Real.log 5 / 8) * 2) * Real.exp (-(Real.log 5 / 8) * 2) := by
      rw [← Real.exp_add]; ring_nf
    have h4 : Real.exp (-(Real.log 5 / 8) * 2) * Real.exp (-(Real.log 5 / 8) * 2)
        * (Real.exp (-(Real.log 5 / 8) * 2) * Real.exp (-(Real.log 5 / 8) * 2)) = 1 / 5 := by
      rw [← Real.exp_add, ← Real.exp_add]
      have : -(Real.log 5 / 8) * 2 + -(Real.log 5 / 8) * 2
          + (-(Real.log 5 / 8) * 2 + -(Real.log 5 / 8) * 2) = -Real.log 5 := by ring
      rw [this, Real.exp_neg, Real.exp_log (by norm_num)]
      norm_num
    rw [h2] at heq
    have hhalf : Real.exp (-(Real.log 5 / 8) * 2) = 1 / 2 := by
      have : Real.exp (-(Real.log 5 / 8) * 2) * (6 - 12 * Real.exp (-(Real.log 5 / 8) * 2))
          = 0 := by linarith
      rcases mul_eq_zero.1 this with h | h
      · linarith
      · linarith
    rw [hhalf] at h4
    norm_num at h4

/-! ## Spawning biomass: frame and closed form -/

section SpawningBiomass
variable {α : Type} [LinearOrderedField α]

/-- The second loop of `updateReferenceModel` leaves `m_sbt`, `m_Z` and the
weight tables as they are. -/
theorem updateReferenceModel_recruits_sbt (ex lg : α → α) (d : ModelData α) (iyr : Nat)
    (om : OperatingModel α) (tmp : Nat → α) :
    (updateReferenceModel_recruits ex lg d iyr (om, tmp)).1.m_sbt = om.m_sbt := by
  unfold updateReferenceModel_recruits
  refine forLoop_preserves (fun st : OperatingModel α × (Nat → α) =>
    st.1.m_sbt = om.m_sbt) _ _ _ _ rfl ?_
  rintro ig ⟨t, tmp'⟩ _ _ hs
  dsimp only
  split <;> exact hs

/-- The third loop of `updateReferenceModel` leaves `m_sbt` as it is. -/
theorem updateReferenceModel_ageing_sbt (ex : α → α) (d : ModelData α) (iyr : Nat)
    (tmp_rec : Nat → α) (om : OperatingModel α) :
    (updateReferenceModel_ageing ex d iyr tmp_rec om).m_sbt = om.m_sbt := by
  unfold updateReferenceModel_ageing
  refine forLoop_preserves (fun s : OperatingModel α => s.m_sbt = om.m_sbt) _ _ _ _ rfl ?_
  intro ig t _ _ hs
  exact hs

/-- Closed form of the first loop nest of `updateReferenceModel`: every group
of `1..ngroup` gains the sum over areas and sexes of the dot product, every
other entry of `m_sbt` is kept. -/
theorem updateReferenceModel_sbt_spec (mfexp : α → α) (d : ModelData α) (iyr : Nat)
    (om : OperatingModel α) :
    (∀ g, 1 ≤ g → g ≤ d.ngroup →
      (updateReferenceModel_sbt mfexp d iyr om).m_sbt iyr g
        = om.m_sbt iyr g + ∑ f ∈ Finset.Icc 1 d.narea, ∑ h ∈ Finset.Icc 1 d.nsex,
            ∑ a ∈ Finset.Icc d.sage d.nage,
              om.m_N (d.pntr_ags f g h) iyr a * om.m_d3_wt_mat (d.pntr_ags f g h) iyr a
                * mfexp (-(om.m_Z (d.pntr_ags f g h) iyr a) * d.d_iscamCntrl 13)) ∧
    (∀ y g, (y ≠ iyr ∨ ¬ (1 ≤ g ∧ g ≤ d.ngroup)) →
      (updateReferenceModel_sbt mfexp d iyr om).m_sbt y g = om.m_sbt y g) := by
  obtain ⟨P, hP⟩ : ∃ P : OperatingModel α → Prop, P = fun s =>
      s.m_N = om.m_N ∧ s.m_Z = om.m_Z ∧ s.m_d3_wt_mat = om.m_d3_wt_mat ∧
      ∀ y g, (y ≠ iyr ∨ ¬ (1 ≤ g ∧ g ≤ d.ngroup)) → s.m_sbt y g = om.m_sbt y g := ⟨_, rfl⟩
  have hP0 : P om := by subst hP; exact ⟨rfl, rfl, rfl, fun _ _ _ => rfl⟩
  have inner : ∀ (g0 : Nat), 1 ≤ g0 → g0 ≤ d.ngroup → ∀ (f h : Nat) (t : OperatingModel α),
      P t →
      P (forLoop 1 d.ngroup (fun g s =>
        { s with
          m_sbt := assign2 s.m_sbt iyr g
            (s.m_sbt iyr g + vsum d.sage d.nage (fun a =>
              s.m_N (d.pntr_ags f g h) iyr a * s.m_d3_wt_mat (d.pntr_ags f g h) iyr a
                * mfexp (-(s.m_Z (d.pntr_ags f g h) iyr a) * d.d_iscamCntrl 13))) }) t) ∧
      (forLoop 1 d.ngroup (fun g s =>
        { s with
          m_sbt := assign2 s.m_sbt iyr g
            (s.m_sbt iyr g + vsum d.sage d.nage (fun a =>
              s.m_N (d.pntr_ags f g h) iyr a * s.m_d3_wt_mat (d.pntr_ags f g h) iyr a
                * mfexp (-(s.m_Z (d.pntr_ags f g h) iyr a) * d.d_iscamCntrl 13))) }) t).m_sbt
          iyr g0
        = t.m_sbt iyr g0 + ∑ a ∈ Finset.Icc d.sage d.nage,
            om.m_N (d.pntr_ags f g0 h) iyr a * om.m_d3_wt_mat (d.pntr_ags f g0 h) iyr a
              * mfexp (-(om.m_Z (d.pntr_ags f g0 h) iyr a) * d.d_iscamCntrl 13) := by
    intro g0 hg1 hg2 f h t ht
    have acc := forLoop_accumulate P (fun s : OperatingModel α => s.m_sbt iyr g0)
      (fun g => if g = g0 then ∑ a ∈ Finset.Icc d.sage d.nage,
            om.m_N (d.pntr_ags f g0 h) iyr a * om.m_d3_wt_mat (d.pntr_ags f g0 h) iyr a
              * mfexp (-(om.m_Z (d.pntr_ags f g0 h) iyr a) * d.d_iscamCntrl 13) else 0)
      1 d.ngroup (fun g s =>
        { s with
          m_sbt := assign2 s.m_sbt iyr g
            (s.m_sbt iyr g + vsum d.sage d.nage (fun a =>
              s.m_N (d.pntr_ags f g h) iyr a * s.m_d3_wt_mat (d.pntr_ags f g h) iyr a
                * mfexp (-(s.m_Z (d.pntr_ags f g h) iyr a) * d.d_iscamCntrl 13))) }) t ht
      (by
        subst hP
        rintro g s hg1' hg2' ⟨hN, hZ, hW, hfr⟩
        refine ⟨⟨hN, hZ, hW, ?_⟩, ?_⟩
        · intro y g' hc
          have hne : ¬ (y = iyr ∧ g' = g) := by
            rintro ⟨rfl, rfl⟩
            rcases hc with hc | hc
            · exact hc rfl
            · exact hc ⟨hg1', hg2'⟩
          simp only [assign2, hne, if_false]
          exact hfr y g' hc
        · by_cases hgg : g = g0
          · subst hgg
            simp only [assign2, true_and, if_true, hN, hZ, hW, vsum]
          · have hgg' : ¬ (g0 = g) := fun h => hgg h.symm
            simp only [assign2, true_and, hgg, hgg', if_false, add_zero])
    refine ⟨acc.1, ?_⟩
    have h2 := acc.2
    simp only [Finset.sum_ite_eq', Finset.mem_Icc, hg1, hg2, and_self, if_true] at h2
    exact h2
  have middle : ∀ (g0 : Nat), 1 ≤ g0 → g0 ≤ d.ngroup → ∀ (f : Nat) (t : OperatingModel α),
      P t →
      P (forLoop 1 d.nsex (fun h s => forLoop 1 d.ngroup (fun g s =>
        { s with
          m_sbt := assign2 s.m_sbt iyr g
            (s.m_sbt iyr g + vsum d.sage d.nage (fun a =>
              s.m_N (d.pntr_ags f g h) iyr a * s.m_d3_wt_mat (d.pntr_ags f g h) iyr a
                * mfexp (-(s.m_Z (d.pntr_ags f g h) iyr a) * d.d_iscamCntrl 13))) }) s) t) ∧
      (forLoop 1 d.nsex (fun h s => forLoop 1 d.ngroup (fun g s =>
        { s with
          m_sbt := assign2 s.m_sbt iyr g
            (s.m_sbt iyr g + vsum d.sage d.nage (fun a =>
              s.m_N (d.pntr_ags f g h) iyr a * s.m_d3_wt_mat (d.pntr_ags f g h) iyr a
                * mfexp (-(s.m_Z (d.pntr_ags f g h) iyr a) * d.d_iscamCntrl 13))) }) s) t).m_sbt
          iyr g0
        = t.m_sbt iyr g0 + ∑ h ∈ Finset.Icc 1 d.nsex, ∑ a ∈ Finset.Icc d.sage d.nage,
            om.m_N (d.pntr_ags f g0 h) iyr a * om.m_d3_wt_mat (d.pntr_ags f g0 h) iyr a
              * mfexp (-(om.m_Z (d.pntr_ags f g0 h) iyr a) * d.d_iscamCntrl 13) := by
    intro g0 hg1 hg2 f t ht
    exact forLoop_accumulate P (fun s : OperatingModel α => s.m_sbt iyr g0)
      (fun h => ∑ a ∈ Finset.Icc d.sage d.nage,
            om.m_N (d.pntr_ags f g0 h) iyr a * om.m_d3_wt_mat (d.pntr_ags f g0 h) iyr a
              * mfexp (-(om.m_Z (d.pntr_ags f g0 h) iyr a) * d.d_iscamCntrl 13))
      1 d.nsex _ t ht (fun h s _ _ hs => inner g0 hg1 hg2 f h s hs)
  refine ⟨?_, ?_⟩
  · intro g0 hg1 hg2
    exact (forLoop_accumulate P (fun s : OperatingModel α => s.m_sbt iyr g0)
      (fun f => ∑ h ∈ Finset.Icc 1 d.nsex, ∑ a ∈ Finset.Icc d.sage d.nage,
            om.m_N (d.pntr_ags f g0 h) iyr a * om.m_d3_wt_mat (d.pntr_ags f g0 h) iyr a
              * mfexp (-(om.m_Z (d.pntr_ags f g0 h) iyr a) * d.d_iscamCntrl 13))
      1 d.narea _ om hP0 (fun f s _ _ hs => middle g0 hg1 hg2 f s hs)).2
  · have hall : P (updateReferenceModel_sbt mfexp d iyr om) := by
      unfold updateReferenceModel_sbt
      refine forLoop_preserves P _ _ _ _ hP0 ?_
      intro f t _ _ ht
      refine forLoop_preserves P _ _ _ _ ht ?_
      intro h t _ _ ht
      refine forLoop_preserves P _ _ _ _ ht ?_
      subst hP
      rintro g s hg1' hg2' ⟨hN, hZ, hW, hfr⟩
      refine ⟨hN, hZ, hW, ?_⟩
      intro y g' hc
      have hne : ¬ (y = iyr ∧ g' = g) := by
        rintro ⟨rfl, rfl⟩
        rcases hc with hc | hc
        · exact hc rfl
        · exact hc ⟨hg1', hg2'⟩
      simp only [assign2, hne, if_false]
      exact hfr y g' hc
    subst hP
    exact hall.2.2.2

end SpawningBiomass

/-- C20. For a group `g` of `1..ngroup` and a year `iyr` in which `SB(g,iyr)` is
zero beforehand, after `updateReferenceModel(iyr)`
`SB(g,iyr) = Σ_f Σ_h Σ_a N(ig,iyr,a) * Mat(ig,iyr,a) * exp(-Z(ig,iyr,a) * c13)`
with `ig = pntr_ags(f,g,h)`, `Mat = m_d3_wt_mat`, `c13 = d_iscamCntrl(13)` the
spawn timing fraction, and `N`, `Mat`, `Z` read before the call; `mfexp` is taken
to agree with `exp` at the arguments used.  Every entry of `m_sbt` of another
year, or of a group outside `1..ngroup`, is unchanged. -/
theorem updateReferenceModel_spawning_biomass (mfexp : ℝ → ℝ) (d : ModelData ℝ) (iyr : Nat)
    (om : OperatingModel ℝ) (g : Nat) (hg1 : 1 ≤ g) (hg2 : g ≤ d.ngroup)
    (hzero : om.m_sbt iyr g = 0)
    (hmfexp : ∀ f h a, mfexp (-(om.m_Z (d.pntr_ags f g h) iyr a) * d.d_iscamCntrl 13)
      = Real.exp (-(om.m_Z (d.pntr_ags f g h) iyr a) * d.d_iscamCntrl 13)) :
    (updateReferenceModel Real.exp Real.log mfexp d iyr om).m_sbt iyr g
      = ∑ f ∈ Finset.Icc 1 d.narea, ∑ h ∈ Finset.Icc 1 d.nsex,
          ∑ a ∈ Finset.Icc d.sage d.nage,
            om.m_N (d.pntr_ags f g h) iyr a * om.m_d3_wt_mat (d.pntr_ags f g h) iyr a
              * Real.exp (-(om.m_Z (d.pntr_ags f g h) iyr a) * d.d_iscamCntrl 13) ∧
    ∀ y g', (y ≠ iyr ∨ ¬ (1 ≤ g' ∧ g' ≤ d.ngroup)) →
      (updateReferenceModel Real.exp Real.log mfexp d iyr om).m_sbt y g' = om.m_sbt y g' := by
  have hsbt : (updateReferenceModel Real.exp Real.log mfexp d iyr om).m_sbt
      = (updateReferenceModel_sbt mfexp d iyr om).m_sbt := by
    unfold updateReferenceModel
    dsimp only
    rw [updateReferenceModel_ageing_sbt, updateReferenceModel_recruits_sbt]
  obtain ⟨hsum, hfr⟩ := updateReferenceModel_sbt_spec mfexp d iyr om
  rw [hsbt]
  refine ⟨?_, hfr⟩
  rw [hsum g hg1 hg2, hzero, zero_add]
  simp only [hmfexp]

/-- C20 on two sexes of one area with abundance 100, mature weight 2, `Z = 0.4`
and spawn timing 0.5 at the ages 1..2: the spawning biomass of year 2 becomes
`4 * (100 * 2 * exp(-0.4 * 0.5))`. -/
theorem updateReferenceModel_spawning_biomass_witness :
    1 ≤ (spawnData ℝ).ngroup ∧ (spawnModel ℝ).m_sbt 2 1 = 0 ∧
    (updateReferenceModel Real.exp Real.log Real.exp (spawnData ℝ) 2 (spawnModel ℝ)).m_sbt 2 1
      = 4 * (100 * 2 * Real.exp (-0.4 * 0.5)) :=
  ⟨le_refl 1, rfl,
    (updateReferenceModel_spawning_biomass Real.exp (spawnData ℝ) 2 (spawnModel ℝ) 1
      (le_refl 1) (le_refl 1) rfl (fun _ _ _ => rfl)).1.trans (by
        have h12 : Finset.Icc 1 2 = ({1, 2} : Finset Nat) := by decide
        simp only [spawnData, twoSexData, spawnModel, ModelData.blank, OperatingModel.blank,
          h12, Finset.Icc_self, Finset.sum_singleton, if_true]
        simp
        ring)⟩


/-! ## Set-up of a scenario -/

theorem forLoopLt_invariant {σ : Type} (Inv : Nat → σ → Prop) (lo hi : Nat)
    (body : Nat → σ → σ) (s : σ) (hle : lo ≤ hi) (h0 : Inv lo s)
    (hstep : ∀ i t, lo ≤ i → i < hi → Inv i t → Inv (i + 1) (body i t)) :
    Inv hi (forLoopLt lo hi body s) := by
  cases hi with
  | zero =>
    have hlo : lo = 0 := by omega
    subst hlo
    exact h0
  | succ k =>
    exact forLoop_invariant Inv lo k body s hle h0
      (fun i t h1 h2 hi => hstep i t h1 (by omega) hi)

section Condition
variable {α : Type} [LinearOrderedField α]

/-- Closed form of the survivorship `lx` of `conditionReferenceModel`. -/
theorem conditionReferenceModel_lx_eq (ex : α → α) (d : ModelData α) (om : OperatingModel α)
    (ig a : Nat) (ha1 : d.sage ≤ a) (ha2 : a ≤ d.nage) :
    conditionReferenceModel_lx ex d om ig a
      = (∏ j ∈ Finset.Ico d.sage a, ex (-(om.m_M ig d.syr j)))
        / (if a = d.nage then 1 - ex (-(om.m_M ig d.syr d.nage)) else 1) := by
  have key : ∀ b, d.sage ≤ b → b ≤ d.nage →
      forLoopLt d.sage d.nage (fun j lx =>
        assign1 lx (j + 1) (lx j * ex (-(om.m_M ig d.syr j))))
        (assign1 (fun _ => (0 : α)) d.sage 1) b
        = ∏ j ∈ Finset.Ico d.sage b, ex (-(om.m_M ig d.syr j)) := by
    refine forLoopLt_invariant (fun i (lx : Nat → α) => ∀ b, d.sage ≤ b → b ≤ i →
      lx b = ∏ j ∈ Finset.Ico d.sage b, ex (-(om.m_M ig d.syr j))) d.sage d.nage _ _
      (by omega) ?_ ?_
    · intro b h1 h2
      have hb : b = d.sage := by omega
      subst hb
      simp [assign1]
    · intro i lx hi1 hi2 hlx b hb1 hb2
      by_cases hb : b = i + 1
      · subst hb
        simp only [assign1, if_true]
        rw [hlx i hi1 le_rfl, Finset.prod_Ico_succ_top hi1]
      · simp only [assign1, hb, if_false]
        exact hlx b hb1 (by omega)
  unfold conditionReferenceModel_lx
  by_cases hn : a = d.nage
  · subst hn
    simp only [assign1, if_true]
    rw [key _ ha1 le_rfl]
  · simp only [assign1, hn, if_false, div_one]
    exact key a ha1 ha2

/-- Numbers at age of year `syr` after `conditionReferenceModel`: for every
stratum of `1..n_ags` and every age of `sage..nage` they are
`1/nsex * mfexp(tr)` with `tr` computed from the state before the call. -/
theorem conditionReferenceModel_syr (ex lg mfexp : α → α) (d : ModelData α)
    (om : OperatingModel α) (hyr : d.syr ≤ d.nyr) (ig : Nat) (hig1 : 1 ≤ ig)
    (hig2 : ig ≤ d.n_ags) (a : Nat) (ha1 : d.sage ≤ a) (ha2 : a ≤ d.nage) :
    (conditionReferenceModel ex lg mfexp d om).m_N ig d.syr a
      = 1 / (d.nsex : α) * mfexp (conditionReferenceModel_tr ex lg d om ig a) := by
  obtain ⟨Inv, hInv⟩ : ∃ Inv : Nat → OperatingModel α → Prop, Inv = fun i s =>
      s.m_M = om.m_M ∧ s.m_dRo = om.m_dRo ∧
      ∀ ig, 1 ≤ ig → ig < i → ∀ a, d.sage ≤ a → a ≤ d.nage →
        s.m_N ig d.syr a
          = 1 / (d.nsex : α) * mfexp (conditionReferenceModel_tr ex lg d om ig a) := ⟨_, rfl⟩
  have key : Inv (d.n_ags + 1) (conditionReferenceModel ex lg mfexp d om) := by
    unfold conditionReferenceModel
    refine forLoop_invariant Inv 1 d.n_ags _ om (by omega) ?_ ?_
    · subst hInv
      exact ⟨rfl, rfl, fun ig h1 h2 => by omega⟩
    · subst hInv
      rintro i s hi1 hi2 ⟨hM, hRo, hN⟩
      have htr : ∀ ig', conditionReferenceModel_tr ex lg d s ig'
          = conditionReferenceModel_tr ex lg d om ig' := by
        intro ig'
        simp only [conditionReferenceModel_tr, conditionReferenceModel_lx, hM, hRo]
      obtain ⟨s2, hs2⟩ : ∃ s2 : OperatingModel α, s2 =
        { s with
          m_N := fun ig' y a =>
            if ig' = i ∧ y = d.syr ∧ d.sage ≤ a ∧ a ≤ d.nage then
              1 / (d.nsex : α) * mfexp (conditionReferenceModel_tr ex lg d s i a)
            else s.m_N ig' y a
          m_log_rt := fun ih' y =>
            if ih' = d.pntr_ag (d.n_area i) (d.n_group i) ∧
                (d.syr : Int) - d.nage + d.sage ≤ y ∧ y ≤ d.syr then
              conditionReferenceModel_tr ex lg d s i (y - d.syr + d.nage).toNat
            else s.m_log_rt ih' y } := ⟨_, rfl⟩
      have hloop : ∀ t0 : OperatingModel α, t0 = s2 →
          (fun t : OperatingModel α => t.m_M = om.m_M ∧ t.m_dRo = om.m_dRo ∧
            ∀ ig' a, t.m_N ig' d.syr a = s2.m_N ig' d.syr a)
          (forLoop d.syr d.nyr (fun i' t =>
            let t1 : OperatingModel α :=
              if d.syr < i' then
                let tl : OperatingModel α :=
                  { t with
                    m_log_rt := fun ih' y =>
                      if ih' = d.pntr_ag (d.n_area i) (d.n_group i) ∧ y = (i' : Int) then
                        d.mv_log_rbar (d.pntr_ag (d.n_area i) (d.n_group i))
                          + d.mv_log_rec_devs (d.pntr_ag (d.n_area i) (d.n_group i)) i'
                      else t.m_log_rt ih' y }
                { tl with
                  m_N := assign3 tl.m_N i i' d.sage (1 / (d.nsex : α)
                    * mfexp (tl.m_log_rt (d.pntr_ag (d.n_area i) (d.n_group i)) i')) }
              else t
            let t2 : OperatingModel α :=
              { t1 with
                m_N := fun ig' y a =>
                  if ig' = i ∧ y = i' + 1 ∧ d.sage + 1 ≤ a ∧ a ≤ d.nage then
                    t1.m_N i i' (a - 1) * t1.m_S i i' (a - 1)
                  else t1.m_N ig' y a }
            { t2 with
              m_N := assign3 t2.m_N i (i' + 1) d.nage
                (t2.m_N i (i' + 1) d.nage + t2.m_N i i' d.nage * t2.m_S i i' d.nage) }) t0) := by
        intro t0 ht0
        refine forLoop_preserves (fun t : OperatingModel α =>
          t.m_M = om.m_M ∧ t.m_dRo = om.m_dRo ∧
            ∀ ig' a, t.m_N ig' d.syr a = s2.m_N ig' d.syr a) _ _ _ _ ?_ ?_
        · subst ht0
          rw [hs2]
          exact ⟨hM, hRo, fun _ _ => rfl⟩
        · rintro i' t hi1' hi2' ⟨htM, htRo, htN⟩
          have hne1 : ¬ (d.syr = i' + 1) := by omega
          by_cases hlt : d.syr < i'
          · have hne2 : ¬ (d.syr = i') := by omega
            simp only [hlt, if_true, assign3, hne1, hne2, false_and, and_false, if_false]
            exact ⟨htM, htRo, htN⟩
          · simp only [hlt, if_false, assign3, hne1, false_and, and_false]
            exact ⟨htM, htRo, htN⟩
      obtain ⟨h3M, h3Ro, h3N⟩ := hloop s2 rfl
      subst hs2
      refine ⟨h3M, h3Ro, ?_⟩
      intro ig h1 h2 a ha1 ha2
      have hne : ¬ (ig = i ∧ d.syr = d.nyr + 1 ∧ a = d.sage) := by omega
      refine (if_neg hne).trans ?_
      refine (h3N ig a).trans ?_
      by_cases hig : ig = i
      · subst hig
        simp only [true_and, ha1, ha2, and_self, if_true, htr]
      · simp only [hig, false_and, if_false]
        exact hN ig h1 (by omega) a ha1 ha2
  subst hInv
  exact key.2.2 ig hig1 (by omega) a ha1 ha2

end Condition

/-- C14. With the unfished-initialisation control `d_iscamCntrl(5)` set and
`mfexp` taken as `exp`, for every stratum `ig` of `1..n_ags` with group
`g = n_group(ig)` and every age `a` of `sage..nage`, `conditionReferenceModel`
sets `N(ig,syr,a) = R0(g) * lx(a) / nsex`, where `lx(a)` is the product of
`exp(-M(ig,syr,j))` over the ages `j` of `sage..a-1` (so `lx(sage) = 1` and
`lx(a+1) = lx(a) * exp(-M(ig,syr,a))`), divided for the plus group `a = nage` by
`1 - exp(-M(ig,syr,nage))`.  `R0(g)` and the plus-group mortality are positive
and there is a historical year. -/
theorem conditionReferenceModel_unfished_equilibrium (d : ModelData ℝ)
    (om : OperatingModel ℝ) (hc5 : d.d_iscamCntrl 5 ≠ 0) (hyr : d.syr ≤ d.nyr)
    (ig : Nat) (hig1 : 1 ≤ ig) (hig2 : ig ≤ d.n_ags)
    (hRo : 0 < om.m_dRo (d.n_group ig)) (hM : 0 < om.m_M ig d.syr d.nage)
    (a : Nat) (ha1 : d.sage ≤ a) (ha2 : a ≤ d.nage) :
    (conditionReferenceModel Real.exp Real.log Real.exp d om).m_N ig d.syr a
      = om.m_dRo (d.n_group ig)
        * ((∏ j ∈ Finset.Ico d.sage a, Real.exp (-(om.m_M ig d.syr j)))
            / (if a = d.nage then 1 - Real.exp (-(om.m_M ig d.syr d.nage)) else 1))
        / (d.nsex : ℝ) := by
  rw [conditionReferenceModel_syr Real.exp Real.log Real.exp d om hyr ig hig1 hig2 a ha1 ha2]
  have hlx := conditionReferenceModel_lx_eq Real.exp d om ig a ha1 ha2
  have hprod : 0 < ∏ j ∈ Finset.Ico d.sage a, Real.exp (-(om.m_M ig d.syr j)) :=
    Finset.prod_pos (fun j _ => Real.exp_pos _)
  have hden : 0 < (if a = d.nage then 1 - Real.exp (-(om.m_M ig d.syr d.nage)) else (1 : ℝ)) := by
    split
    · have : Real.exp (-(om.m_M ig d.syr d.nage)) < 1 := by
        rw [← Real.exp_zero]
        exact Real.exp_lt_exp.2 (by linarith)
      linarith
    · exact one_pos
  have hpos : 0 < conditionReferenceModel_lx Real.exp d om ig a := by
    rw [hlx]
    exact div_pos hprod hden
  have htr : conditionReferenceModel_tr Real.exp Real.log d om ig a
      = Real.log (om.m_dRo (d.n_group ig))
        + Real.log (conditionReferenceModel_lx Real.exp d om ig a) := by
    simp only [conditionReferenceModel_tr, hc5, ne_eq, not_false_eq_true, if_true]
  rw [htr, Real.exp_add, Real.exp_log hRo, Real.exp_log hpos, hlx]
  ring

/-- C14 at age 2 of one stratum with `R0 = 1000`, `M = 0.2` and the ages 1..3:
`N(1,syr,2) = 1000 * exp(-0.2)`. -/
theorem conditionReferenceModel_unfished_equilibrium_witness :
    (unfishedData ℝ).d_iscamCntrl 5 ≠ 0 ∧ (unfishedData ℝ).syr ≤ (unfishedData ℝ).nyr ∧
    0 < (unfishedModel ℝ).m_dRo ((unfishedData ℝ).n_group 1) ∧
    0 < (unfishedModel ℝ).m_M 1 (unfishedData ℝ).syr (unfishedData ℝ).nage ∧
    (conditionReferenceModel Real.exp Real.log Real.exp (unfishedData ℝ)
      (unfishedModel ℝ)).m_N 1 1 2 = 1000 * Real.exp (-0.2) :=
  have h5 : (unfishedData ℝ).d_iscamCntrl 5 ≠ 0 := by simp [unfishedData]
  have hRo : (0 : ℝ) < (unfishedModel ℝ).m_dRo ((unfishedData ℝ).n_group 1) := by
    norm_num [unfishedModel, OperatingModel.blank]
  have hM : (0 : ℝ) < (unfishedModel ℝ).m_M 1 (unfishedData ℝ).syr (unfishedData ℝ).nage := by
    norm_num [unfishedModel, OperatingModel.blank]
  ⟨h5, le_refl 1, hRo, hM,
    (conditionReferenceModel_unfished_equilibrium (unfishedData ℝ) (unfishedModel ℝ) h5
      (le_refl 1) 1 (le_refl 1) (le_refl 1) hRo hM 2 (by decide) (by decide)).trans (by
        have h12 : Finset.Ico 1 2 = ({1} : Finset Nat) := by decide
        simp [unfishedData, unfishedModel, oneStratumData, ModelData.blank,
          OperatingModel.blank, h12])⟩

section Frozen
variable {α : Type} [LinearOrderedField α]

/-- The loop of `initMemberVariables` for the stratum `ig` leaves the natural
mortality of the other strata as it is and gives every projection year of `ig`
the row of year `nyr`. -/
theorem initMemberVariables_mortality_m_M (ex : α → α) (d : ModelData α) (ig : Nat)
    (s : OperatingModel α) :
    (∀ ig' y a, ig' ≠ ig →
      (initMemberVariables_mortality ex d ig s).m_M ig' y a = s.m_M ig' y a) ∧
    (∀ y a, d.nyr < y → y ≤ d.m_nPyr →
      (initMemberVariables_mortality ex d ig s).m_M ig y a
        = (initMemberVariables_mortality ex d ig s).m_M ig d.nyr a) := by
  by_cases hle : d.nyr ≤ d.m_nPyr
  · obtain ⟨row, hrow⟩ : ∃ row : Nat → α, row = fun a =>
        if d.syr ≤ d.nyr then d.mv_d3_M ig d.nyr a else s.m_M ig d.nyr a := ⟨_, rfl⟩
    obtain ⟨Inv, hInv⟩ : ∃ Inv : Nat → OperatingModel α → Prop, Inv = fun i t =>
        (∀ ig' y a, ig' ≠ ig → t.m_M ig' y a = s.m_M ig' y a) ∧
        (∀ a, t.m_M ig d.nyr a = row a) ∧
        (∀ y a, d.nyr < y → y < i → t.m_M ig y a = row a) := ⟨_, rfl⟩
    have key : Inv (d.m_nPyr + 1) (initMemberVariables_mortality ex d ig s) := by
      unfold initMemberVariables_mortality
      refine forLoop_invariant Inv (d.nyr + 1) d.m_nPyr _ _ (by omega) ?_ ?_
      · subst hInv hrow
        refine ⟨?_, ?_, ?_⟩
        · intro ig' y a hne
          simp only [hne, false_and, if_false]
        · intro a
          by_cases h : d.syr ≤ d.nyr
          · simp only [h, le_refl, and_self, if_true]
          · simp only [h, false_and, and_false, if_false]
        · intro y a h1 h2
          omega
      · subst hInv
        rintro i t hi1 hi2 ⟨hA, hB, hC⟩
        refine ⟨?_, ?_, ?_⟩
        · intro ig' y a hne
          simp only [hne, false_and, if_false]
          exact hA ig' y a hne
        · intro a
          have : ¬ (d.nyr = i) := by omega
          simp only [this, and_false, if_false]
          exact hB a
        · intro y a h1 h2
          by_cases hy : y = i
          · simp only [hy, and_self, if_true]
            exact hB a
          · simp only [hy, and_false, if_false]
            exact hC y a h1 (by omega)
    subst hInv
    obtain ⟨hA, hB, hC⟩ := key
    refine ⟨hA, ?_⟩
    intro y a h1 h2
    rw [hC y a h1 (by omega), hB a]
  · refine ⟨?_, fun y a h1 h2 => by omega⟩
    have h0 : d.m_nPyr + 1 - (d.nyr + 1) = 0 := by omega
    intro ig' y a hne
    simp only [initMemberVariables_mortality, forLoop, h0, List.range'_zero, List.foldl_nil,
      hne, false_and, if_false]

/-- After `initMemberVariables` the natural mortality of every projection year
of a stratum of `1..n_ags` is the row of year `nyr`. -/
theorem initMemberVariables_m_M (ex : α → α) (d : ModelData α) (om : OperatingModel α)
    (ig : Nat) (hig1 : 1 ≤ ig) (hig2 : ig ≤ d.n_ags) (y : Nat) (hy1 : d.nyr < y)
    (hy2 : y ≤ d.m_nPyr) (a : Nat) :
    (initMemberVariables ex d om).m_M ig y a = (initMemberVariables ex d om).m_M ig d.nyr a := by
  obtain ⟨s0, hs0⟩ : ∃ s0 : OperatingModel α, s0 =
    { om with
      m_N := fun _ _ _ => 0, m_M := fun _ _ _ => 0, m_F := fun _ _ _ => 0
      m_Z := fun _ _ _ => 0, m_S := fun _ _ _ => 0, m_ft := fun _ _ _ => 0
      m_d3_wt_avg := fun _ _ _ => 0, m_d3_wt_mat := fun _ _ _ => 0
      m_log_rt := fun _ _ => 0
      m_sbt := fun y g => if d.syr ≤ y ∧ y ≤ d.nyr then d.mv_sbt g y else 0
      m_dbeta := fun _ => 0
      m_q := d.mv_q } := ⟨_, rfl⟩
  have h1 : ∀ ig, 1 ≤ ig → ig < d.n_ags + 1 → ∀ y, d.nyr < y → y ≤ d.m_nPyr → ∀ a,
      (forLoop 1 d.n_ags (fun ig s => initMemberVariables_mortality ex d ig s) s0).m_M ig y a
        = (forLoop 1 d.n_ags (fun ig s => initMemberVariables_mortality ex d ig s) s0).m_M
            ig d.nyr a := by
    refine forLoop_invariant (fun i (s : OperatingModel α) =>
      ∀ ig, 1 ≤ ig → ig < i → ∀ y, d.nyr < y → y ≤ d.m_nPyr → ∀ a,
        s.m_M ig y a = s.m_M ig d.nyr a) 1 d.n_ags _ s0 (by omega) ?_ ?_
    · intro ig h1 h2
      omega
    · intro i t hi1 hi2 ht ig h1 h2 y hy1 hy2 a
      obtain ⟨hA, hB⟩ := initMemberVariables_mortality_m_M ex d i t
      by_cases hig : ig = i
      · subst hig
        exact hB y a hy1 hy2
      · rw [hA ig y a hig, hA ig d.nyr a hig]
        exact ht ig h1 (by omega) y hy1 hy2 a
  have hM : (initMemberVariables ex d om).m_M
      = (forLoop 1 d.n_ags (fun ig s => initMemberVariables_mortality ex d ig s) s0).m_M := by
    unfold initMemberVariables
    rw [← hs0]
    dsimp only
    obtain ⟨s1, hs1⟩ : ∃ s1, s1 =
      forLoop 1 d.n_ags (fun ig s => initMemberVariables_mortality ex d ig s) s0 := ⟨_, rfl⟩
    rw [← hs1]
    refine forLoop_preserves (fun s : OperatingModel α => s.m_M = s1.m_M) _ _ _ _ ?_ ?_
    · refine forLoop_preserves (fun s : OperatingModel α => s.m_M = s1.m_M) _ _ _ _ rfl ?_
      intro k t _ _ ht
      refine forLoop_preserves (fun s : OperatingModel α => s.m_M = s1.m_M) _ _ _ _ ht ?_
      intro ig t _ _ ht
      refine forLoop_preserves (fun s : OperatingModel α => s.m_M = s1.m_M) _ _ _ _ ht ?_
      intro i t _ _ ht
      exact ht
    · intro ig t _ _ ht
      refine forLoop_preserves (fun s : OperatingModel α => s.m_M = s1.m_M) _ _ _ _ ht ?_
      intro k t _ _ ht
      exact ht
  rw [hM]
  exact h1 ig hig1 (by omega) y hy1 hy2 a

/-- The yearly steps `implementFisheries`, `calcTotalMortality` and
`updateReferenceModel` leave `m_M` as it is. -/
theorem yearly_steps_m_M (ex lg mfexp : α → α)
    (retention_probability : α → α → (Nat → α) → (Nat → α) → Nat → α)
    (getFishingMortality : (Nat → α) → (Nat → Nat → α) → (Nat → Nat → Nat → α) →
      (Nat → Nat → α) → (Nat → Nat → α) → (Nat → α) × (Nat → Nat → α))
    (d : ModelData α) (iyr : Nat) (s : OperatingModel α) :
    (implementFisheries ex lg retention_probability getFishingMortality d iyr s).m_M = s.m_M ∧
    (calcTotalMortality ex d iyr s).m_M = s.m_M ∧
    (updateReferenceModel ex lg mfexp d iyr s).m_M = s.m_M := by
  refine ⟨?_, ?_, ?_⟩
  · obtain ⟨⟨F, cd, irow, h⟩, -⟩ :=
      implementFisheries_frame ex lg retention_probability getFishingMortality d iyr s
    rw [h]
  · rw [calcTotalMortality_eq]
  · unfold updateReferenceModel
    dsimp only
    rw [(updateReferenceModel_ageing_spec ex d iyr _ _).1,
      (updateReferenceModel_recruits_frame ex lg d iyr _ _).1]
    obtain ⟨sbt, h⟩ := updateReferenceModel_sbt_frame mfexp d iyr s
    rw [h]

end Frozen

/-- C15. After `initMemberVariables`, for every stratum `ig` of `1..n_ags`,
every projection year `y` with `nyr < y ≤ m_nPyr` and every age `a`,
`M(ig,y,a) = M(ig,nyr,a)`; and from any state of any year, none of
`implementFisheries`, `calcTotalMortality` and `updateReferenceModel` changes
`m_M`. -/
theorem initMemberVariables_frozen_natural_mortality (mfexp : ℝ → ℝ)
    (retention_probability : ℝ → ℝ → (Nat → ℝ) → (Nat → ℝ) → Nat → ℝ)
    (getFishingMortality : (Nat → ℝ) → (Nat → Nat → ℝ) → (Nat → Nat → Nat → ℝ) →
      (Nat → Nat → ℝ) → (Nat → Nat → ℝ) → (Nat → ℝ) × (Nat → Nat → ℝ))
    (d : ModelData ℝ) (om : OperatingModel ℝ)
    (ig : Nat) (hig1 : 1 ≤ ig) (hig2 : ig ≤ d.n_ags) (y : Nat) (hy1 : d.nyr < y)
    (hy2 : y ≤ d.m_nPyr) (a : Nat) :
    (initMemberVariables Real.exp d om).m_M ig y a
      = (initMemberVariables Real.exp d om).m_M ig d.nyr a ∧
    ∀ (iyr : Nat) (s : OperatingModel ℝ),
      (implementFisheries Real.exp Real.log retention_probability getFishingMortality
        d iyr s).m_M = s.m_M ∧
      (calcTotalMortality Real.exp d iyr s).m_M = s.m_M ∧
      (updateReferenceModel Real.exp Real.log mfexp d iyr s).m_M = s.m_M :=
  ⟨initMemberVariables_m_M Real.exp d om ig hig1 hig2 y hy1 hy2 a,
    fun iyr s => yearly_steps_m_M Real.exp Real.log mfexp retention_probability
      getFishingMortality d iyr s⟩

/-- C15 on one stratum with the historical years 1..2 and the projection years
3..4: the natural mortality of year 4 is that of year 2, 0.3. -/
theorem initMemberVariables_frozen_natural_mortality_witness :
    (frozenData ℝ).nyr < 4 ∧ 4 ≤ (frozenData ℝ).m_nPyr ∧
    (initMemberVariables Real.exp (frozenData ℝ) (OperatingModel.blank ℝ)).m_M 1 2 1 = 0.3 ∧
    (initMemberVariables Real.exp (frozenData ℝ) (OperatingModel.blank ℝ)).m_M 1 4 1
      = (initMemberVariables Real.exp (frozenData ℝ) (OperatingModel.blank ℝ)).m_M 1 2 1 :=
  ⟨by decide, by decide,
    by
      simp [initMemberVariables, initMemberVariables_mortality, frozenData, oneStratumData,
        ModelData.blank, OperatingModel.blank, forLoop, List.range'],
    (initMemberVariables_frozen_natural_mortality Real.exp (retainAll ℝ) (rateSolver ℝ)
      (frozenData ℝ) (OperatingModel.blank ℝ) 1 (le_refl 1) (le_refl 1) 4 (by decide)
      (by decide) 1).1⟩

/-- After `initParameters` every element of `m_dRbar` holds the value of the
last area-group, `exp(log_rbar(n_ag))`. -/
theorem initParameters_m_dRbar {α : Type} [LinearOrderedField α] [FloorRing α]
    (ex : α → α) (pw : α → α → α) (d : ModelData α) (om : OperatingModel α)
    (hn : 1 ≤ d.n_ag) (ih : Nat) :
    (initParameters ex pw d om).m_dRbar ih = ex (d.mv_log_rbar d.n_ag) := by
  have key := forLoop_invariant
    (fun (i : Nat) (p : (Nat → α) × (Nat → α)) =>
      1 < i → p.1 = fun _ => ex (d.mv_log_rbar (i - 1)))
    1 d.n_ag (fun ih _ => (fun _ => ex (d.mv_log_rbar ih), fun _ => ex (d.mv_log_rinit ih)))
    (om.m_dRbar, om.m_dRinit) (by omega) (fun h => absurd h (by omega))
    (fun i t _ _ _ _ => by simp)
  have h := key (by omega)
  simp only [Nat.add_sub_cancel] at h
  show (forLoop 1 d.n_ag (fun ih _ =>
      ((fun _ => ex (d.mv_log_rbar ih)), fun _ => ex (d.mv_log_rinit ih)))
      (om.m_dRbar, om.m_dRinit)).1 ih = _
  rw [h]

/-- C17. Two area-groups with `log_rbar = (0, 1)`: after `initParameters`
`m_dRbar(1)` is `exp(1)`, the value of area-group 2, not `exp(log_rbar(1)) = 1`,
and under the average-recruitment type the stock-recruit value that
`updateReferenceModel` gives the stratum of area-group 1 is `exp(1)`. -/
theorem initParameters_m_dRbar_last_value :
    (rbarData ℝ).mv_log_rbar 1 = 0 ∧
    (initParameters Real.exp (fun x y => x ^ y) (rbarData ℝ) (OperatingModel.blank ℝ)).m_dRbar 1
      = Real.exp 1 ∧
    (updateReferenceModel_recruits Real.exp Real.log (rbarData ℝ) 2
      (initParameters Real.exp (fun x y => x ^ y) (rbarData ℝ) (OperatingModel.blank ℝ),
        fun _ => 0)).1.m_N 1 3 1 = Real.exp 1 ∧
    Real.exp 1 ≠ Real.exp ((rbarData ℝ).mv_log_rbar 1) := by
  refine ⟨by simp [rbarData], ?_, ?_, ?_⟩
  · simp [initParameters, rbarData, swapData, ModelData.blank, OperatingModel.blank, forLoop,
      List.range']
  · simp [updateReferenceModel_recruits, initParameters, rbarData, swapData, ModelData.blank,
      OperatingModel.blank, forLoop, assign1, assign3, List.range']
  · have h : (rbarData ℝ).mv_log_rbar 1 = 0 := by simp [rbarData]
    rw [h, Real.exp_zero]
    have := Real.add_one_lt_exp (one_ne_zero)
    linarith


/-! ## Row counts of the tables and closed areas -/

/-- `implementFisheries` does not read the open flags `m_nAGopen`. -/
theorem implementFisheries_ignores_open_flags {α : Type} [LinearOrderedField α]
    (ex lg : α → α)
    (retention_probability : α → α → (Nat → α) → (Nat → α) → Nat → α)
    (getFishingMortality : (Nat → α) → (Nat → Nat → α) → (Nat → Nat → Nat → α) →
      (Nat → Nat → α) → (Nat → Nat → α) → (Nat → α) × (Nat → Nat → α))
    (d : ModelData α) (iyr : Nat) (om : OperatingModel α) (A : Nat → Nat → Nat) :
    implementFisheries ex lg retention_probability getFishingMortality
        { d with m_nAGopen := A } iyr om
      = implementFisheries ex lg retention_probability getFishingMortality d iyr om :=
  rfl

/-- The catch-row count that `writeDataFile` reports for a year of the
projection horizon is within the number of rows that `initParameters`
allocates. -/
theorem writeDataFile_tmp_nCtNobs_le {α : Type} [LinearOrderedField α] [FloorRing α]
    (ex : α → α) (pw : α → α → α) (d : ModelData α) (om : OperatingModel α) (iyr : Nat)
    (h : iyr ≤ d.m_nPyr) :
    writeDataFile_tmp_nCtNobs d (initParameters ex pw d om) iyr
      ≤ (initParameters ex pw d om).m_nCtNobs :=
  Nat.add_le_add_left (Nat.mul_le_mul_right _ (Nat.sub_le_sub_right h _)) _

/-- C21. Two fleets on one open area, one group, two sexes, the catch of fleet
2 sexed and that of fleet 1 not: `initParameters` computes `m_nn = 4`, so that
`writeDataFile(2)` reports `0 + 1 * 4 = 4` catch rows, while the rows recorded
for year 2 are 3 (one for fleet 1, two for fleet 2), by `allocateTAC` and by
`implementFisheries` alike. -/
theorem writeDataFile_catch_rows_overcounted :
    (initParameters Real.exp (fun x y => x ^ y) (rowCountData ℝ)
      (catchModel ℝ)).m_nn = 4 ∧
    (initParameters Real.exp (fun x y => x ^ y) (rowCountData ℝ)
      (catchModel ℝ)).m_nCtNobs = 4 ∧
    writeDataFile_tmp_nCtNobs (rowCountData ℝ)
      (initParameters Real.exp (fun x y => x ^ y) (rowCountData ℝ) (catchModel ℝ)) 2 = 4 ∧
    (allocateTAC (rowCountData ℝ) 2
      (initParameters Real.exp (fun x y => x ^ y) (rowCountData ℝ)
        (catchModel ℝ))).allocateTAC_irow = 3 ∧
    (implementFisheries Real.exp Real.log (retainAll ℝ) (fixedSolver ℝ) (rowCountData ℝ) 2
      (initParameters Real.exp (fun x y => x ^ y) (rowCountData ℝ)
        (catchModel ℝ))).m_irow = 3 := by
  have hpos : (0 : ℝ) < 0.1 := by norm_num
  have hnn : (initParameters Real.exp (fun x y => x ^ y) (rowCountData ℝ)
      (catchModel ℝ)).m_nn = 4 := by
    simp [initParameters, rowCountData, catchModel, ModelData.blank, OperatingModel.blank,
      forLoop, List.range', vsum]
  refine ⟨hnn, ?_, ?_, ?_, ?_⟩
  · simp [initParameters, rowCountData, catchModel, ModelData.blank, OperatingModel.blank,
      forLoop, List.range', vsum]
  · simp [writeDataFile_tmp_nCtNobs, initParameters, rowCountData, catchModel,
      ModelData.blank, OperatingModel.blank, forLoop, List.range', vsum]
  · simp [allocateTAC, allocateTAC_row, initParameters, rowCountData, catchModel,
      ModelData.blank, OperatingModel.blank, forLoop, List.range', vsum]
  · simp [implementFisheries, implementFisheries_row, implementFisheries_solve, fixedSolver,
      initParameters, rowCountData, catchModel, ModelData.blank, OperatingModel.blank,
      forLoop, List.range', vsum, hpos]

/-- C22. One fleet and one area whose open flag is 0, with a target catch of
10 and a solver that returns `ft = 0.1` and a catch of 7: `allocateTAC(2)`
writes no row, but `implementFisheries(2)` adds the fishing mortality 0.1 of the
fleet to the stratum of the area and appends row 1 for the fleet and the area
with the catch 7. -/
theorem implementFisheries_fishes_closed_area :
    (closedData ℝ).m_nAGopen 1 1 = 0 ∧
    (allocateTAC (closedData ℝ) 2 (catchModel ℝ)).allocateTAC_irow = 0 ∧
    (catchModel ℝ).m_F 1 2 1 = 0 ∧
    (implementFisheries Real.exp Real.log (retainAll ℝ) (fixedSolver ℝ) (closedData ℝ) 2
      (catchModel ℝ)).m_F 1 2 1 = 0.1 ∧
    (implementFisheries Real.exp Real.log (retainAll ℝ) (fixedSolver ℝ) (closedData ℝ) 2
      (catchModel ℝ)).m_irow = 1 ∧
    (implementFisheries Real.exp Real.log (retainAll ℝ) (fixedSolver ℝ) (closedData ℝ) 2
      (catchModel ℝ)).m_dCatchData 1 2 = 1 ∧
    (implementFisheries Real.exp Real.log (retainAll ℝ) (fixedSolver ℝ) (closedData ℝ) 2
      (catchModel ℝ)).m_dCatchData 1 3 = 1 ∧
    (implementFisheries Real.exp Real.log (retainAll ℝ) (fixedSolver ℝ) (closedData ℝ) 2
      (catchModel ℝ)).m_dCatchData 1 7 = 7 := by
  have hpos : (0 : ℝ) < 0.1 := by norm_num
  refine ⟨rfl, ?_, rfl, ?_, ?_, ?_, ?_, ?_⟩
  · simp [allocateTAC, allocateTAC_row, forLoop, closedData, catchData, catchModel,
      oneStratumData, ModelData.blank, OperatingModel.blank]
  · simp [implementFisheries, implementFisheries_row, implementFisheries_solve,
      implementFisheries_Va, fixedSolver, retainAll, forLoop, closedData, catchData,
      catchModel, oneStratumData, ModelData.blank, OperatingModel.blank, assign2, vsum, hpos]
  · simp [implementFisheries, implementFisheries_row, implementFisheries_solve, fixedSolver,
      forLoop, closedData, catchData, catchModel, oneStratumData, ModelData.blank,
      OperatingModel.blank, assign2, vsum, hpos]
  · simp [implementFisheries, implementFisheries_row, implementFisheries_solve, fixedSolver,
      forLoop, closedData, catchData, catchModel, oneStratumData, ModelData.blank,
      OperatingModel.blank, assign2, vsum, hpos]
  · simp [implementFisheries, implementFisheries_row, implementFisheries_solve, fixedSolver,
      forLoop, closedData, catchData, catchModel, oneStratumData, ModelData.blank,
      OperatingModel.blank, assign2, vsum, hpos]
  · simp [implementFisheries, implementFisheries_row, implementFisheries_solve, fixedSolver,
      forLoop, closedData, catchData, catchModel, oneStratumData, ModelData.blank,
      OperatingModel.blank, assign2, vsum, hpos]

/-- C23. Two unsexed age-sampling series with one historical row each, one
area, one group, one projection year: `initParameters` allocates
`1 + 1 + 1 * 0 = 2` rows for series 2 and `writeDataFile(2)` emits 2, but
`calcCompositionData(2)` counts the rows of both series with one counter and
writes the row of series 2 at index `n_A_nobs(2) + 2 = 3`. -/
theorem calcCompositionData_row_beyond_capacity :
    (initParameters Real.exp (fun x y => x ^ y) (twoSeriesData ℝ)
      (compModel ℝ)).m_n_A_nobs 2 = 2 ∧
    writeDataFile_tmp_n_A_nobs (twoSeriesData ℝ) 2 2 = 2 ∧
    (initParameters Real.exp (fun x y => x ^ y) (twoSeriesData ℝ)
      (compModel ℝ)).m_d3_A 2 3 (-4) = 0 ∧
    (calcCompositionData Real.exp (twoSeriesData ℝ) 2
      (initParameters Real.exp (fun x y => x ^ y) (twoSeriesData ℝ)
        (compModel ℝ))).calcCompositionData_irow = 2 ∧
    (calcCompositionData Real.exp (twoSeriesData ℝ) 2
      (initParameters Real.exp (fun x y => x ^ y) (twoSeriesData ℝ)
        (compModel ℝ))).m_d3_A 2 3 (-4) = 2 := by
  refine ⟨?_, ?_, ?_, ?_, ?_⟩
  · simp [initParameters, twoSeriesData, compData, compModel, ModelData.blank,
      OperatingModel.blank, forLoop, List.range', vsum]
  · simp [writeDataFile_tmp_n_A_nobs, twoSeriesData, compData, ModelData.blank, vsum]
  · simp [initParameters, twoSeriesData, compData, compModel, ModelData.blank,
      OperatingModel.blank, forLoop, List.range']
  · simp [calcCompositionData, calcCompositionData_row, initParameters, twoSeriesData,
      compData, compModel, ModelData.blank, OperatingModel.blank, forLoop, List.range']
  · simp [calcCompositionData, calcCompositionData_row, initParameters, twoSeriesData,
      compData, compModel, ModelData.blank, OperatingModel.blank, forLoop, List.range', vsum]

/-! ## Survey index -/

/-- A loop whose body overwrites the same part of the state in every pass
leaves what the last pass wrote. -/
theorem forLoop_overwrite {σ β : Type} (P : σ → Prop) (get : σ → β) (upd : Nat → β → β)
    (lo hi : Nat) (body : Nat → σ → σ) (s : σ) (hle : lo ≤ hi) (h0 : P s)
    (habs : ∀ i j x, upd j (upd i x) = upd j x)
    (hstep : ∀ i t, lo ≤ i → i ≤ hi → P t → P (body i t) ∧ get (body i t) = upd i (get t)) :
    P (forLoop lo hi body s) ∧ get (forLoop lo hi body s) = upd hi (get s) := by
  have key := forLoop_invariant
    (fun j t => P t ∧ get t = if lo < j then upd (j - 1) (get s) else get s)
    lo hi body s (by omega) ⟨h0, by simp⟩
    (by
      rintro i t h1 h2 ⟨hP, hget⟩
      obtain ⟨hP', hupd⟩ := hstep i t h1 h2 hP
      refine ⟨hP', ?_⟩
      rw [hupd, hget, if_pos (show lo < i + 1 by omega), Nat.add_sub_cancel]
      split
      · exact habs _ _ _
      · rfl)
  dsimp only at key
  rw [if_pos (show lo < hi + 1 by omega), Nat.add_sub_cancel] at key
  exact key

section Survey
variable {α : Type} [LinearOrderedField α]

/-- Closed form of the local `dV` of `calcRelativeAbundance`: the sum over the
sexes of the metric of the series. -/
theorem calcRelativeAbundance_dV_eq (ex : α → α) (d : ModelData α) (iyr : Nat)
    (om : OperatingModel α) (k gear f g : Nat) :
    calcRelativeAbundance_dV ex d iyr om k gear f g
      = ∑ h ∈ Finset.Icc 1 d.nsex,
          (match d.n_survey_type k with
            | 1 => ∑ a ∈ Finset.Icc d.sage d.nage,
                om.m_N (d.pntr_ags f g h) iyr a * ex (om.d4_logSel gear (d.pntr_ags f g h) iyr a)
            | 2 => ∑ a ∈ Finset.Icc d.sage d.nage,
                om.m_N (d.pntr_ags f g h) iyr a * ex (om.d4_logSel gear (d.pntr_ags f g h) iyr a)
                  * om.m_d3_wt_avg (d.pntr_ags f g h) iyr a
            | 3 => ∑ a ∈ Finset.Icc d.sage d.nage,
                om.m_N (d.pntr_ags f g h) iyr a * om.m_d3_wt_mat (d.pntr_ags f g h) iyr a
            | _ => 0) := by
  unfold calcRelativeAbundance_dV
  have acc := forLoop_accumulate (fun _ : α => True) (fun x : α => x)
    (fun h => (match d.n_survey_type k with
            | 1 => ∑ a ∈ Finset.Icc d.sage d.nage,
                om.m_N (d.pntr_ags f g h) iyr a * ex (om.d4_logSel gear (d.pntr_ags f g h) iyr a)
            | 2 => ∑ a ∈ Finset.Icc d.sage d.nage,
                om.m_N (d.pntr_ags f g h) iyr a * ex (om.d4_logSel gear (d.pntr_ags f g h) iyr a)
                  * om.m_d3_wt_avg (d.pntr_ags f g h) iyr a
            | 3 => ∑ a ∈ Finset.Icc d.sage d.nage,
                om.m_N (d.pntr_ags f g h) iyr a * om.m_d3_wt_mat (d.pntr_ags f g h) iyr a
            | _ => (0 : α)))
    1 d.nsex (fun h dV =>
      match d.n_survey_type k with
      | 1 => dV + vsum d.sage d.nage (fun a =>
          om.m_N (d.pntr_ags f g h) iyr a * ex (om.d4_logSel gear (d.pntr_ags f g h) iyr a))
      | 2 => dV + vsum d.sage d.nage (fun a =>
          om.m_N (d.pntr_ags f g h) iyr a * ex (om.d4_logSel gear (d.pntr_ags f g h) iyr a)
            * om.m_d3_wt_avg (d.pntr_ags f g h) iyr a)
      | 3 => dV + vsum d.sage d.nage (fun a =>
          om.m_N (d.pntr_ags f g h) iyr a * om.m_d3_wt_mat (d.pntr_ags f g h) iyr a)
      | _ => dV) 0 trivial
    (by
      intro h t _ _ _
      refine ⟨trivial, ?_⟩
      dsimp only
      split <;> simp [vsum])
  have h2 := acc.2
  simp only [zero_add] at h2
  exact h2

end Survey

section SurveyRows
variable {α : Type} [LinearOrderedField α]

/-- The row written by `calcRelativeAbundance_row` does not depend on what the
table held before: a second write to the same row replaces the first. -/
theorem calcRelativeAbundance_row_absorb (d : ModelData α) (iyr k gear f g f' g' : Nat)
    (dV dV' : α) (s : OperatingModel α) :
    (calcRelativeAbundance_row d iyr k gear f' g' dV'
        (calcRelativeAbundance_row d iyr k gear f g dV s)).m_d3SurveyData
      = (calcRelativeAbundance_row d iyr k gear f' g' dV' s).m_d3SurveyData := by
  funext k' r c
  simp only [calcRelativeAbundance_row, assign3]
  split_ifs <;> rfl

/-- What `calcRelativeAbundance_row` leaves in the table. -/
theorem calcRelativeAbundance_row_get (d : ModelData α) (iyr k gear f g : Nat)
    (dV : α) (s : OperatingModel α) (k' r c : Nat) :
    (calcRelativeAbundance_row d iyr k gear f g dV s).m_d3SurveyData k' r c
      = if k' = k ∧ r = d.n_it_nobs k + s.calcRelativeAbundance_irow ∧ 1 ≤ c ∧ c ≤ 8 then
          (if c = 1 then (iyr : α) else if c = 2 then s.m_q k * dV
            else if c = 3 then (gear : α) else if c = 4 then (f : α)
            else if c = 5 then (g : α) else if c = 6 then 0
            else if c = 7 then 1 else 0.5)
        else s.m_d3SurveyData k' r c := by
  simp only [calcRelativeAbundance_row, assign3]
  by_cases hk : k' = k ∧ r = d.n_it_nobs k + s.calcRelativeAbundance_irow
  · obtain ⟨hk1, hk2⟩ := hk
    subst hk1 hk2
    simp only [true_and]
    by_cases h1 : c = 1
    · subst h1; simp
    by_cases h2 : c = 2
    · subst h2; simp
    by_cases h3 : c = 3
    · subst h3; simp
    by_cases h4 : c = 4
    · subst h4; simp
    by_cases h5 : c = 5
    · subst h5; simp
    by_cases h6 : c = 6
    · subst h6; simp
    by_cases h7 : c = 7
    · subst h7; simp
    by_cases h8 : c = 8
    · subst h8; simp
    · have hc : ¬ (1 ≤ c ∧ c ≤ 8) := by omega
      simp only [h1, h2, h3, h4, h5, h6, h7, h8, hc, if_false]
  · have hne : ∀ j : Nat, ¬ (k' = k ∧ r = d.n_it_nobs k + s.calcRelativeAbundance_irow ∧ c = j) :=
      fun j hj => hk ⟨hj.1, hj.2.1⟩
    have hne2 : ¬ (k' = k ∧ r = d.n_it_nobs k + s.calcRelativeAbundance_irow ∧ 1 ≤ c ∧ c ≤ 8) :=
      fun hj => hk ⟨hj.1, hj.2.1⟩
    simp only [hne, hne2, if_false]

/-- Closed form of `calcRelativeAbundance` when there is an area and a group:
the counter goes up by one, and in the table of every series `k` of
`1..nItNobs` the columns `1..8` of row `n_it_nobs(k) + irow` hold the values of
the last area and group; nothing else changes. -/
theorem calcRelativeAbundance_spec [FloorRing α] (ex : α → α) (d : ModelData α) (iyr : Nat)
    (om : OperatingModel α) (hf : 1 ≤ d.narea) (hg : 1 ≤ d.ngroup) :
    (∃ sv, calcRelativeAbundance ex d iyr om
      = { om with
          calcRelativeAbundance_irow := om.calcRelativeAbundance_irow + 1
          m_d3SurveyData := sv }) ∧
    ∀ k r c, (calcRelativeAbundance ex d iyr om).m_d3SurveyData k r c
      = if (1 ≤ k ∧ k ≤ d.nItNobs) ∧
            r = d.n_it_nobs k + (om.calcRelativeAbundance_irow + 1) ∧ 1 ≤ c ∧ c ≤ 8 then
          (if c = 1 then (iyr : α)
            else if c = 2 then
              om.m_q k * calcRelativeAbundance_dV ex d iyr om k ⌊d.d3_survey_data k 1 3⌋₊
                d.narea d.ngroup
            else if c = 3 then ((⌊d.d3_survey_data k 1 3⌋₊ : Nat) : α)
            else if c = 4 then (d.narea : α)
            else if c = 5 then (d.ngroup : α) else if c = 6 then 0
            else if c = 7 then 1 else 0.5)
        else om.m_d3SurveyData k r c := by
  obtain ⟨s0, hs0⟩ : ∃ s0 : OperatingModel α, s0 =
    { om with calcRelativeAbundance_irow := om.calcRelativeAbundance_irow + 1 } := ⟨_, rfl⟩
  obtain ⟨P, hP⟩ : ∃ P : OperatingModel α → Prop, P = fun s =>
    ∃ sv, s = { s0 with m_d3SurveyData := sv } := ⟨_, rfl⟩
  -- the loop over the groups
  have hgl : ∀ (k f : Nat) (t : OperatingModel α), P t →
      P (forLoop 1 d.ngroup (fun g s =>
        calcRelativeAbundance_row d iyr k ⌊d.d3_survey_data k 1 3⌋₊ f g
          (calcRelativeAbundance_dV ex d iyr s k ⌊d.d3_survey_data k 1 3⌋₊ f g) s) t) ∧
      (forLoop 1 d.ngroup (fun g s =>
        calcRelativeAbundance_row d iyr k ⌊d.d3_survey_data k 1 3⌋₊ f g
          (calcRelativeAbundance_dV ex d iyr s k ⌊d.d3_survey_data k 1 3⌋₊ f g) s)
          t).m_d3SurveyData
        = (calcRelativeAbundance_row d iyr k ⌊d.d3_survey_data k 1 3⌋₊ f d.ngroup
            (calcRelativeAbundance_dV ex d iyr om k ⌊d.d3_survey_data k 1 3⌋₊ f d.ngroup)
            { s0 with m_d3SurveyData := t.m_d3SurveyData }).m_d3SurveyData := by
    intro k f t ht
    refine forLoop_overwrite P (fun s : OperatingModel α => s.m_d3SurveyData)
      (fun g sv => (calcRelativeAbundance_row d iyr k ⌊d.d3_survey_data k 1 3⌋₊ f g
        (calcRelativeAbundance_dV ex d iyr om k ⌊d.d3_survey_data k 1 3⌋₊ f g)
        { s0 with m_d3SurveyData := sv }).m_d3SurveyData)
      1 d.ngroup _ t hg ht ?_ ?_
    · intro i j x
      exact calcRelativeAbundance_row_absorb d iyr k _ f i f j _ _ { s0 with m_d3SurveyData := x }
    · subst hP hs0
      rintro g u _ _ ⟨sv, rfl⟩
      exact ⟨⟨_, rfl⟩, rfl⟩
  -- the loop over the areas
  have hfl : ∀ (k : Nat) (t : OperatingModel α), P t →
      P (forLoop 1 d.narea (fun f s => forLoop 1 d.ngroup (fun g s =>
        calcRelativeAbundance_row d iyr k ⌊d.d3_survey_data k 1 3⌋₊ f g
          (calcRelativeAbundance_dV ex d iyr s k ⌊d.d3_survey_data k 1 3⌋₊ f g) s) s) t) ∧
      (forLoop 1 d.narea (fun f s => forLoop 1 d.ngroup (fun g s =>
        calcRelativeAbundance_row d iyr k ⌊d.d3_survey_data k 1 3⌋₊ f g
          (calcRelativeAbundance_dV ex d iyr s k ⌊d.d3_survey_data k 1 3⌋₊ f g) s) s)
          t).m_d3SurveyData
        = (calcRelativeAbundance_row d iyr k ⌊d.d3_survey_data k 1 3⌋₊ d.narea d.ngroup
            (calcRelativeAbundance_dV ex d iyr om k ⌊d.d3_survey_data k 1 3⌋₊ d.narea d.ngroup)
            { s0 with m_d3SurveyData := t.m_d3SurveyData }).m_d3SurveyData := by
    intro k t ht
    refine forLoop_overwrite P (fun s : OperatingModel α => s.m_d3SurveyData)
      (fun f sv => (calcRelativeAbundance_row d iyr k ⌊d.d3_survey_data k 1 3⌋₊ f d.ngroup
        (calcRelativeAbundance_dV ex d iyr om k ⌊d.d3_survey_data k 1 3⌋₊ f d.ngroup)
        { s0 with m_d3SurveyData := sv }).m_d3SurveyData)
      1 d.narea _ t hf ht ?_ ?_
    · intro i j x
      exact calcRelativeAbundance_row_absorb d iyr k _ i d.ngroup j d.ngroup _ _
        { s0 with m_d3SurveyData := x }
    · intro f u _ _ hu
      exact hgl k f u hu
  -- the loop over the series
  obtain ⟨Inv, hInv⟩ : ∃ Inv : Nat → OperatingModel α → Prop, Inv = fun i s =>
    P s ∧ ∀ k r c, s.m_d3SurveyData k r c
      = if (1 ≤ k ∧ k < i) ∧
            r = d.n_it_nobs k + (om.calcRelativeAbundance_irow + 1) ∧ 1 ≤ c ∧ c ≤ 8 then
          (if c = 1 then (iyr : α)
            else if c = 2 then
              om.m_q k * calcRelativeAbundance_dV ex d iyr om k ⌊d.d3_survey_data k 1 3⌋₊
                d.narea d.ngroup
            else if c = 3 then ((⌊d.d3_survey_data k 1 3⌋₊ : Nat) : α)
            else if c = 4 then (d.narea : α)
            else if c = 5 then (d.ngroup : α) else if c = 6 then 0
            else if c = 7 then 1 else 0.5)
        else om.m_d3SurveyData k r c := ⟨_, rfl⟩
  have key : Inv (d.nItNobs + 1) (calcRelativeAbundance ex d iyr om) := by
    unfold calcRelativeAbundance
    rw [← hs0]
    refine forLoop_invariant Inv 1 d.nItNobs _ s0 (by omega) ?_ ?_
    · subst hInv hP hs0
      refine ⟨⟨_, rfl⟩, ?_⟩
      intro k r c
      have : ¬ (1 ≤ k ∧ k < 1) := by omega
      simp only [this, false_and, if_false]
    · subst hInv
      rintro i t hi1 hi2 ⟨hPt, hsv⟩
      obtain ⟨hP', hget⟩ := hfl i t hPt
      refine ⟨hP', ?_⟩
      intro k r c
      dsimp only
      rw [hget, calcRelativeAbundance_row_get, hsv k r c]
      subst hs0
      dsimp only
      by_cases hki : k = i
      · subst hki
        have h1 : ¬ (1 ≤ k ∧ k < k) := by omega
        have h2 : (1 ≤ k ∧ k < k + 1) := by omega
        have h3 : ¬ (k < k) := Nat.lt_irrefl k
        simp only [h1, h2, h3, true_and, false_and, if_false]
      · have h1 : (1 ≤ k ∧ k < i + 1) ↔ (1 ≤ k ∧ k < i) := by omega
        simp only [hki, h1, false_and, if_false]
  subst hInv hP
  obtain ⟨⟨sv, hsv⟩, hall⟩ := key
  refine ⟨⟨sv, ?_⟩, ?_⟩
  · rw [hsv, hs0]
  · intro k r c
    rw [hall k r c]
    have h1 : (1 ≤ k ∧ k < d.nItNobs + 1) ↔ (1 ≤ k ∧ k ≤ d.nItNobs) := by omega
    simp only [h1]

end SurveyRows

/-- C24. With at least one area and one group, on the call of
`calcRelativeAbundance(iyr)` that brings its counter to `c` (the `c`-th call,
the counter starting at 0 and going up by one per call), for every series `k`
of `1..nItNobs` only the row `n_it_nobs(k) + c` of the series changes, and after
the call that row holds the year `iyr`, the area `narea`, the group `ngroup` and
the index `q(k) * Σ_h metric(h)` of the stratum `(narea, ngroup)`, the metric of
sex `h` being `Σ_a N*V` for type 1, `Σ_a N*V*W` for type 2 and `Σ_a N*Mat` for
type 3, with `V = exp(d4_logSel(gear))` and `gear` the gear code of the
series. -/
theorem calcRelativeAbundance_last_stratum_row (d : ModelData ℝ) (iyr : Nat)
    (om : OperatingModel ℝ) (hf : 1 ≤ d.narea) (hg : 1 ≤ d.ngroup)
    (c : Nat) (hc : om.calcRelativeAbundance_irow + 1 = c)
    (k : Nat) (hk1 : 1 ≤ k) (hk2 : k ≤ d.nItNobs) :
    (calcRelativeAbundance Real.exp d iyr om).calcRelativeAbundance_irow = c ∧
    (∀ r j, r ≠ d.n_it_nobs k + c →
      (calcRelativeAbundance Real.exp d iyr om).m_d3SurveyData k r j
        = om.m_d3SurveyData k r j) ∧
    (calcRelativeAbundance Real.exp d iyr om).m_d3SurveyData k (d.n_it_nobs k + c) 1 = iyr ∧
    (calcRelativeAbundance Real.exp d iyr om).m_d3SurveyData k (d.n_it_nobs k + c) 4
      = d.narea ∧
    (calcRelativeAbundance Real.exp d iyr om).m_d3SurveyData k (d.n_it_nobs k + c) 5
      = d.ngroup ∧
    (calcRelativeAbundance Real.exp d iyr om).m_d3SurveyData k (d.n_it_nobs k + c) 2
      = om.m_q k * ∑ h ∈ Finset.Icc 1 d.nsex,
          (match d.n_survey_type k with
            | 1 => ∑ a ∈ Finset.Icc d.sage d.nage,
                om.m_N (d.pntr_ags d.narea d.ngroup h) iyr a
                  * Real.exp (om.d4_logSel ⌊d.d3_survey_data k 1 3⌋₊
                      (d.pntr_ags d.narea d.ngroup h) iyr a)
            | 2 => ∑ a ∈ Finset.Icc d.sage d.nage,
                om.m_N (d.pntr_ags d.narea d.ngroup h) iyr a
                  * Real.exp (om.d4_logSel ⌊d.d3_survey_data k 1 3⌋₊
                      (d.pntr_ags d.narea d.ngroup h) iyr a)
                  * om.m_d3_wt_avg (d.pntr_ags d.narea d.ngroup h) iyr a
            | 3 => ∑ a ∈ Finset.Icc d.sage d.nage,
                om.m_N (d.pntr_ags d.narea d.ngroup h) iyr a
                  * om.m_d3_wt_mat (d.pntr_ags d.narea d.ngroup h) iyr a
            | _ => 0) := by
  subst hc
  obtain ⟨⟨sv, hfr⟩, hall⟩ := calcRelativeAbundance_spec Real.exp d iyr om hf hg
  have hk : (1 ≤ k ∧ k ≤ d.nItNobs) := ⟨hk1, hk2⟩
  refine ⟨?_, ?_, ?_, ?_, ?_, ?_⟩
  · rw [hfr]
  · intro r j hr
    rw [hall k r j]
    have : ¬ ((1 ≤ k ∧ k ≤ d.nItNobs) ∧
        r = d.n_it_nobs k + (om.calcRelativeAbundance_irow + 1) ∧ 1 ≤ j ∧ j ≤ 8) :=
      fun h => hr h.2.1
    rw [if_neg this]
  · rw [hall]
    simp [hk]
  · rw [hall]
    simp [hk]
  · rw [hall]
    simp [hk]
  · rw [hall, calcRelativeAbundance_dV_eq, if_pos ⟨hk, rfl, by decide, by decide⟩,
      if_neg (by decide), if_pos rfl]

/-- C24 on the first call for two areas, one group and two sexes with 100 fish
at each of the ages 1..2, selectivity 1 and `q = 0.5`: row 2 of the series holds
area 2 and the index `0.5 * 400 = 200`. -/
theorem calcRelativeAbundance_last_stratum_row_witness :
    1 ≤ (surveyData ℝ).narea ∧ 1 ≤ (surveyData ℝ).ngroup ∧
    (surveyModel ℝ).calcRelativeAbundance_irow + 1 = 1 ∧ 1 ≤ (surveyData ℝ).nItNobs ∧
    (calcRelativeAbundance Real.exp (surveyData ℝ) 2 (surveyModel ℝ)).m_d3SurveyData 1 2 4
      = 2 ∧
    (calcRelativeAbundance Real.exp (surveyData ℝ) 2 (surveyModel ℝ)).m_d3SurveyData 1 2 2
      = 200 :=
  have hw := calcRelativeAbundance_last_stratum_row (surveyData ℝ) 2 (surveyModel ℝ)
    (by decide) (by decide) 1 rfl 1 (le_refl 1) (le_refl 1)
  ⟨by decide, by decide, rfl, le_refl 1,
    hw.2.2.2.1.trans (by simp [surveyData, fisheryData, ModelData.blank]),
    hw.2.2.2.2.2.trans (by
      have h12 : Finset.Icc 1 2 = ({1, 2} : Finset Nat) := by decide
      simp [surveyData, surveyModel, fisheryData, fisheryModel, ModelData.blank,
        OperatingModel.blank, h12]
      norm_num)⟩

end Milka
